import Mathlib

/-!
Verification of the hybridnet network-state reconciliation engine.

This file gives a shallow embedding of three components of the repository:

* the CIDR-range calculator (`pkg/daemon/utils`, file with `FindSubnetExcludeIPBlocks`):
  IP ranges, `TryAddIP`, `splitIPRangeToIPBlocks`, `findTheFirstLargestCidr`,
  `FindSubnetExcludeIPBlocks`;
* the policy-route manager (`pkg/daemon/route/utils.go`): route-table and
  rule-priority allocation, `ensureFromPodSubnetRuleAndRoutes` and the per-mode
  route population, over an explicit kernel network state;
* the address manager (`pkg/daemon/addr`): `SyncAddresses` over the same kind
  of state.

IP addresses of one family of bit width `w` are embedded as natural numbers
(an address is the integer value of its bytes, `< 2 ^ w`).  Arithmetic that the
Go code performs through big integers (`utils.Cmp`, `utils.NextIP`,
`utils.PrevIP`, which live outside the verified sources and are modelled from
the spec) is carried out on `ℤ` where an intermediate value may leave the
address space, and on `ℕ` elsewhere.
-/

/-! ### CIDR-range calculator: data model -/

/-- Embedding of Go `net.IPNet` for one address family of width `w` bits:
`base` is the integer value of the network address and `prefixLen` the mask
length.  (`String` equality of `*net.IPNet` coincides with structural equality
of this representation.) -/
structure IPNet where
  base : ℕ
  prefixLen : ℕ
deriving DecidableEq, Repr

/-- Embedding of the calculator's `IPRange`: a closed interval of addresses.
Go's field `end` is a Lean keyword and is rendered `endIP`. -/
structure IPRange where
  start : ℕ
  endIP : ℕ
deriving DecidableEq, Repr

/-- `LastIP` of the source: last address of a CIDR block.  The source computes
it with an `ipaddr` cursor; for a well-formed block (aligned base, prefix
length at most `w`) this is `base + 2 ^ (w - prefixLen) - 1`. -/
def LastIP (w : ℕ) (cidr : IPNet) : ℕ :=
  cidr.base + 2 ^ (w - cidr.prefixLen) - 1

/-- `CreateIPRange` of the source.  Arguments are `ℤ` because callers pass
predecessor/successor values (`utils.PrevIP`, `utils.NextIP`, modelled from the
spec as integer `-1` / `+1`) that may fall outside the address space; the Go
nil-argument error branch is unrepresentable here.  A `start > end` pair yields
no range ("caller must treat as empty, not an error"). -/
def CreateIPRange (start e : ℤ) : Option IPRange :=
  if start > e then none else some ⟨start.toNat, e.toNat⟩

/-- `(*IPRange).TryAddIP` of the source, as a pure function returning the
success flag together with the (possibly extended) range.  The first test is
carried out on `ℤ`: for `start = 0` the Go code compares against the junk
value `utils.PrevIP(0)`, which equals no valid address, exactly as `-1`
does here. -/
def TryAddIP (ir : IPRange) (ipAddr : ℕ) : Bool × IPRange :=
  if (ipAddr : ℤ) = (ir.start : ℤ) - 1 then (true, ⟨ipAddr, ir.endIP⟩)
  else if ipAddr = ir.endIP + 1 then (true, ⟨ir.start, ipAddr⟩)
  else if ir.start ≤ ipAddr ∧ ipAddr ≤ ir.endIP then (true, ir)
  else (false, ir)

/-! ### CIDR-range calculator: greedy block decomposition -/

/-- Loop of `calculateIPLastZeroBits`: the smallest prefix length `p ≥ p₀` at
which masking `ip` to `p` bits preserves it, i.e. `ip % 2 ^ (w - p) = 0`.
The Go loop is unbounded but always stops by `p = w` (masking nothing away),
so fuel `w + 1 - p` never runs out. -/
def leastKeepPrefixAux (w ip : ℕ) : ℕ → ℕ → ℕ
  | p, 0 => p
  | p, fuel + 1 => if ip % 2 ^ (w - p) = 0 then p else leastKeepPrefixAux w ip (p + 1) fuel

def leastKeepPrefix (w ip : ℕ) (p : ℕ) : ℕ :=
  leastKeepPrefixAux w ip p (w + 1 - p)

/-- `calculateIPLastZeroBits` of the source: the number of trailing zero bits
of `ip` within the `w`-bit address space. -/
def calculateIPLastZeroBits (w ip : ℕ) : ℕ :=
  w - leastKeepPrefix w ip 0

/-- Inner loop of `findTheFirstLargestCidr`, growing the prefix length while
the candidate block still strictly contains `e`.  The Go loop is unbounded;
fuel `w + 1 - p` is always sufficient because the loop returns at `p = w`
(a one-address block), so the fuel-exhausted branch is unreachable there. -/
def findCidrAux (w start e : ℕ) : ℕ → ℕ → IPNet × Option ℕ
  | _, 0 => (⟨start, w⟩, none)
  | p, fuel + 1 =>
    let tmpCidr : IPNet := ⟨start, p⟩
    let tmpCidrEnd := LastIP w tmpCidr
    if tmpCidrEnd = e then (tmpCidr, none)
    else if start ≤ e ∧ e ≤ tmpCidrEnd then findCidrAux w start e (p + 1) fuel
    else (tmpCidr, some (tmpCidrEnd + 1))

/-- `findTheFirstLargestCidr` of the source: the alignment-limited largest
CIDR block anchored at `start` that does not extend past `e`, together with
the address just past the block (`none` when the block ends exactly at `e`). -/
def findTheFirstLargestCidr (w start e : ℕ) : IPNet × Option ℕ :=
  let minCidrPrefixLen := w - calculateIPLastZeroBits w start
  findCidrAux w start e minCidrPrefixLen (w + 1 - minCidrPrefixLen)

/-- Loop of `splitIPRangeToIPBlocks`.  The Go loop runs until the next start
address becomes nil; it does not terminate when `start > end`, which the fuel
parameter makes observable: the result is `none` exactly when the fuel runs
out before the range is consumed. -/
def splitIPRangeToIPBlocksAux (w e : ℕ) : ℕ → ℕ → Option (List IPNet)
  | _, 0 => none
  | s, fuel + 1 =>
    match findTheFirstLargestCidr w s e with
    | (newBlock, none) => some [newBlock]
    | (newBlock, some s') => (splitIPRangeToIPBlocksAux w e s' fuel).map (newBlock :: ·)

/-- `(*IPRange).splitIPRangeToIPBlocks` of the source.  For a well-formed
range (`start ≤ end`) fuel `end + 1 - start` is sufficient (proved below). -/
def splitIPRangeToIPBlocks (w : ℕ) (ir : IPRange) : List IPNet :=
  (splitIPRangeToIPBlocksAux w ir.endIP ir.start (ir.endIP + 1 - ir.start)).getD []

/-! ### CIDR-range calculator: `FindSubnetExcludeIPBlocks` -/

/-- The out-of-cidr test of the main loop of `FindSubnetExcludeIPBlocks`:
`Cmp(start, cidrStart) < 0 || Cmp(end, cidrEnd) > 0`. -/
def rangeOutOfCidr (cidrStart cidrEnd : ℕ) (r : IPRange) : Bool :=
  r.start < cidrStart || cidrEnd < r.endIP

/-- Body of the main loop of `FindSubnetExcludeIPBlocks` from the current
range onwards: per sorted included range, check bounds and overlap with the
next range, then append the gap from just past the range to just before the
next range (or to the cidr end for the last one). -/
def collectGapsAfter (cidrStart cidrEnd : ℕ) : IPRange → List IPRange → Except String (List IPRange)
  | r, [] =>
    if rangeOutOfCidr cidrStart cidrEnd r then .error "ip range is out of cidr"
    else
      match CreateIPRange ((r.endIP : ℤ) + 1) (cidrEnd : ℤ) with
      | some g => .ok [g]
      | none => .ok []
  | r, r' :: rest =>
    if rangeOutOfCidr cidrStart cidrEnd r then .error "ip range is out of cidr"
    else if r'.start ≤ r.endIP then .error "ip range is overlapped"
    else
      match CreateIPRange ((r.endIP : ℤ) + 1) ((r'.start : ℤ) - 1) with
      | some g => do
        let gs ← collectGapsAfter cidrStart cidrEnd r' rest
        pure (g :: gs)
      | none => collectGapsAfter cidrStart cidrEnd r' rest

/-- Main loop of `FindSubnetExcludeIPBlocks` over the sorted included ranges:
the leading gap `[cidrStart, first.start - 1]` is created in the first
iteration, the remaining gaps by `collectGapsAfter`. -/
def collectGaps (cidrStart cidrEnd : ℕ) (rs : List IPRange) : Except String (List IPRange) :=
  match rs with
  | [] => .ok []
  | r :: rest => do
    let gapsTail ← collectGapsAfter cidrStart cidrEnd r rest
    match CreateIPRange (cidrStart : ℤ) ((r.start : ℤ) - 1) with
    | some g => .ok (g :: gapsTail)
    | none => .ok gapsTail

/-- Inner loop of `Loop2` of `FindSubnetExcludeIPBlocks`: try `TryAddIP` on
each existing exclusion range in order, stopping at the first success. -/
def tryAddIPToRanges : List IPRange → ℕ → Bool × List IPRange
  | [], _ => (false, [])
  | r :: rs, ip =>
    match TryAddIP r ip with
    | (true, r') => (true, r' :: rs)
    | (false, _) =>
      let (ok, rs') := tryAddIPToRanges rs ip
      (ok, r :: rs')

/-- `Loop2` of `FindSubnetExcludeIPBlocks`: fold the gateway and the excluded
addresses into the exclusion ranges, opening a singleton range when no
existing range absorbs the address. -/
def foldExcludeIPs (ranges : List IPRange) : List ℕ → List IPRange
  | [] => ranges
  | ip :: ips =>
    let (ok, ranges') := tryAddIPToRanges ranges ip
    foldExcludeIPs (if ok then ranges' else ranges' ++ [⟨ip, ip⟩]) ips

/-- The `allExcludedIPs` construction of `FindSubnetExcludeIPBlocks`: the
gateway, when non-nil, is appended to the excluded addresses. -/
def gatewayList (gateway : Option ℕ) : List ℕ :=
  match gateway with
  | some g => [g]
  | none => []

/-- `FindSubnetExcludeIPBlocks` of the source.  `sort.Slice` orders the
included ranges by start address (embedded as a sort; when the result is
order-sensitive the ranges overlap and the function errors for every sorted
order). -/
def FindSubnetExcludeIPBlocks (w : ℕ) (cidr : IPNet) (includedRanges : List IPRange)
    (gateway : Option ℕ) (excludeIPs : List ℕ) : Except String (List IPNet) := do
  let cidrStart := cidr.base
  let cidrEnd := LastIP w cidr
  let sorted := includedRanges.insertionSort (fun a b => a.start ≤ b.start)
  let gaps ← collectGaps cidrStart cidrEnd sorted
  let allExcludedIPs := excludeIPs ++ gatewayList gateway
  let excludeIPRanges := foldExcludeIPs gaps allExcludedIPs
  pure (excludeIPRanges.flatMap (splitIPRangeToIPBlocks w))

/-! ### Well-formedness and address-set semantics of blocks and ranges -/

/-- A well-formed CIDR block for width `w`: prefix length in range and base
aligned to the prefix. -/
def IPNet.wf (w : ℕ) (b : IPNet) : Prop :=
  b.prefixLen ≤ w ∧ 2 ^ (w - b.prefixLen) ∣ b.base

/-- The set of addresses of a CIDR block. -/
def blockSet (w : ℕ) (b : IPNet) : Set ℕ :=
  Set.Icc b.base (LastIP w b)

/-- The set of addresses covered by a list of CIDR blocks. -/
def blocksUnion (w : ℕ) (bs : List IPNet) : Set ℕ :=
  {x | ∃ b ∈ bs, x ∈ blockSet w b}

/-- The set of addresses of an `IPRange`. -/
def rangeSet (r : IPRange) : Set ℕ :=
  Set.Icc r.start r.endIP

/-- The set of addresses covered by a list of `IPRange`s. -/
def rangesSet (rs : List IPRange) : Set ℕ :=
  {x | ∃ r ∈ rs, x ∈ rangeSet r}

theorem blocksUnion_nil (w : ℕ) : blocksUnion w [] = ∅ := by
  ext x; simp [blocksUnion]

theorem blocksUnion_cons (w : ℕ) (b : IPNet) (bs : List IPNet) :
    blocksUnion w (b :: bs) = blockSet w b ∪ blocksUnion w bs := by
  ext x
  simp only [blocksUnion, Set.mem_setOf_eq, Set.mem_union, List.mem_cons]
  constructor
  · rintro ⟨c, (rfl | hc), hx⟩
    · exact Or.inl hx
    · exact Or.inr ⟨c, hc, hx⟩
  · rintro (hx | ⟨c, hc, hx⟩)
    · exact ⟨b, Or.inl rfl, hx⟩
    · exact ⟨c, Or.inr hc, hx⟩

theorem rangesSet_nil : rangesSet [] = ∅ := by
  ext x; simp [rangesSet]

theorem rangesSet_cons (r : IPRange) (rs : List IPRange) :
    rangesSet (r :: rs) = rangeSet r ∪ rangesSet rs := by
  ext x
  simp only [rangesSet, Set.mem_setOf_eq, Set.mem_union, List.mem_cons]
  constructor
  · rintro ⟨c, (rfl | hc), hx⟩
    · exact Or.inl hx
    · exact Or.inr ⟨c, hc, hx⟩
  · rintro (hx | ⟨c, hc, hx⟩)
    · exact ⟨r, Or.inl rfl, hx⟩
    · exact ⟨c, Or.inr hc, hx⟩

theorem rangeMk_start (a b : ℕ) : (IPRange.mk a b).start = a := rfl

theorem rangeMk_endIP (a b : ℕ) : (IPRange.mk a b).endIP = b := rfl

/-! ### Trailing-zero bits -/

theorem leastKeepPrefixAux_spec (w ip : ℕ) : ∀ fuel p, w < p + fuel →
    p ≤ leastKeepPrefixAux w ip p fuel ∧
    ip % 2 ^ (w - leastKeepPrefixAux w ip p fuel) = 0 ∧
    (∀ q, p ≤ q → q < leastKeepPrefixAux w ip p fuel → ip % 2 ^ (w - q) ≠ 0) ∧
    leastKeepPrefixAux w ip p fuel ≤ max p w := by
  intro fuel
  induction fuel with
  | zero =>
    intro p h
    simp only [leastKeepPrefixAux]
    have hwp : w - p = 0 := by omega
    refine ⟨le_rfl, by simp [hwp, Nat.mod_one], ?_, le_max_left _ _⟩
    intro q hq1 hq2
    omega
  | succ f ih =>
    intro p h
    simp only [leastKeepPrefixAux]
    by_cases hc : ip % 2 ^ (w - p) = 0
    · rw [if_pos hc]
      refine ⟨le_rfl, hc, ?_, le_max_left _ _⟩
      intro q hq1 hq2
      omega
    · rw [if_neg hc]
      have hpw : p < w := by
        rcases Nat.lt_or_ge p w with h' | h'
        · exact h'
        · exact absurd (by simp [Nat.sub_eq_zero_of_le h', Nat.mod_one]) hc
      obtain ⟨h1, h2, h3, h4⟩ := ih (p + 1) (by omega)
      refine ⟨by omega, h2, ?_, by omega⟩
      intro q hq1 hq2
      rcases Nat.eq_or_lt_of_le hq1 with rfl | hlt
      · exact hc
      · exact h3 q hlt hq2

theorem leastKeepPrefix_mod (w ip p : ℕ) :
    ip % 2 ^ (w - leastKeepPrefix w ip p) = 0 :=
  (leastKeepPrefixAux_spec w ip (w + 1 - p) p (by omega)).2.1

theorem leastKeepPrefix_ge (w ip p : ℕ) : p ≤ leastKeepPrefix w ip p :=
  (leastKeepPrefixAux_spec w ip (w + 1 - p) p (by omega)).1

theorem leastKeepPrefix_min (w ip p q : ℕ) (hpq : p ≤ q)
    (hq : q < leastKeepPrefix w ip p) : ip % 2 ^ (w - q) ≠ 0 :=
  (leastKeepPrefixAux_spec w ip (w + 1 - p) p (by omega)).2.2.1 q hpq hq

theorem leastKeepPrefix_le (w ip : ℕ) : leastKeepPrefix w ip 0 ≤ w := by
  have := (leastKeepPrefixAux_spec w ip (w + 1 - 0) 0 (by omega)).2.2.2
  simpa using this

/-- The trailing-zero count divides: `2 ^ tz(ip) ∣ ip`. -/
theorem tz_dvd (w ip : ℕ) : 2 ^ calculateIPLastZeroBits w ip ∣ ip := by
  have h := leastKeepPrefix_mod w ip 0
  exact Nat.dvd_of_mod_eq_zero h

theorem tz_le (w ip : ℕ) : calculateIPLastZeroBits w ip ≤ w :=
  Nat.sub_le w _

/-- Maximality of the trailing-zero count within the address width. -/
theorem tz_max (w ip j : ℕ) (hj : j ≤ w) (hdvd : 2 ^ j ∣ ip) :
    j ≤ calculateIPLastZeroBits w ip := by
  by_contra hgt
  push_neg at hgt
  have hlkp : leastKeepPrefix w ip 0 ≤ w := leastKeepPrefix_le w ip
  have hq : w - j < leastKeepPrefix w ip 0 := by
    unfold calculateIPLastZeroBits at hgt
    omega
  have := leastKeepPrefix_min w ip 0 (w - j) (Nat.zero_le _) hq
  rw [Nat.sub_sub_self hj] at this
  obtain ⟨c, rfl⟩ := hdvd
  exact this (Nat.mul_mod_right _ _)

/-! ### Characterization of `findTheFirstLargestCidr` -/

theorem findCidrAux_spec (w s e : ℕ) (hse : s ≤ e) :
    ∀ fuel p, w < p + fuel → 1 ≤ fuel → p ≤ w → 2 ^ (w - p) ∣ s →
    ∃ P, findCidrAux w s e p fuel =
        (⟨s, P⟩, if s + 2 ^ (w - P) - 1 = e then none else some (s + 2 ^ (w - P))) ∧
      p ≤ P ∧ P ≤ w ∧ 2 ^ (w - P) ∣ s ∧ s + 2 ^ (w - P) - 1 ≤ e ∧
      ∀ j, j ≤ w - p → 2 ^ j ∣ s → s + 2 ^ j - 1 ≤ e → j ≤ w - P := by
  intro fuel
  induction fuel with
  | zero => intro p _ hf; omega
  | succ f ih =>
    intro p hpf _ hpw hdvd
    have hone : 1 ≤ 2 ^ (w - p) := Nat.one_le_two_pow
    by_cases hend : s + 2 ^ (w - p) - 1 = e
    · refine ⟨p, ?_, le_rfl, hpw, hdvd, by omega, fun j hj _ _ => hj⟩
      simp only [findCidrAux, LastIP]
      rw [if_pos hend, if_pos hend]
    · by_cases hcont : s ≤ e ∧ e ≤ s + 2 ^ (w - p) - 1
      · -- the block still strictly contains `e`: grow the prefix
        have hlt : e < s + 2 ^ (w - p) - 1 := lt_of_le_of_ne hcont.2 (fun h => hend h.symm)
        have hplt : p < w := by
          by_contra hge
          push_neg at hge
          have : w - p = 0 := by omega
          rw [this] at hlt
          simp at hlt
          omega
        have hf1 : 1 ≤ f := by omega
        have hdvd' : 2 ^ (w - (p + 1)) ∣ s :=
          dvd_trans (pow_dvd_pow 2 (by omega)) hdvd
        obtain ⟨P, heq, hpP, hPw, hPdvd, hPfit, hPmax⟩ :=
          ih (p + 1) (by omega) hf1 (by omega) hdvd'
        refine ⟨P, ?_, by omega, hPw, hPdvd, hPfit, ?_⟩
        · rw [show findCidrAux w s e p (f + 1) = findCidrAux w s e (p + 1) f by
            simp only [findCidrAux, LastIP]
            rw [if_neg hend, if_pos hcont]]
          exact heq
        · intro j hj hjdvd hjfit
          rcases Nat.lt_or_ge j (w - p) with hjlt | hjge
          · exact hPmax j (by omega) hjdvd hjfit
          · exfalso
            have : j = w - p := by omega
            subst this
            omega
      · -- the block falls short of `e`: emit it and continue just past it
        have hgt : s + 2 ^ (w - p) - 1 < e := by
          rcases Nat.lt_or_ge (s + 2 ^ (w - p) - 1) e with h | h
          · exact h
          · exact absurd ⟨hse, h⟩ hcont
        refine ⟨p, ?_, le_rfl, hpw, hdvd, by omega, fun j hj _ _ => hj⟩
        have : findCidrAux w s e p (f + 1) =
            (⟨s, p⟩, some (s + 2 ^ (w - p) - 1 + 1)) := by
          simp only [findCidrAux, LastIP]
          rw [if_neg hend, if_neg hcont]
        rw [this, if_neg hend]
        congr 1
        congr 1
        omega

theorem findTheFirstLargestCidr_spec (w s e : ℕ) (hse : s ≤ e) :
    ∃ P, findTheFirstLargestCidr w s e =
        (⟨s, P⟩, if s + 2 ^ (w - P) - 1 = e then none else some (s + 2 ^ (w - P))) ∧
      P ≤ w ∧ 2 ^ (w - P) ∣ s ∧ s + 2 ^ (w - P) - 1 ≤ e ∧
      ∀ j, j ≤ w → 2 ^ j ∣ s → s + 2 ^ j - 1 ≤ e → j ≤ w - P := by
  have htzle := tz_le w s
  have htzdvd := tz_dvd w s
  have hsub : w - (w - calculateIPLastZeroBits w s) = calculateIPLastZeroBits w s := by omega
  obtain ⟨P, heq, hpP, hPw, hPdvd, hPfit, hPmax⟩ :=
    findCidrAux_spec w s e hse (w + 1 - (w - calculateIPLastZeroBits w s))
      (w - calculateIPLastZeroBits w s) (by omega) (by omega) (by omega)
      (by rw [hsub]; exact htzdvd)
  refine ⟨P, heq, hPw, hPdvd, hPfit, ?_⟩
  intro j hjw hjdvd hjfit
  have hjtz : j ≤ calculateIPLastZeroBits w s := tz_max w s j hjw hjdvd
  exact hPmax j (by omega) hjdvd hjfit

/-! ### Characterization of `splitIPRangeToIPBlocks` -/

/-- The block that the spec's greedy step demands at start address `s` of a
range ending at `e`: anchored at `s`, with the largest size permitted by the
trailing-zero alignment of `s` that does not extend past `e`. -/
def GreedyBlockAt (w s e : ℕ) (b : IPNet) : Prop :=
  b.base = s ∧ b.prefixLen ≤ w ∧
  w - b.prefixLen ≤ calculateIPLastZeroBits w s ∧
  LastIP w b ≤ e ∧
  ∀ j, j ≤ calculateIPLastZeroBits w s → s + 2 ^ j - 1 ≤ e → j ≤ w - b.prefixLen

/-- The greedy decomposition demanded by the spec, as a chain: each block is
the greedy block at the current start address, and the next start is just past
the block, until a block ends exactly at `e`. -/
inductive GreedyChain (w e : ℕ) : ℕ → List IPNet → Prop where
  | last {s : ℕ} {b : IPNet} : GreedyBlockAt w s e b → LastIP w b = e →
      GreedyChain w e s [b]
  | cons {s : ℕ} {b : IPNet} {bs : List IPNet} : GreedyBlockAt w s e b →
      LastIP w b < e → GreedyChain w e (LastIP w b + 1) bs →
      GreedyChain w e s (b :: bs)

theorem greedyBlockAt_of_spec (w s e P : ℕ) (hPw : P ≤ w) (hdvd : 2 ^ (w - P) ∣ s)
    (hfit : s + 2 ^ (w - P) - 1 ≤ e)
    (hmax : ∀ j, j ≤ w → 2 ^ j ∣ s → s + 2 ^ j - 1 ≤ e → j ≤ w - P) :
    GreedyBlockAt w s e ⟨s, P⟩ := by
  refine ⟨rfl, hPw, tz_max w s (w - P) (by omega) hdvd, ?_, ?_⟩
  · simpa [LastIP] using hfit
  · intro j hjtz hjfit
    have hjw : j ≤ w := le_trans hjtz (tz_le w s)
    have hjdvd : 2 ^ j ∣ s := dvd_trans (pow_dvd_pow 2 hjtz) (tz_dvd w s)
    exact hmax j hjw hjdvd hjfit

theorem splitAux_step_none (w e s f : ℕ) (b : IPNet)
    (h : findTheFirstLargestCidr w s e = (b, none)) :
    splitIPRangeToIPBlocksAux w e s (f + 1) = some [b] := by
  simp only [splitIPRangeToIPBlocksAux]
  rw [h]

theorem splitAux_step_some (w e s f s' : ℕ) (b : IPNet)
    (h : findTheFirstLargestCidr w s e = (b, some s')) :
    splitIPRangeToIPBlocksAux w e s (f + 1) =
      (splitIPRangeToIPBlocksAux w e s' f).map (b :: ·) := by
  simp only [splitIPRangeToIPBlocksAux]
  rw [h]

theorem splitAux_spec (w : ℕ) : ∀ n s e, s ≤ e → e + 1 - s ≤ n →
    ∃ bs, (∀ fuel, e + 1 - s ≤ fuel → splitIPRangeToIPBlocksAux w e s fuel = some bs) ∧
      bs ≠ [] ∧
      (∀ b ∈ bs, IPNet.wf w b ∧ s ≤ b.base ∧ LastIP w b ≤ e) ∧
      blocksUnion w bs = Set.Icc s e ∧
      List.Pairwise (fun a b => LastIP w a < b.base) bs ∧
      GreedyChain w e s bs := by
  intro n
  induction n using Nat.strong_induction_on with
  | _ n ih =>
    intro s e hse hn
    obtain ⟨P, heq, hPw, hPdvd, hPfit, hPmax⟩ := findTheFirstLargestCidr_spec w s e hse
    have hone : 1 ≤ 2 ^ (w - P) := Nat.one_le_two_pow
    have hblock : GreedyBlockAt w s e ⟨s, P⟩ :=
      greedyBlockAt_of_spec w s e P hPw hPdvd hPfit hPmax
    have hLast : LastIP w ⟨s, P⟩ = s + 2 ^ (w - P) - 1 := rfl
    by_cases hLe : s + 2 ^ (w - P) - 1 = e
    · -- the first greedy block consumes the whole range
      have heq' : findTheFirstLargestCidr w s e = (⟨s, P⟩, none) := by
        rw [heq, if_pos hLe]
      refine ⟨[⟨s, P⟩], ?_, by simp, ?_, ?_, by simp, GreedyChain.last hblock (by omega)⟩
      · intro fuel hf
        obtain ⟨f, rfl⟩ : ∃ f, fuel = f + 1 := ⟨fuel - 1, by omega⟩
        exact splitAux_step_none w e s f _ heq'
      · intro b hb
        rw [List.mem_singleton] at hb
        subst hb
        exact ⟨⟨hPw, hPdvd⟩, le_rfl, by omega⟩
      · rw [blocksUnion_cons, blocksUnion_nil]
        ext x
        simp only [Set.mem_union, Set.mem_empty_iff_false, or_false, blockSet,
          Set.mem_Icc, hLast]
        omega
    · -- the first greedy block falls short; recurse just past it
      have hLlt : s + 2 ^ (w - P) - 1 < e := lt_of_le_of_ne hPfit hLe
      have heq' : findTheFirstLargestCidr w s e = (⟨s, P⟩, some (s + 2 ^ (w - P))) := by
        rw [heq, if_neg hLe]
      set s' := s + 2 ^ (w - P) with hs'
      have hs'le : s' ≤ e := by omega
      obtain ⟨bs', hfuel', hne', hmem', hunion', hpw', hchain'⟩ :=
        ih (e + 1 - s') (by omega) s' e hs'le le_rfl
      refine ⟨⟨s, P⟩ :: bs', ?_, by simp, ?_, ?_, ?_, ?_⟩
      · intro fuel hf
        obtain ⟨f, rfl⟩ : ∃ f, fuel = f + 1 := ⟨fuel - 1, by omega⟩
        rw [splitAux_step_some w e s f s' _ heq', hfuel' f (by omega)]
        rfl
      · intro b hb
        rcases List.mem_cons.mp hb with rfl | hb'
        · exact ⟨⟨hPw, hPdvd⟩, le_rfl, by omega⟩
        · obtain ⟨hwf, hge, hle⟩ := hmem' b hb'
          exact ⟨hwf, by omega, hle⟩
      · rw [blocksUnion_cons, hunion']
        ext x
        simp only [Set.mem_union, blockSet, Set.mem_Icc, hLast, Set.mem_Icc]
        omega
      · refine List.Pairwise.cons ?_ hpw'
        intro b hb
        have := (hmem' b hb).2.1
        omega
      · exact GreedyChain.cons hblock (by omega) (by rw [hLast, show s + 2 ^ (w - P) - 1 + 1 = s' by omega]; exact hchain')

/-! ### Minimality of the greedy decomposition -/

/-- Two aligned power-of-two intervals sharing a point are nested: the one
with the smaller exponent is contained in the other. -/
theorem aligned_interval_subset (i j x a c : ℕ) (hij : i ≤ j)
    (ha : 2 ^ i ∣ a) (hc : 2 ^ j ∣ c)
    (hxa1 : a ≤ x) (hxa2 : x ≤ a + 2 ^ i - 1)
    (hxc1 : c ≤ x) (hxc2 : x ≤ c + 2 ^ j - 1) :
    c ≤ a ∧ a + 2 ^ i - 1 ≤ c + 2 ^ j - 1 := by
  have hi1 : 1 ≤ 2 ^ i := Nat.one_le_two_pow
  have hj1 : 1 ≤ 2 ^ j := Nat.one_le_two_pow
  obtain ⟨qa, rfl⟩ := ha
  obtain ⟨qc, rfl⟩ := hc
  have hqa : x / 2 ^ i = qa := by
    apply Nat.div_eq_of_lt_le
    · exact le_trans (le_of_eq (Nat.mul_comm qa _)) hxa1
    · calc x ≤ 2 ^ i * qa + 2 ^ i - 1 := hxa2
        _ < (qa + 1) * 2 ^ i := by rw [Nat.add_mul, Nat.one_mul, Nat.mul_comm]; omega
  have hqc : x / 2 ^ j = qc := by
    apply Nat.div_eq_of_lt_le
    · exact le_trans (le_of_eq (Nat.mul_comm qc _)) hxc1
    · calc x ≤ 2 ^ j * qc + 2 ^ j - 1 := hxc2
        _ < (qc + 1) * 2 ^ j := by rw [Nat.add_mul, Nat.one_mul, Nat.mul_comm]; omega
  have hsplit : (2 : ℕ) ^ j = 2 ^ i * 2 ^ (j - i) := by
    rw [← pow_add]
    congr 1
    omega
  constructor
  · -- `c ≤ a`: the bigger aligned block starts no later
    have h1 : 2 ^ j * qc ≤ 2 ^ i * (x / 2 ^ i) := by
      rw [← hqc, hsplit]
      have hdd : x / (2 ^ i * 2 ^ (j - i)) = x / 2 ^ i / 2 ^ (j - i) :=
        (Nat.div_div_eq_div_mul x (2 ^ i) (2 ^ (j - i))).symm
      rw [Nat.mul_assoc, hdd]
      have := Nat.div_mul_le_self (x / 2 ^ i) (2 ^ (j - i))
      calc 2 ^ i * (2 ^ (j - i) * (x / 2 ^ i / 2 ^ (j - i)))
          = 2 ^ i * (x / 2 ^ i / 2 ^ (j - i) * 2 ^ (j - i)) := by ring
        _ ≤ 2 ^ i * (x / 2 ^ i) := Nat.mul_le_mul_left _ this
    rw [hqa] at h1
    exact h1
  · -- the bigger aligned block ends no earlier
    have hgt : x < 2 ^ j * qc + 2 ^ j := by omega
    have hmul : x < 2 ^ i * (2 ^ (j - i) * (qc + 1)) := by
      calc x < 2 ^ j * qc + 2 ^ j := hgt
        _ = 2 ^ j * (qc + 1) := by ring
        _ = 2 ^ i * (2 ^ (j - i) * (qc + 1)) := by rw [hsplit]; ring
    have hdivlt : x / 2 ^ i < 2 ^ (j - i) * (qc + 1) :=
      (Nat.div_lt_iff_lt_mul (by positivity)).mpr
        (lt_of_lt_of_le hmul (le_of_eq (Nat.mul_comm _ _)))
    have h2 : 2 ^ i * (x / 2 ^ i) + 2 ^ i ≤ 2 ^ j * qc + 2 ^ j := by
      calc 2 ^ i * (x / 2 ^ i) + 2 ^ i = 2 ^ i * (x / 2 ^ i + 1) := by ring
        _ ≤ 2 ^ i * (2 ^ (j - i) * (qc + 1)) := Nat.mul_le_mul_left _ (by omega)
        _ = 2 ^ j * (qc + 1) := by rw [hsplit]; ring
        _ = 2 ^ j * qc + 2 ^ j := by ring
    rw [hqa] at h2
    omega

/-- Every list with a member satisfying `p` has a member maximal for `f`
among those satisfying `p`. -/
theorem exists_max_measure {α : Type} (l : List α) (p : α → Prop) (f : α → ℕ)
    (h : ∃ a ∈ l, p a) : ∃ a ∈ l, p a ∧ ∀ b ∈ l, p b → f b ≤ f a := by
  induction l with
  | nil => obtain ⟨a, ha, _⟩ := h; cases ha
  | cons x xs ih =>
    by_cases hex : ∃ a ∈ xs, p a
    · obtain ⟨a, ha, hpa, hmax⟩ := ih hex
      by_cases hx : p x ∧ f a ≤ f x
      · refine ⟨x, List.mem_cons_self x xs, hx.1, ?_⟩
        intro b hb hpb
        rcases List.mem_cons.mp hb with rfl | hb'
        · exact le_rfl
        · exact le_trans (hmax b hb' hpb) hx.2
      · refine ⟨a, List.mem_cons_of_mem x ha, hpa, ?_⟩
        intro b hb hpb
        rcases List.mem_cons.mp hb with rfl | hb'
        · rcases Nat.le_total (f b) (f a) with h' | h'
          · exact h'
          · exact absurd ⟨hpb, h'⟩ hx
        · exact hmax b hb' hpb
    · obtain ⟨a, ha, hpa⟩ := h
      rcases List.mem_cons.mp ha with rfl | ha'
      · refine ⟨a, List.mem_cons_self a xs, hpa, ?_⟩
        intro b hb hpb
        rcases List.mem_cons.mp hb with rfl | hb'
        · exact le_rfl
        · exact absurd ⟨b, hb', hpb⟩ hex
      · exact absurd ⟨a, ha', hpa⟩ hex

/-- Filtering out a present element that fails the predicate shortens the
list strictly. -/
theorem length_filter_lt {α : Type} (l : List α) (p : α → Bool) (a : α)
    (ha : a ∈ l) (hpa : p a = false) : (l.filter p).length < l.length := by
  induction l with
  | nil => cases ha
  | cons x xs ih =>
    rcases List.mem_cons.mp ha with rfl | ha'
    · rw [List.filter_cons, hpa]
      simp only [List.length_cons]
      exact Nat.lt_succ_of_le (List.length_filter_le p xs)
    · rw [List.filter_cons]
      by_cases hx : p x
      · simp only [hx, if_pos, List.length_cons]
        exact Nat.succ_lt_succ (ih ha')
      · simp only [hx, if_neg, Bool.false_eq_true, List.length_cons]
        exact Nat.lt_succ_of_lt (ih ha')

/-- Number of blocks the greedy decomposition emits for `[s, e]` (0 when the
interval is empty, i.e. `s = e + 1`). -/
def greedyCount (w s e : ℕ) : ℕ :=
  ((splitIPRangeToIPBlocksAux w e s (e + 1 - s)).map List.length).getD 0

theorem greedyCount_empty (w e : ℕ) : greedyCount w (e + 1) e = 0 := by
  unfold greedyCount
  rw [show e + 1 - (e + 1) = 0 by omega]
  rfl

theorem greedyCount_of_none (w s e : ℕ) (b : IPNet) (hse : s ≤ e)
    (h : findTheFirstLargestCidr w s e = (b, none)) : greedyCount w s e = 1 := by
  unfold greedyCount
  obtain ⟨f, hf⟩ : ∃ f, e + 1 - s = f + 1 := ⟨e - s, by omega⟩
  rw [hf, splitAux_step_none w e s f b h]
  rfl

theorem greedyCount_of_some (w s e s' : ℕ) (b : IPNet) (hse : s ≤ e)
    (hlt : s < s') (hs'e : s' ≤ e)
    (h : findTheFirstLargestCidr w s e = (b, some s')) :
    greedyCount w s e = 1 + greedyCount w s' e := by
  obtain ⟨bs', hfuel', -⟩ := splitAux_spec w (e + 1 - s') s' e hs'e le_rfl
  unfold greedyCount
  obtain ⟨f, hf⟩ : ∃ f, e + 1 - s = f + 1 := ⟨e - s, by omega⟩
  rw [hf, splitAux_step_some w e s f s' b h, hfuel' f (by omega), hfuel' (e + 1 - s') le_rfl]
  simp [Nat.add_comm]

/-- Telescoping bound: starting the greedy decomposition at `s + 2 ^ j`
instead of `s + 2 ^ k` (for `j ≤ k`, both aligned at `s`) costs at least
`k - j` extra blocks. -/
theorem greedyCount_shift (w e : ℕ) : ∀ d j k s, k - j ≤ d → j ≤ w → k ≤ w →
    2 ^ k ∣ s → j ≤ k → s + 2 ^ k - 1 ≤ e →
    (k - j) + greedyCount w (s + 2 ^ k) e ≤ greedyCount w (s + 2 ^ j) e := by
  intro d
  induction d with
  | zero =>
    intro j k s hd _ _ _ hjk _
    have : j = k := by omega
    subst this
    omega
  | succ d ih =>
    intro j k s hd hjw hkw hdvd hjk hfit
    rcases Nat.eq_or_lt_of_le hjk with rfl | hlt
    · omega
    · have hj1k : j + 1 ≤ k := hlt
      have h2j1 : 1 ≤ 2 ^ j := Nat.one_le_two_pow
      have h2k1 : 1 ≤ 2 ^ k := Nat.one_le_two_pow
      have h2jsucc : (2 : ℕ) ^ (j + 1) = 2 ^ j + 2 ^ j := by rw [pow_succ]; omega
      have h2j1k : (2 : ℕ) ^ (j + 1) ≤ 2 ^ k := Nat.pow_le_pow_right (by norm_num) hj1k
      have h2jk : (2 : ℕ) ^ j < 2 ^ k := by omega
      have hs'e : s + 2 ^ j ≤ e := by omega
      obtain ⟨P, heq, hPw, hPdvd, hPfit, hPmax⟩ :=
        findTheFirstLargestCidr_spec w (s + 2 ^ j) e hs'e
      have hdvdj1 : 2 ^ (j + 1) ∣ s := dvd_trans (pow_dvd_pow 2 hj1k) hdvd
      have hdvdj : 2 ^ j ∣ s := dvd_trans (pow_dvd_pow 2 (by omega)) hdvd
      have hj_le : j ≤ w - P := by
        refine hPmax j hjw (dvd_add hdvdj dvd_rfl) ?_
        omega
      have hj_ge : w - P ≤ j := by
        by_contra hgt
        push_neg at hgt
        have hdvd' : 2 ^ (j + 1) ∣ s + 2 ^ j :=
          dvd_trans (pow_dvd_pow 2 (by omega)) hPdvd
        have : (2 : ℕ) ^ (j + 1) ∣ 2 ^ j := by
          have := Nat.dvd_sub' hdvd' hdvdj1
          simpa using this
        have := Nat.le_of_dvd (by positivity) this
        omega
      have hwPj : w - P = j := le_antisymm hj_ge hj_le
      rw [hwPj] at heq hPfit
      by_cases hend : s + 2 ^ j + 2 ^ j - 1 = e
      · have hcount1 : greedyCount w (s + 2 ^ j) e = 1 :=
          greedyCount_of_none w (s + 2 ^ j) e _ hs'e (by rw [heq, if_pos hend])
        have hk : k = j + 1 := by
          by_contra hne
          have hj2k : j + 2 ≤ k := by omega
          have : (2 : ℕ) ^ (j + 2) ≤ 2 ^ k := Nat.pow_le_pow_right (by norm_num) hj2k
          have h22 : (2 : ℕ) ^ (j + 2) = 2 ^ j + 2 ^ j + 2 ^ j + 2 ^ j := by
            rw [pow_succ, pow_succ]; omega
          omega
        have hempty : greedyCount w (s + 2 ^ k) e = 0 := by
          rw [hk, show s + 2 ^ (j + 1) = e + 1 by omega]
          exact greedyCount_empty w e
        omega
      · have hltend : s + 2 ^ j + 2 ^ j - 1 < e := lt_of_le_of_ne hPfit hend
        have hcount : greedyCount w (s + 2 ^ j) e =
            1 + greedyCount w (s + 2 ^ j + 2 ^ j) e :=
          greedyCount_of_some w (s + 2 ^ j) e (s + 2 ^ j + 2 ^ j) _ hs'e (by omega)
            (by omega) (by rw [heq, if_neg hend])
        have hrec := ih (j + 1) k s (by omega) (by omega) hkw hdvd hj1k hfit
        rw [show s + 2 ^ (j + 1) = s + 2 ^ j + 2 ^ j by omega] at hrec
        omega

/-- Lower bound: every list of well-formed CIDR blocks whose union is exactly
`[s, e]` has at least as many blocks as the greedy decomposition. -/
theorem greedy_minimal (w : ℕ) : ∀ n s e, s ≤ e → e + 1 - s ≤ n →
    ∀ cover : List IPNet, (∀ b ∈ cover, IPNet.wf w b) →
    blocksUnion w cover = Set.Icc s e → greedyCount w s e ≤ cover.length := by
  intro n
  induction n using Nat.strong_induction_on with
  | _ n ih =>
    intro s e hse hn cover hwf hunion
    have hsmem : s ∈ blocksUnion w cover := by
      rw [hunion]; exact Set.mem_Icc.mpr ⟨le_rfl, hse⟩
    simp only [blocksUnion, Set.mem_setOf_eq] at hsmem
    obtain ⟨B₀, hB₀mem, hB₀s, hB₀max⟩ :=
      exists_max_measure cover (fun b => s ∈ blockSet w b) (fun b => w - b.prefixLen) hsmem
    have hsub : ∀ b ∈ cover, blockSet w b ⊆ Set.Icc s e := by
      intro b hb x hx
      rw [← hunion]
      exact ⟨b, hb, hx⟩
    have hbase_mem : ∀ b : IPNet, b.base ∈ blockSet w b := by
      intro b
      have h1 : 1 ≤ 2 ^ (w - b.prefixLen) := Nat.one_le_two_pow
      exact Set.mem_Icc.mpr ⟨le_rfl, by unfold LastIP; omega⟩
    have hlast_mem : ∀ b : IPNet, LastIP w b ∈ blockSet w b := by
      intro b
      have h1 : 1 ≤ 2 ^ (w - b.prefixLen) := Nat.one_le_two_pow
      exact Set.mem_Icc.mpr ⟨by unfold LastIP; omega, le_rfl⟩
    have hB₀base : B₀.base = s := by
      have hge : s ≤ B₀.base := (Set.mem_Icc.mp (hsub B₀ hB₀mem (hbase_mem B₀))).1
      have hle : B₀.base ≤ s := (Set.mem_Icc.mp hB₀s).1
      omega
    have hB₀wf := hwf B₀ hB₀mem
    have hjw : w - B₀.prefixLen ≤ w := Nat.sub_le w _
    have hjdvd : 2 ^ (w - B₀.prefixLen) ∣ s := hB₀base ▸ hB₀wf.2
    have h2j1 : 1 ≤ 2 ^ (w - B₀.prefixLen) := Nat.one_le_two_pow
    have hjfit : s + 2 ^ (w - B₀.prefixLen) - 1 ≤ e := by
      have := (Set.mem_Icc.mp (hsub B₀ hB₀mem (hlast_mem B₀))).2
      unfold LastIP at this
      rw [hB₀base] at this
      exact this
    obtain ⟨P, heq, hPw, hPdvd, hPfit, hPmax⟩ := findTheFirstLargestCidr_spec w s e hse
    have hjk : w - B₀.prefixLen ≤ w - P := hPmax _ hjw hjdvd hjfit
    have h2k1 : 1 ≤ 2 ^ (w - P) := Nat.one_le_two_pow
    by_cases hLe : s + 2 ^ (w - P) - 1 = e
    · have hc1 : greedyCount w s e = 1 :=
        greedyCount_of_none w s e _ hse (by rw [heq, if_pos hLe])
      have hpos : 0 < cover.length :=
        List.length_pos.mpr (fun h => by subst h; cases hB₀mem)
      omega
    · have hLlt : s + 2 ^ (w - P) - 1 < e := lt_of_le_of_ne hPfit hLe
      have hcount : greedyCount w s e = 1 + greedyCount w (s + 2 ^ (w - P)) e :=
        greedyCount_of_some w s e (s + 2 ^ (w - P)) _ hse (by omega) (by omega)
          (by rw [heq, if_neg hLe])
      have h2jk : (2 : ℕ) ^ (w - B₀.prefixLen) ≤ 2 ^ (w - P) :=
        Nat.pow_le_pow_right (by norm_num) hjk
      have hs2je : s + 2 ^ (w - B₀.prefixLen) ≤ e := by
        rcases Nat.eq_or_lt_of_le hjk with hjkeq | hjk'
        · rw [hjkeq]; omega
        · have : (2 : ℕ) ^ (w - B₀.prefixLen + 1) ≤ 2 ^ (w - P) :=
            Nat.pow_le_pow_right (by norm_num) hjk'
          rw [pow_succ] at this
          omega
      have hTwf : ∀ b ∈ cover.filter (fun B => decide (s + 2 ^ (w - B₀.prefixLen) - 1 < B.base)),
          IPNet.wf w b := fun b hb => hwf b (List.mem_of_mem_filter hb)
      have hTunion : blocksUnion w
          (cover.filter (fun B => decide (s + 2 ^ (w - B₀.prefixLen) - 1 < B.base))) =
          Set.Icc (s + 2 ^ (w - B₀.prefixLen)) e := by
        ext x
        simp only [blocksUnion, Set.mem_setOf_eq]
        constructor
        · rintro ⟨b, hb, hx⟩
          have hbc := List.mem_of_mem_filter hb
          have hfb : s + 2 ^ (w - B₀.prefixLen) - 1 < b.base := by
            have := List.of_mem_filter hb
            simpa using this
          have hxe := (Set.mem_Icc.mp (hsub b hbc hx)).2
          have hbx : b.base ≤ x := (Set.mem_Icc.mp hx).1
          exact Set.mem_Icc.mpr ⟨by omega, hxe⟩
        · intro hx
          rw [Set.mem_Icc] at hx
          have hxc : x ∈ blocksUnion w cover := by
            rw [hunion]; exact Set.mem_Icc.mpr ⟨by omega, hx.2⟩
          simp only [blocksUnion, Set.mem_setOf_eq] at hxc
          obtain ⟨b, hb, hxb⟩ := hxc
          refine ⟨b, ?_, hxb⟩
          rw [List.mem_filter]
          refine ⟨hb, ?_⟩
          simp only [decide_eq_true_eq]
          by_contra hble
          push_neg at hble
          have hbwf := hwf b hb
          have hbbase_ge : s ≤ b.base := (Set.mem_Icc.mp (hsub b hb (hbase_mem b))).1
          have h2i1 : 1 ≤ 2 ^ (w - b.prefixLen) := Nat.one_le_two_pow
          have hij : w - b.prefixLen ≤ w - B₀.prefixLen := by
            rcases Nat.le_total (w - b.prefixLen) (w - B₀.prefixLen) with h | hji
            · exact h
            · -- `B₀ ⊆ b`, so `b` contains `s` and maximality applies
              obtain ⟨hca, hend⟩ := aligned_interval_subset (w - B₀.prefixLen)
                (w - b.prefixLen) b.base B₀.base b.base hji (hB₀wf.2) (hbwf.2)
                (by rw [hB₀base]; omega)
                (by rw [hB₀base]; omega)
                le_rfl (by omega)
              have hsb : s ∈ blockSet w b := by
                refine Set.mem_Icc.mpr ⟨by omega, ?_⟩
                unfold LastIP
                rw [hB₀base] at hend
                omega
              exact hB₀max b hb hsb
          obtain ⟨-, hend⟩ := aligned_interval_subset (w - b.prefixLen)
            (w - B₀.prefixLen) b.base b.base B₀.base hij (hbwf.2) (hB₀wf.2)
            le_rfl (by omega)
            (by rw [hB₀base]; omega)
            (by rw [hB₀base]; omega)
          have hxlast := (Set.mem_Icc.mp hxb).2
          unfold LastIP at hxlast
          rw [hB₀base] at hend
          omega
      have hTlen : (cover.filter (fun B => decide (s + 2 ^ (w - B₀.prefixLen) - 1 < B.base))).length
          < cover.length := by
        refine length_filter_lt cover _ B₀ hB₀mem ?_
        simp only [decide_eq_false_iff_not, not_lt, hB₀base]
        omega
      have hTcount := ih (e + 1 - (s + 2 ^ (w - B₀.prefixLen))) (by omega)
        (s + 2 ^ (w - B₀.prefixLen)) e hs2je le_rfl _ hTwf hTunion
      have hshift := greedyCount_shift w e (w - P - (w - B₀.prefixLen))
        (w - B₀.prefixLen) (w - P) s le_rfl hjw (Nat.sub_le w _) hPdvd hjk hPfit
      omega

/-! ### Claim theorems for the greedy decomposition -/

theorem findTheFirstLargestCidr_of_gt (w s e : ℕ) (h : e < s) :
    ∃ b s', findTheFirstLargestCidr w s e = (b, some s') ∧ s < s' := by
  have hminP : w - calculateIPLastZeroBits w s ≤ w := Nat.sub_le w _
  have hunfold : findTheFirstLargestCidr w s e =
      findCidrAux w s e (w - calculateIPLastZeroBits w s)
        (w + 1 - (w - calculateIPLastZeroBits w s)) := rfl
  obtain ⟨f, hf⟩ : ∃ f, w + 1 - (w - calculateIPLastZeroBits w s) = f + 1 :=
    ⟨w - (w - calculateIPLastZeroBits w s), by omega⟩
  rw [hunfold, hf]
  simp only [findCidrAux, LastIP]
  have h1 : 1 ≤ 2 ^ (w - (w - calculateIPLastZeroBits w s)) := Nat.one_le_two_pow
  rw [if_neg (by omega), if_neg (by rintro ⟨h2, -⟩; omega)]
  exact ⟨_, _, rfl, by omega⟩

theorem splitAux_none_of_gt (w e : ℕ) : ∀ fuel s, e < s →
    splitIPRangeToIPBlocksAux w e s fuel = none := by
  intro fuel
  induction fuel with
  | zero => intro s _; rfl
  | succ f ihf =>
    intro s hlt
    obtain ⟨b, s', heq, hs'⟩ := findTheFirstLargestCidr_of_gt w s e hlt
    rw [splitAux_step_some w e s f s' b heq, ihf s' (by omega)]
    rfl

/-- C10: for `start ≤ end` each `findTheFirstLargestCidr` call yields a block
ending at or before `end` and a strictly larger next start within the range,
so `splitIPRangeToIPBlocks` consumes the range in at most `end + 1 - start`
steps (fuel beyond that bound does not change the result); for `start > end`
the loop never terminates (every fuel amount is exhausted). -/
theorem splitIPRangeToIPBlocks_terminates (w s e : ℕ) :
    (s ≤ e →
      (∀ b nxt, findTheFirstLargestCidr w s e = (b, nxt) →
        LastIP w b ≤ e ∧ ∀ s', nxt = some s' → s < s' ∧ s' ≤ e) ∧
      ∀ fuel, e + 1 - s ≤ fuel →
        splitIPRangeToIPBlocksAux w e s fuel =
            splitIPRangeToIPBlocksAux w e s (e + 1 - s) ∧
          ∃ bs, splitIPRangeToIPBlocksAux w e s fuel = some bs) ∧
    (e < s → ∀ fuel, splitIPRangeToIPBlocksAux w e s fuel = none) := by
  constructor
  · intro hse
    obtain ⟨P, heq, hPw, hPdvd, hPfit, hPmax⟩ := findTheFirstLargestCidr_spec w s e hse
    have h2 : 1 ≤ 2 ^ (w - P) := Nat.one_le_two_pow
    constructor
    · intro b nxt hbn
      rw [heq] at hbn
      obtain ⟨hb, hn⟩ := Prod.mk.injEq .. ▸ hbn
      have hb' : b = ⟨s, P⟩ := by cases hbn; rfl
      subst hb'
      refine ⟨by unfold LastIP; simpa using hPfit, ?_⟩
      intro s' hs'
      rw [← hn] at hs'
      by_cases hLe : s + 2 ^ (w - P) - 1 = e
      · rw [if_pos hLe] at hs'; cases hs'
      · rw [if_neg hLe] at hs'
        cases hs'
        have : s + 2 ^ (w - P) - 1 < e := lt_of_le_of_ne hPfit hLe
        omega
    · intro fuel hfuel
      obtain ⟨bs, hfuelbs, -⟩ := splitAux_spec w (e + 1 - s) s e hse le_rfl
      rw [hfuelbs fuel hfuel, hfuelbs (e + 1 - s) le_rfl]
      exact ⟨rfl, bs, rfl⟩
  · intro hlt fuel
    exact splitAux_none_of_gt w e fuel s hlt

theorem splitIPRangeToIPBlocks_terminates_witness :
    ∃ bs, splitIPRangeToIPBlocksAux 32 9 0 10 = some bs :=
  (((splitIPRangeToIPBlocks_terminates 32 0 9).1 (by decide)).2 10 (by decide)).2

/-- C2: for a well-formed `IPRange` (`start ≤ end`), `splitIPRangeToIPBlocks`
returns pairwise-disjoint well-formed CIDR blocks whose union is exactly
`[start, end]`, forming the greedy chain (each block anchored at the current
start with the largest alignment-permitted size not extending past `end`),
and no list of well-formed CIDR blocks whose union is exactly `[start, end]`
is shorter. -/
theorem splitIPRangeToIPBlocks_correct (w : ℕ) (ir : IPRange)
    (hse : ir.start ≤ ir.endIP) :
    (∀ b ∈ splitIPRangeToIPBlocks w ir, IPNet.wf w b) ∧
    List.Pairwise (fun a b => Disjoint (blockSet w a) (blockSet w b))
      (splitIPRangeToIPBlocks w ir) ∧
    blocksUnion w (splitIPRangeToIPBlocks w ir) = Set.Icc ir.start ir.endIP ∧
    GreedyChain w ir.endIP ir.start (splitIPRangeToIPBlocks w ir) ∧
    ∀ cover : List IPNet, (∀ b ∈ cover, IPNet.wf w b) →
      blocksUnion w cover = Set.Icc ir.start ir.endIP →
      (splitIPRangeToIPBlocks w ir).length ≤ cover.length := by
  obtain ⟨bs, hfuel, hne, hmem, hunion, hpw, hchain⟩ :=
    splitAux_spec w (ir.endIP + 1 - ir.start) ir.start ir.endIP hse le_rfl
  have hsplit : splitIPRangeToIPBlocks w ir = bs := by
    unfold splitIPRangeToIPBlocks
    rw [hfuel _ le_rfl]
    rfl
  have hgc : greedyCount w ir.start ir.endIP = bs.length := by
    unfold greedyCount
    rw [hfuel _ le_rfl]
    rfl
  rw [hsplit]
  refine ⟨fun b hb => (hmem b hb).1, ?_, hunion, hchain, ?_⟩
  · refine hpw.imp ?_
    intro a b h
    rw [Set.disjoint_left]
    intro x hxa hxb
    simp only [blockSet, Set.mem_Icc] at hxa hxb
    omega
  · intro cover hcwf hcunion
    have := greedy_minimal w (ir.endIP + 1 - ir.start) ir.start ir.endIP hse le_rfl
      cover hcwf hcunion
    omega

theorem splitIPRangeToIPBlocks_correct_witness :
    blocksUnion 32 (splitIPRangeToIPBlocks 32 ⟨0, 9⟩) = Set.Icc 0 9 :=
  (splitIPRangeToIPBlocks_correct 32 ⟨0, 9⟩ (by decide)).2.2.1

/-- C4: `TryAddIP` extends a well-formed range by exactly one address at
either boundary, accepts (unchanged) an address already inside, and rejects
(unchanged) every other address. -/
theorem TryAddIP_correct (ir : IPRange) (hse : ir.start ≤ ir.endIP) (ip : ℕ) :
    (ip + 1 = ir.start → TryAddIP ir ip = (true, ⟨ip, ir.endIP⟩)) ∧
    (ip = ir.endIP + 1 → TryAddIP ir ip = (true, ⟨ir.start, ip⟩)) ∧
    (ir.start ≤ ip → ip ≤ ir.endIP → TryAddIP ir ip = (true, ir)) ∧
    (ip + 1 ≠ ir.start → ip ≠ ir.endIP + 1 → ¬(ir.start ≤ ip ∧ ip ≤ ir.endIP) →
      TryAddIP ir ip = (false, ir)) := by
  refine ⟨?_, ?_, ?_, ?_⟩
  · intro h
    simp only [TryAddIP]
    rw [if_pos (by omega)]
  · intro h
    simp only [TryAddIP]
    rw [if_neg (by omega), if_pos h]
  · intro h1 h2
    simp only [TryAddIP]
    rw [if_neg (by omega), if_neg (by omega), if_pos ⟨h1, h2⟩]
  · intro h1 h2 h3
    simp only [TryAddIP]
    rw [if_neg (by omega), if_neg h2, if_neg h3]

theorem TryAddIP_correct_witness :
    TryAddIP ⟨10, 20⟩ 9 = (true, ⟨9, 20⟩) ∧
    TryAddIP ⟨10, 20⟩ 21 = (true, ⟨10, 21⟩) ∧
    TryAddIP ⟨10, 20⟩ 15 = (true, ⟨10, 20⟩) ∧
    TryAddIP ⟨10, 20⟩ 25 = (false, ⟨10, 20⟩) :=
  ⟨(TryAddIP_correct ⟨10, 20⟩ (by decide) 9).1 (by decide),
   (TryAddIP_correct ⟨10, 20⟩ (by decide) 21).2.1 (by decide),
   (TryAddIP_correct ⟨10, 20⟩ (by decide) 15).2.2.1 (by decide) (by decide),
   (TryAddIP_correct ⟨10, 20⟩ (by decide) 25).2.2.2 (by decide) (by decide) (by decide)⟩

/-! ### Characterization of the exclusion-gap construction -/

theorem blocksUnion_append (w : ℕ) (xs ys : List IPNet) :
    blocksUnion w (xs ++ ys) = blocksUnion w xs ∪ blocksUnion w ys := by
  ext x
  simp only [blocksUnion, Set.mem_setOf_eq, Set.mem_union, List.mem_append]
  constructor
  · rintro ⟨b, (hb | hb), hx⟩
    · exact Or.inl ⟨b, hb, hx⟩
    · exact Or.inr ⟨b, hb, hx⟩
  · rintro (⟨b, hb, hx⟩ | ⟨b, hb, hx⟩)
    · exact ⟨b, Or.inl hb, hx⟩
    · exact ⟨b, Or.inr hb, hx⟩

theorem collectGapsAfter_ok (A B : ℕ) : ∀ (rest : List IPRange) (r : IPRange),
    (∀ x ∈ r :: rest, x.start ≤ x.endIP) →
    (∀ x ∈ r :: rest, A ≤ x.start ∧ x.endIP ≤ B) →
    List.Pairwise (fun a b => a.endIP < b.start) (r :: rest) →
    ∃ gaps, collectGapsAfter A B r rest = .ok gaps ∧
      (∀ g ∈ gaps, g.start ≤ g.endIP ∧ r.endIP < g.start ∧ g.endIP ≤ B) ∧
      (∀ g ∈ gaps, (∃ x ∈ r :: rest, g.start = x.endIP + 1) ∧
        (g.endIP = B ∨ ∃ x ∈ rest, g.endIP + 1 = x.start)) ∧
      List.Pairwise (fun a b => a.endIP < b.start) gaps ∧
      (∀ x : ℕ, ((∃ g ∈ gaps, x ∈ rangeSet g) ∨ (∃ t ∈ rest, x ∈ rangeSet t)) ↔
        (r.endIP + 1 ≤ x ∧ x ≤ B)) ∧
      (∀ g ∈ gaps, ∀ t ∈ rest, g.endIP < t.start ∨ t.endIP < g.start) := by
  intro rest
  induction rest with
  | nil =>
    intro r _hse hin _hsep
    have hrB : r.endIP ≤ B := (hin r (List.mem_cons_self r [])).2
    have hrA : A ≤ r.start := (hin r (List.mem_cons_self r [])).1
    have hout : rangeOutOfCidr A B r = false := by
      simp only [rangeOutOfCidr, Bool.or_eq_false_iff, decide_eq_false_iff_not, not_lt]
      omega
    by_cases hend : r.endIP = B
    · refine ⟨[], ?_, by simp, by simp, List.Pairwise.nil, ?_, by simp⟩
      · have hcr : CreateIPRange ((r.endIP : ℤ) + 1) (B : ℤ) = none := by
          unfold CreateIPRange
          rw [if_pos (by omega)]
        simp only [collectGapsAfter, hout, Bool.false_eq_true, if_false, hcr]
      · intro x
        simp only [List.not_mem_nil, false_and, exists_false, or_self, false_iff]
        omega
    · have hlt : r.endIP < B := by omega
      have htn : ((r.endIP : ℤ) + 1).toNat = r.endIP + 1 := by omega
      have hbn : ((B : ℕ) : ℤ).toNat = B := by omega
      refine ⟨[⟨r.endIP + 1, B⟩], ?_, ?_, ?_, ?_, ?_, by simp⟩
      · have hcr : CreateIPRange ((r.endIP : ℤ) + 1) (B : ℤ) =
            some ⟨r.endIP + 1, B⟩ := by
          unfold CreateIPRange
          rw [if_neg (by omega)]
          rw [htn, hbn]
        simp only [collectGapsAfter, hout, Bool.false_eq_true, if_false, hcr]
      · intro g hg
        rw [List.mem_singleton] at hg
        subst hg
        refine ⟨?_, ?_, le_rfl⟩
        · show r.endIP + 1 ≤ B
          omega
        · show r.endIP < r.endIP + 1
          omega
      · intro g hg
        rw [List.mem_singleton] at hg
        subst hg
        exact ⟨⟨r, List.mem_cons_self r [], rfl⟩, Or.inl rfl⟩
      · exact List.pairwise_singleton _ _
      · intro x
        simp only [List.mem_singleton, List.not_mem_nil, false_and, exists_false,
          or_false, rangeSet, Set.mem_Icc]
        constructor
        · rintro ⟨g, rfl, hx⟩
          simpa using hx
        · intro hx
          exact ⟨⟨r.endIP + 1, B⟩, rfl, by simpa using hx⟩
  | cons r' rest' ih =>
    intro r hse hin hsep
    have hrA : A ≤ r.start := (hin r (List.mem_cons_self _ _)).1
    have hrB : r.endIP ≤ B := (hin r (List.mem_cons_self _ _)).2
    have hout : rangeOutOfCidr A B r = false := by
      simp only [rangeOutOfCidr, Bool.or_eq_false_iff, decide_eq_false_iff_not, not_lt]
      omega
    have hrr' : r.endIP < r'.start :=
      (List.pairwise_cons.mp hsep).1 r' (List.mem_cons_self _ _)
    have hr'se : r'.start ≤ r'.endIP :=
      hse r' (List.mem_cons_of_mem _ (List.mem_cons_self _ _))
    have hr'B : r'.endIP ≤ B :=
      (hin r' (List.mem_cons_of_mem _ (List.mem_cons_self _ _))).2
    have hsepTail' : ∀ t ∈ rest', r'.endIP < t.start :=
      (List.pairwise_cons.mp (List.pairwise_cons.mp hsep).2).1
    obtain ⟨gapsTail, heqTail, hbound, horigin, hpwTail, hunionTail, hsepTail⟩ :=
      ih r' (fun x hx => hse x (List.mem_cons_of_mem _ hx))
        (fun x hx => hin x (List.mem_cons_of_mem _ hx))
        (List.pairwise_cons.mp hsep).2
    by_cases hadj : r'.start ≤ r.endIP + 1
    · -- adjacent ranges: the between-gap is empty and silently skipped
      have hadj' : r'.start = r.endIP + 1 := by omega
      refine ⟨gapsTail, ?_, ?_, ?_, hpwTail, ?_, ?_⟩
      · have hcr : CreateIPRange ((r.endIP : ℤ) + 1) ((r'.start : ℤ) - 1) = none := by
          unfold CreateIPRange
          rw [if_pos (by omega)]
        simp only [collectGapsAfter, hout, Bool.false_eq_true, if_false,
          if_neg (by omega : ¬r'.start ≤ r.endIP), hcr]
        exact heqTail
      · intro g hg
        obtain ⟨h1, h2, h3⟩ := hbound g hg
        exact ⟨h1, by omega, h3⟩
      · intro g hg
        obtain ⟨⟨x, hx, hgx⟩, h2⟩ := horigin g hg
        refine ⟨⟨x, List.mem_cons_of_mem _ hx, hgx⟩, ?_⟩
        rcases h2 with h2 | ⟨x', hx', hgx'⟩
        · exact Or.inl h2
        · exact Or.inr ⟨x', List.mem_cons_of_mem _ hx', hgx'⟩
      · intro x
        constructor
        · rintro (⟨g, hg, hxg⟩ | ⟨t, ht, hxt⟩)
          · have := (hunionTail x).mp (Or.inl ⟨g, hg, hxg⟩)
            omega
          · rcases List.mem_cons.mp ht with rfl | ht'
            · simp only [rangeSet, Set.mem_Icc] at hxt
              omega
            · have := (hunionTail x).mp (Or.inr ⟨t, ht', hxt⟩)
              omega
        · intro hx
          by_cases hxr' : x ≤ r'.endIP
          · exact Or.inr ⟨r', List.mem_cons_self _ _,
              Set.mem_Icc.mpr ⟨by omega, hxr'⟩⟩
          · rcases (hunionTail x).mpr ⟨by omega, hx.2⟩ with hg | ⟨t, ht, hxt⟩
            · exact Or.inl hg
            · exact Or.inr ⟨t, List.mem_cons_of_mem _ ht, hxt⟩
      · intro g hg t ht
        rcases List.mem_cons.mp ht with rfl | ht'
        · exact Or.inr (by have := (hbound g hg).2.1; omega)
        · exact hsepTail g hg t ht'
    · -- a proper gap `[r.end + 1, r'.start - 1]` between the two ranges
      have hgap : r.endIP + 1 ≤ r'.start - 1 := by omega
      have htn1 : ((r.endIP : ℤ) + 1).toNat = r.endIP + 1 := by omega
      have htn2 : ((r'.start : ℤ) - 1).toNat = r'.start - 1 := by omega
      refine ⟨⟨r.endIP + 1, r'.start - 1⟩ :: gapsTail, ?_, ?_, ?_, ?_, ?_, ?_⟩
      · have hcr : CreateIPRange ((r.endIP : ℤ) + 1) ((r'.start : ℤ) - 1) =
            some ⟨r.endIP + 1, r'.start - 1⟩ := by
          unfold CreateIPRange
          rw [if_neg (by omega)]
          rw [htn1, htn2]
        simp only [collectGapsAfter, hout, Bool.false_eq_true, if_false,
          if_neg (by omega : ¬r'.start ≤ r.endIP), hcr]
        rw [heqTail]
        rfl
      · intro g hg
        rcases List.mem_cons.mp hg with rfl | hg'
        · refine ⟨?_, ?_, ?_⟩
          · show r.endIP + 1 ≤ r'.start - 1
            omega
          · show r.endIP < r.endIP + 1
            omega
          · show r'.start - 1 ≤ B
            omega
        · obtain ⟨h1, h2, h3⟩ := hbound g hg'
          exact ⟨h1, by omega, h3⟩
      · intro g hg
        rcases List.mem_cons.mp hg with rfl | hg'
        · refine ⟨⟨r, List.mem_cons_self _ _, rfl⟩,
            Or.inr ⟨r', List.mem_cons_self _ _, ?_⟩⟩
          show r'.start - 1 + 1 = r'.start
          omega
        · obtain ⟨⟨x, hx, hgx⟩, h2⟩ := horigin g hg'
          refine ⟨⟨x, List.mem_cons_of_mem _ hx, hgx⟩, ?_⟩
          rcases h2 with h2 | ⟨x', hx', hgx'⟩
          · exact Or.inl h2
          · exact Or.inr ⟨x', List.mem_cons_of_mem _ hx', hgx'⟩
      · refine List.Pairwise.cons ?_ hpwTail
        intro g hg
        have := (hbound g hg).2.1
        show r'.start - 1 < g.start
        omega
      · intro x
        constructor
        · rintro (⟨g, hg, hxg⟩ | ⟨t, ht, hxt⟩)
          · rcases List.mem_cons.mp hg with rfl | hg'
            · simp only [rangeSet, Set.mem_Icc] at hxg
              omega
            · have := (hunionTail x).mp (Or.inl ⟨g, hg', hxg⟩)
              omega
          · rcases List.mem_cons.mp ht with rfl | ht'
            · simp only [rangeSet, Set.mem_Icc] at hxt
              omega
            · have := (hunionTail x).mp (Or.inr ⟨t, ht', hxt⟩)
              omega
        · intro hx
          by_cases hx1 : x ≤ r'.start - 1
          · exact Or.inl ⟨⟨r.endIP + 1, r'.start - 1⟩, List.mem_cons_self _ _,
              Set.mem_Icc.mpr ⟨hx.1, hx1⟩⟩
          · by_cases hx2 : x ≤ r'.endIP
            · exact Or.inr ⟨r', List.mem_cons_self _ _,
                Set.mem_Icc.mpr ⟨by omega, hx2⟩⟩
            · rcases (hunionTail x).mpr ⟨by omega, hx.2⟩ with hg | ⟨t, ht, hxt⟩
              · rcases hg with ⟨g, hg', hxg⟩
                exact Or.inl ⟨g, List.mem_cons_of_mem _ hg', hxg⟩
              · exact Or.inr ⟨t, List.mem_cons_of_mem _ ht, hxt⟩
      · intro g hg t ht
        rcases List.mem_cons.mp hg with rfl | hg'
        · rcases List.mem_cons.mp ht with rfl | ht'
          · refine Or.inl ?_
            simp only [rangeMk_endIP]
            omega
          · refine Or.inl ?_
            simp only [rangeMk_endIP]
            have := hsepTail' t ht'
            omega
        · rcases List.mem_cons.mp ht with rfl | ht'
          · refine Or.inr ?_
            have := (hbound g hg').2.1
            omega
          · exact hsepTail g hg' t ht'

theorem collectGaps_ok (A B : ℕ) (r : IPRange) (rest : List IPRange)
    (hse : ∀ x ∈ r :: rest, x.start ≤ x.endIP)
    (hin : ∀ x ∈ r :: rest, A ≤ x.start ∧ x.endIP ≤ B)
    (hsep : List.Pairwise (fun a b => a.endIP < b.start) (r :: rest)) :
    ∃ gaps, collectGaps A B (r :: rest) = .ok gaps ∧
      (∀ g ∈ gaps, g.start ≤ g.endIP ∧ A ≤ g.start ∧ g.endIP ≤ B) ∧
      (∀ g ∈ gaps, (g.start = A ∨ ∃ x ∈ r :: rest, g.start = x.endIP + 1) ∧
        (g.endIP = B ∨ ∃ x ∈ r :: rest, g.endIP + 1 = x.start)) ∧
      List.Pairwise (fun a b => a.endIP < b.start) gaps ∧
      (∀ x : ℕ, ((∃ g ∈ gaps, x ∈ rangeSet g) ∨ (∃ t ∈ r :: rest, x ∈ rangeSet t)) ↔
        (A ≤ x ∧ x ≤ B)) ∧
      (∀ g ∈ gaps, ∀ t ∈ r :: rest, g.endIP < t.start ∨ t.endIP < g.start) := by
  have hrse : r.start ≤ r.endIP := hse r (List.mem_cons_self _ _)
  have hrA : A ≤ r.start := (hin r (List.mem_cons_self _ _)).1
  have hrB : r.endIP ≤ B := (hin r (List.mem_cons_self _ _)).2
  have hsepr : ∀ t ∈ rest, r.endIP < t.start := (List.pairwise_cons.mp hsep).1
  obtain ⟨gapsTail, heqTail, hbound, horigin, hpwTail, hunionTail, hsepTail⟩ :=
    collectGapsAfter_ok A B rest r hse hin hsep
  by_cases hfirst : r.start ≤ A
  · -- the first included range starts at the cidr start: no leading gap
    have hfirst' : r.start = A := by omega
    have hcr : CreateIPRange (A : ℤ) ((r.start : ℤ) - 1) = none := by
      unfold CreateIPRange
      rw [if_pos (by omega)]
    refine ⟨gapsTail, ?_, ?_, ?_, hpwTail, ?_, ?_⟩
    · simp only [collectGaps, heqTail, hcr]
      rfl
    · intro g hg
      obtain ⟨h1, h2, h3⟩ := hbound g hg
      exact ⟨h1, by omega, h3⟩
    · intro g hg
      obtain ⟨h1, h2⟩ := horigin g hg
      refine ⟨Or.inr h1, ?_⟩
      rcases h2 with h2 | ⟨x, hx, hgx⟩
      · exact Or.inl h2
      · exact Or.inr ⟨x, List.mem_cons_of_mem _ hx, hgx⟩
    · intro x
      constructor
      · rintro (⟨g, hg, hxg⟩ | ⟨t, ht, hxt⟩)
        · have := (hunionTail x).mp (Or.inl ⟨g, hg, hxg⟩)
          omega
        · rcases List.mem_cons.mp ht with rfl | ht'
          · simp only [rangeSet, Set.mem_Icc] at hxt
            omega
          · have := (hunionTail x).mp (Or.inr ⟨t, ht', hxt⟩)
            omega
      · intro hx
        by_cases hxr : x ≤ r.endIP
        · exact Or.inr ⟨r, List.mem_cons_self _ _, Set.mem_Icc.mpr ⟨by omega, hxr⟩⟩
        · rcases (hunionTail x).mpr ⟨by omega, hx.2⟩ with hg | ⟨t, ht, hxt⟩
          · exact Or.inl hg
          · exact Or.inr ⟨t, List.mem_cons_of_mem _ ht, hxt⟩
    · intro g hg t ht
      rcases List.mem_cons.mp ht with rfl | ht'
      · exact Or.inr (by have := (hbound g hg).2.1; omega)
      · exact hsepTail g hg t ht'
  · -- a leading gap `[A, r.start - 1]`
    have hcr : CreateIPRange (A : ℤ) ((r.start : ℤ) - 1) = some ⟨A, r.start - 1⟩ := by
      unfold CreateIPRange
      rw [if_neg (by omega)]
      have h1 : ((A : ℕ) : ℤ).toNat = A := by omega
      have h2 : ((r.start : ℤ) - 1).toNat = r.start - 1 := by omega
      rw [h1, h2]
    refine ⟨⟨A, r.start - 1⟩ :: gapsTail, ?_, ?_, ?_, ?_, ?_, ?_⟩
    · simp only [collectGaps, heqTail, hcr]
      rfl
    · intro g hg
      rcases List.mem_cons.mp hg with rfl | hg'
      · simp only [rangeMk_start, rangeMk_endIP]
        omega
      · obtain ⟨h1, h2, h3⟩ := hbound g hg'
        exact ⟨h1, by omega, h3⟩
    · intro g hg
      rcases List.mem_cons.mp hg with rfl | hg'
      · refine ⟨Or.inl rfl, Or.inr ⟨r, List.mem_cons_self _ _, ?_⟩⟩
        simp only [rangeMk_endIP]
        omega
      · obtain ⟨h1, h2⟩ := horigin g hg'
        refine ⟨Or.inr h1, ?_⟩
        rcases h2 with h2 | ⟨x, hx, hgx⟩
        · exact Or.inl h2
        · exact Or.inr ⟨x, List.mem_cons_of_mem _ hx, hgx⟩
    · refine List.Pairwise.cons ?_ hpwTail
      intro g hg
      simp only [rangeMk_endIP]
      have := (hbound g hg).2.1
      omega
    · intro x
      constructor
      · rintro (⟨g, hg, hxg⟩ | ⟨t, ht, hxt⟩)
        · rcases List.mem_cons.mp hg with rfl | hg'
          · simp only [rangeSet, Set.mem_Icc, rangeMk_start, rangeMk_endIP] at hxg
            omega
          · have := (hunionTail x).mp (Or.inl ⟨g, hg', hxg⟩)
            omega
        · rcases List.mem_cons.mp ht with rfl | ht'
          · simp only [rangeSet, Set.mem_Icc] at hxt
            omega
          · have := (hunionTail x).mp (Or.inr ⟨t, ht', hxt⟩)
            omega
      · intro hx
        by_cases hx1 : x ≤ r.start - 1
        · exact Or.inl ⟨⟨A, r.start - 1⟩, List.mem_cons_self _ _,
            Set.mem_Icc.mpr ⟨hx.1, hx1⟩⟩
        · by_cases hx2 : x ≤ r.endIP
          · exact Or.inr ⟨r, List.mem_cons_self _ _, Set.mem_Icc.mpr ⟨by omega, hx2⟩⟩
          · rcases (hunionTail x).mpr ⟨by omega, hx.2⟩ with ⟨g, hg', hxg⟩ | ⟨t, ht, hxt⟩
            · exact Or.inl ⟨g, List.mem_cons_of_mem _ hg', hxg⟩
            · exact Or.inr ⟨t, List.mem_cons_of_mem _ ht, hxt⟩
    · intro g hg t ht
      rcases List.mem_cons.mp hg with rfl | hg'
      · refine Or.inl ?_
        simp only [rangeMk_endIP]
        rcases List.mem_cons.mp ht with rfl | ht'
        · omega
        · have := hsepr t ht'
          omega
      · rcases List.mem_cons.mp ht with rfl | ht'
        · exact Or.inr (by have := (hbound g hg').2.1; omega)
        · exact hsepTail g hg' t ht'

/-! ### The exclusion-address fold leaves covering gap lists unchanged -/

theorem tryAddIPToRanges_of_mem : ∀ (ranges : List IPRange) (ip : ℕ),
    (∀ g ∈ ranges, (ip : ℤ) ≠ (g.start : ℤ) - 1 ∧ ip ≠ g.endIP + 1) →
    (∃ g ∈ ranges, ip ∈ rangeSet g) →
    tryAddIPToRanges ranges ip = (true, ranges) := by
  intro ranges
  induction ranges with
  | nil =>
    rintro ip _ ⟨g, hg, -⟩
    cases hg
  | cons g gs ih =>
    intro ip hnoadj hmem
    have h1 := (hnoadj g (List.mem_cons_self _ _)).1
    have h2 := (hnoadj g (List.mem_cons_self _ _)).2
    by_cases hing : g.start ≤ ip ∧ ip ≤ g.endIP
    · have htry : TryAddIP g ip = (true, g) := by
        simp only [TryAddIP]
        rw [if_neg h1, if_neg h2, if_pos hing]
      simp only [tryAddIPToRanges]
      rw [htry]
    · have htry : TryAddIP g ip = (false, g) := by
        simp only [TryAddIP]
        rw [if_neg h1, if_neg h2, if_neg hing]
      have hmem' : ∃ g' ∈ gs, ip ∈ rangeSet g' := by
        rcases hmem with ⟨g', hg', hx⟩
        rcases List.mem_cons.mp hg' with rfl | hg''
        · exact absurd (Set.mem_Icc.mp hx) hing
        · exact ⟨g', hg'', hx⟩
      have hih := ih ip (fun g' hg' => hnoadj g' (List.mem_cons_of_mem _ hg')) hmem'
      simp only [tryAddIPToRanges]
      rw [htry, hih]

theorem foldExcludeIPs_preserved (ranges : List IPRange) : ∀ ips : List ℕ,
    (∀ ip ∈ ips,
      (∀ g ∈ ranges, (ip : ℤ) ≠ (g.start : ℤ) - 1 ∧ ip ≠ g.endIP + 1) ∧
      ∃ g ∈ ranges, ip ∈ rangeSet g) →
    foldExcludeIPs ranges ips = ranges := by
  intro ips
  induction ips with
  | nil => intro _; rfl
  | cons ip ips ih =>
    intro h
    have htry : tryAddIPToRanges ranges ip = (true, ranges) :=
      tryAddIPToRanges_of_mem ranges ip (h ip (List.mem_cons_self _ _)).1
        (h ip (List.mem_cons_self _ _)).2
    simp only [foldExcludeIPs]
    rw [htry]
    exact ih (fun ip' hip' => h ip' (List.mem_cons_of_mem _ hip'))

/-! ### Decomposing a covering gap list into blocks -/

/-- Helper packaging of `splitAux_spec` for `splitIPRangeToIPBlocks`. -/
theorem splitIPRangeToIPBlocks_spec (w : ℕ) (ir : IPRange) (hse : ir.start ≤ ir.endIP) :
    (∀ b ∈ splitIPRangeToIPBlocks w ir,
      IPNet.wf w b ∧ ir.start ≤ b.base ∧ LastIP w b ≤ ir.endIP) ∧
    blocksUnion w (splitIPRangeToIPBlocks w ir) = Set.Icc ir.start ir.endIP ∧
    List.Pairwise (fun a b => LastIP w a < b.base) (splitIPRangeToIPBlocks w ir) := by
  obtain ⟨bs, hfuel, hne, hmem, hunion, hpw, hchain⟩ :=
    splitAux_spec w (ir.endIP + 1 - ir.start) ir.start ir.endIP hse le_rfl
  have hsplit : splitIPRangeToIPBlocks w ir = bs := by
    unfold splitIPRangeToIPBlocks
    rw [hfuel _ le_rfl]
    rfl
  rw [hsplit]
  exact ⟨hmem, hunion, hpw⟩

theorem flatMap_split_spec (w : ℕ) : ∀ gaps : List IPRange,
    (∀ g ∈ gaps, g.start ≤ g.endIP) →
    List.Pairwise (fun a b => a.endIP < b.start) gaps →
    (∀ b ∈ gaps.flatMap (splitIPRangeToIPBlocks w), ∃ g ∈ gaps, blockSet w b ⊆ rangeSet g) ∧
    List.Pairwise (fun a b => Disjoint (blockSet w a) (blockSet w b))
      (gaps.flatMap (splitIPRangeToIPBlocks w)) ∧
    (∀ x : ℕ, x ∈ blocksUnion w (gaps.flatMap (splitIPRangeToIPBlocks w)) ↔
      ∃ g ∈ gaps, x ∈ rangeSet g) := by
  intro gaps
  induction gaps with
  | nil =>
    intro _ _
    refine ⟨by simp, by simp, ?_⟩
    intro x
    simp [blocksUnion]
  | cons g gs ih =>
    intro hse hpw
    have hgse : g.start ≤ g.endIP := hse g (List.mem_cons_self _ _)
    have hgsep : ∀ t ∈ gs, g.endIP < t.start := (List.pairwise_cons.mp hpw).1
    obtain ⟨ihmem, ihpw, ihunion⟩ :=
      ih (fun t ht => hse t (List.mem_cons_of_mem _ ht)) (List.pairwise_cons.mp hpw).2
    obtain ⟨hbmem, hbunion, hbpw⟩ := splitIPRangeToIPBlocks_spec w g hgse
    have hsubg : ∀ b ∈ splitIPRangeToIPBlocks w g, blockSet w b ⊆ rangeSet g := by
      intro b hb x hx
      have : x ∈ blocksUnion w (splitIPRangeToIPBlocks w g) := ⟨b, hb, hx⟩
      rw [hbunion] at this
      exact this
    rw [List.flatMap_cons]
    refine ⟨?_, ?_, ?_⟩
    · intro b hb
      rcases List.mem_append.mp hb with hb' | hb'
      · exact ⟨g, List.mem_cons_self _ _, hsubg b hb'⟩
      · obtain ⟨g', hg', hsub⟩ := ihmem b hb'
        exact ⟨g', List.mem_cons_of_mem _ hg', hsub⟩
    · rw [List.pairwise_append]
      refine ⟨?_, ihpw, ?_⟩
      · refine hbpw.imp_of_mem ?_
        intro a b ha hb hab
        rw [Set.disjoint_left]
        intro x hxa hxb
        simp only [blockSet, Set.mem_Icc] at hxa hxb
        omega
      · intro a ha b hb
        obtain ⟨g', hg', hsub'⟩ := ihmem b hb
        have hga := hsubg a ha
        have hsep := hgsep g' hg'
        rw [Set.disjoint_left]
        intro x hxa hxb
        have h1 := Set.mem_Icc.mp (hga hxa)
        have h2 := Set.mem_Icc.mp (hsub' hxb)
        omega
    · intro x
      rw [blocksUnion_append, Set.mem_union]
      constructor
      · rintro (hx | hx)
        · rw [hbunion] at hx
          exact ⟨g, List.mem_cons_self _ _, hx⟩
        · obtain ⟨g', hg', hx'⟩ := (ihunion x).mp hx
          exact ⟨g', List.mem_cons_of_mem _ hg', hx'⟩
      · rintro ⟨g', hg', hx'⟩
        rcases List.mem_cons.mp hg' with rfl | hg''
        · exact Or.inl (by rw [hbunion]; exact hx')
        · exact Or.inr ((ihunion x).mpr ⟨g', hg'', hx'⟩)

/-- C1 (amended): for a well-formed cidr, a nonempty list of included ranges
lying within the cidr and pairwise disjoint, and a gateway/exclude set inside
the cidr but outside every included range, `FindSubnetExcludeIPBlocks`
succeeds with pairwise-disjoint CIDR blocks, none intersecting any included
range, whose union together with the included ranges is exactly the address
set of the cidr. -/
theorem FindSubnetExcludeIPBlocks_correct (w : ℕ) (cidr : IPNet)
    (includedRanges : List IPRange) (gateway : Option ℕ) (excludeIPs : List ℕ)
    (hne : includedRanges ≠ [])
    (hse : ∀ r ∈ includedRanges, r.start ≤ r.endIP)
    (hin : ∀ r ∈ includedRanges, cidr.base ≤ r.start ∧ r.endIP ≤ LastIP w cidr)
    (hdisj : List.Pairwise (fun a b => Disjoint (rangeSet a) (rangeSet b)) includedRanges)
    (hex : ∀ ip ∈ excludeIPs ++ gatewayList gateway,
      (cidr.base ≤ ip ∧ ip ≤ LastIP w cidr) ∧ ∀ r ∈ includedRanges, ip ∉ rangeSet r) :
    ∃ bs, FindSubnetExcludeIPBlocks w cidr includedRanges gateway excludeIPs = .ok bs ∧
      List.Pairwise (fun a b => Disjoint (blockSet w a) (blockSet w b)) bs ∧
      (∀ b ∈ bs, ∀ r ∈ includedRanges, Disjoint (blockSet w b) (rangeSet r)) ∧
      blocksUnion w bs ∪ rangesSet includedRanges = Set.Icc cidr.base (LastIP w cidr) := by
  have hperm : (includedRanges.insertionSort (fun a b => a.start ≤ b.start)).Perm includedRanges :=
    List.perm_insertionSort (fun a b => a.start ≤ b.start) includedRanges
  have hmemiff : ∀ a, (a ∈ includedRanges.insertionSort (fun a b => a.start ≤ b.start)) ↔
      a ∈ includedRanges := fun a => hperm.mem_iff
  have hsorted : List.Pairwise (fun a b : IPRange => a.start ≤ b.start)
      (includedRanges.insertionSort (fun a b => a.start ≤ b.start)) := by
    letI : IsTotal IPRange (fun a b => a.start ≤ b.start) :=
      ⟨fun a b => Nat.le_total _ _⟩
    letI : IsTrans IPRange (fun a b => a.start ≤ b.start) :=
      ⟨fun a b c hab hbc => le_trans hab hbc⟩
    exact List.sorted_insertionSort _ includedRanges
  have hdisj' : List.Pairwise (fun a b => Disjoint (rangeSet a) (rangeSet b))
      (includedRanges.insertionSort (fun a b => a.start ≤ b.start)) :=
    (hperm.pairwise_iff (fun {a b} h => h.symm)).mpr hdisj
  have hse' : ∀ r ∈ includedRanges.insertionSort (fun a b => a.start ≤ b.start),
      r.start ≤ r.endIP := fun r hr => hse r ((hmemiff r).mp hr)
  have hin' : ∀ r ∈ includedRanges.insertionSort (fun a b => a.start ≤ b.start),
      cidr.base ≤ r.start ∧ r.endIP ≤ LastIP w cidr := fun r hr => hin r ((hmemiff r).mp hr)
  have hsep : List.Pairwise (fun a b => a.endIP < b.start)
      (includedRanges.insertionSort (fun a b => a.start ≤ b.start)) := by
    refine (hsorted.and hdisj').imp_of_mem ?_
    rintro a b ha hb ⟨hab1, hab2⟩
    have ha' := hse' a ha
    have hb' := hse' b hb
    by_contra hge
    push_neg at hge
    have hmem1 : b.start ∈ rangeSet a := Set.mem_Icc.mpr ⟨hab1, hge⟩
    have hmem2 : b.start ∈ rangeSet b := Set.mem_Icc.mpr ⟨le_rfl, hb'⟩
    exact Set.disjoint_left.mp hab2 hmem1 hmem2
  obtain ⟨r, rest, hsorted_eq⟩ : ∃ r rest,
      includedRanges.insertionSort (fun a b => a.start ≤ b.start) = r :: rest := by
    cases h : includedRanges.insertionSort (fun a b => a.start ≤ b.start) with
    | nil =>
      exfalso
      apply hne
      have := hperm.symm
      rw [h] at this
      exact this.eq_nil
    | cons r rest => exact ⟨r, rest, rfl⟩
  rw [hsorted_eq] at hse' hin' hsep
  obtain ⟨gaps, hgapseq, hbound, horigin, hpwgaps, hunion, hsepRs⟩ :=
    collectGaps_ok cidr.base (LastIP w cidr) r rest hse' hin' hsep
  -- the excluded addresses are absorbed by containment, leaving the gaps unchanged
  have hfold : foldExcludeIPs gaps (excludeIPs ++ gatewayList gateway) = gaps := by
    apply foldExcludeIPs_preserved
    intro ip hip
    obtain ⟨⟨hipA, hipB⟩, hipnr⟩ := hex ip hip
    have hipnr' : ∀ t ∈ r :: rest, ip ∉ rangeSet t := by
      intro t ht
      exact hipnr t ((hmemiff t).mp (hsorted_eq ▸ ht))
    constructor
    · intro g hg
      obtain ⟨horig1, horig2⟩ := horigin g hg
      constructor
      · rcases horig1 with hgA | ⟨x, hx, hgx⟩
        · omega
        · intro heq
          have hxse := hse' x hx
          have hipx : ip = x.endIP := by omega
          exact hipnr' x hx (Set.mem_Icc.mpr ⟨by omega, by omega⟩)
      · rcases horig2 with hgB | ⟨x, hx, hgx⟩
        · omega
        · intro heq
          have hxse := hse' x hx
          have hipx : ip = x.start := by omega
          exact hipnr' x hx (Set.mem_Icc.mpr ⟨by omega, by omega⟩)
    · rcases (hunion ip).mpr ⟨hipA, hipB⟩ with hg | ⟨t, ht, hxt⟩
      · exact hg
      · exact absurd hxt (hipnr' t ht)
  have hF : FindSubnetExcludeIPBlocks w cidr includedRanges gateway excludeIPs =
      .ok (gaps.flatMap (splitIPRangeToIPBlocks w)) := by
    have h1 : FindSubnetExcludeIPBlocks w cidr includedRanges gateway excludeIPs =
        (do
          let gaps ← collectGaps cidr.base (LastIP w cidr)
            (includedRanges.insertionSort (fun a b => a.start ≤ b.start))
          pure ((foldExcludeIPs gaps (excludeIPs ++ gatewayList gateway)).flatMap
              (splitIPRangeToIPBlocks w))) := rfl
    rw [h1, hsorted_eq, hgapseq]
    show Except.ok ((foldExcludeIPs gaps (excludeIPs ++ gatewayList gateway)).flatMap
      (splitIPRangeToIPBlocks w)) = _
    rw [hfold]
  obtain ⟨hbmem, hbpw, hbunion⟩ := flatMap_split_spec w gaps
    (fun g hg => (hbound g hg).1) hpwgaps
  refine ⟨gaps.flatMap (splitIPRangeToIPBlocks w), hF, hbpw, ?_, ?_⟩
  · intro b hb r' hr'
    obtain ⟨g, hg, hsub⟩ := hbmem b hb
    have hsep' := hsepRs g hg r' (hsorted_eq ▸ (hmemiff r').mpr hr')
    rw [Set.disjoint_left]
    intro x hxb hxr
    have h1 := Set.mem_Icc.mp (hsub hxb)
    have h2 := Set.mem_Icc.mp hxr
    omega
  · ext x
    simp only [Set.mem_union, Set.mem_Icc]
    have hrs : (x ∈ rangesSet includedRanges) ↔ ∃ t ∈ r :: rest, x ∈ rangeSet t := by
      simp only [rangesSet, Set.mem_setOf_eq]
      constructor
      · rintro ⟨t, ht, hx⟩
        exact ⟨t, hsorted_eq ▸ (hmemiff t).mpr ht, hx⟩
      · rintro ⟨t, ht, hx⟩
        exact ⟨t, (hmemiff t).mp (hsorted_eq ▸ ht), hx⟩
    rw [hrs]
    rw [← hunion x]
    rw [hbunion x]

/-! ### Error characterization of `FindSubnetExcludeIPBlocks` -/

theorem collectGapsAfter_error_iff (A B : ℕ) : ∀ (rest : List IPRange) (r : IPRange),
    (∀ x ∈ r :: rest, x.start ≤ x.endIP) →
    List.Pairwise (fun a b : IPRange => a.start ≤ b.start) (r :: rest) →
    ((∃ msg, collectGapsAfter A B r rest = .error msg) ↔
      (∃ x ∈ r :: rest, rangeOutOfCidr A B x = true) ∨
      ¬ List.Pairwise (fun a b => Disjoint (rangeSet a) (rangeSet b)) (r :: rest)) := by
  intro rest
  induction rest with
  | nil =>
    intro r _hse _hsorted
    by_cases hout : rangeOutOfCidr A B r = true
    · constructor
      · intro _
        exact Or.inl ⟨r, List.mem_cons_self _ _, hout⟩
      · intro _
        exact ⟨"ip range is out of cidr", by simp only [collectGapsAfter, hout, if_true]⟩
    · have hout' : rangeOutOfCidr A B r = false := by simpa using hout
      have heq : collectGapsAfter A B r [] =
          (match CreateIPRange ((r.endIP : ℤ) + 1) (B : ℤ) with
            | some g => .ok [g]
            | none => .ok []) := by
        simp only [collectGapsAfter, hout', Bool.false_eq_true, if_false]
      constructor
      · rintro ⟨msg, hmsg⟩
        exfalso
        rw [heq] at hmsg
        rcases h : CreateIPRange ((r.endIP : ℤ) + 1) (B : ℤ) with - | g <;>
          rw [h] at hmsg <;> simp at hmsg
      · rintro (⟨x, hx, hxout⟩ | hnp)
        · rw [List.mem_singleton] at hx
          subst hx
          exact absurd hxout hout
        · exact absurd (List.pairwise_singleton _ _) hnp
  | cons r' rest' ih =>
    intro r hse hsorted
    have hrr' : r.start ≤ r'.start := (List.pairwise_cons.mp hsorted).1 r' (List.mem_cons_self _ _)
    have hr'e : r'.start ≤ r'.endIP := hse r' (List.mem_cons_of_mem _ (List.mem_cons_self _ _))
    by_cases hout : rangeOutOfCidr A B r = true
    · constructor
      · intro _
        exact Or.inl ⟨r, List.mem_cons_self _ _, hout⟩
      · intro _
        exact ⟨"ip range is out of cidr", by simp only [collectGapsAfter, hout, if_true]⟩
    · have hout' : rangeOutOfCidr A B r = false := by simpa using hout
      by_cases hover : r'.start ≤ r.endIP
      · constructor
        · intro _
          refine Or.inr ?_
          intro hp
          have hd := (List.pairwise_cons.mp hp).1 r' (List.mem_cons_self _ _)
          exact Set.disjoint_left.mp hd (Set.mem_Icc.mpr ⟨hrr', hover⟩)
            (Set.mem_Icc.mpr ⟨le_rfl, hr'e⟩)
        · intro _
          exact ⟨"ip range is overlapped", by
            simp only [collectGapsAfter, hout', Bool.false_eq_true, if_false, if_pos hover]⟩
      · have hover' : r.endIP < r'.start := by omega
        have heq : collectGapsAfter A B r (r' :: rest') =
            (match CreateIPRange ((r.endIP : ℤ) + 1) ((r'.start : ℤ) - 1) with
              | some g => do
                  let gs ← collectGapsAfter A B r' rest'
                  pure (g :: gs)
              | none => collectGapsAfter A B r' rest') := by
          simp only [collectGapsAfter, hout', Bool.false_eq_true, if_false, if_neg hover]
        have hihiff := ih r' (fun x hx => hse x (List.mem_cons_of_mem _ hx))
          (List.pairwise_cons.mp hsorted).2
        have hstep : (∃ msg, collectGapsAfter A B r (r' :: rest') = .error msg) ↔
            (∃ msg, collectGapsAfter A B r' rest' = .error msg) := by
          constructor
          · rintro ⟨msg, hmsg⟩
            rw [heq] at hmsg
            rcases h : CreateIPRange ((r.endIP : ℤ) + 1) ((r'.start : ℤ) - 1) with - | g <;>
              rw [h] at hmsg
            · exact ⟨msg, hmsg⟩
            · rcases h2 : collectGapsAfter A B r' rest' with msg2 | gs <;> rw [h2] at hmsg
              · exact ⟨msg2, rfl⟩
              · exfalso
                change Except.ok (g :: gs) = Except.error msg at hmsg
                cases hmsg
          · rintro ⟨msg, hmsg⟩
            refine ⟨msg, ?_⟩
            rw [heq]
            rcases h : CreateIPRange ((r.endIP : ℤ) + 1) ((r'.start : ℤ) - 1) with - | g
            · exact hmsg
            · rw [hmsg]
              rfl
        rw [hstep, hihiff]
        have hdisj_head : ∀ b ∈ r' :: rest', Disjoint (rangeSet r) (rangeSet b) := by
          intro b hb
          have hbstart : r'.start ≤ b.start := by
            rcases List.mem_cons.mp hb with rfl | hb'
            · exact le_rfl
            · exact (List.pairwise_cons.mp (List.pairwise_cons.mp hsorted).2).1 b hb'
          rw [Set.disjoint_left]
          intro x hx1 hx2
          have h1 := Set.mem_Icc.mp hx1
          have h2 := Set.mem_Icc.mp hx2
          omega
        constructor
        · rintro (⟨x, hx, hxout⟩ | hnp)
          · exact Or.inl ⟨x, List.mem_cons_of_mem _ hx, hxout⟩
          · refine Or.inr ?_
            intro hp
            exact hnp (List.pairwise_cons.mp hp).2
        · rintro (⟨x, hx, hxout⟩ | hnp)
          · rcases List.mem_cons.mp hx with rfl | hx'
            · exact absurd hxout hout
            · exact Or.inl ⟨x, hx', hxout⟩
          · refine Or.inr ?_
            intro hp
            exact hnp (List.Pairwise.cons hdisj_head hp)

theorem collectGaps_error_iff (A B : ℕ) (rs : List IPRange)
    (hse : ∀ x ∈ rs, x.start ≤ x.endIP)
    (hsorted : List.Pairwise (fun a b : IPRange => a.start ≤ b.start) rs) :
    ((∃ msg, collectGaps A B rs = .error msg) ↔
      (∃ x ∈ rs, rangeOutOfCidr A B x = true) ∨
      ¬ List.Pairwise (fun a b => Disjoint (rangeSet a) (rangeSet b)) rs) := by
  cases rs with
  | nil =>
    constructor
    · rintro ⟨msg, hmsg⟩
      cases hmsg
    · rintro (⟨x, hx, -⟩ | hnp)
      · cases hx
      · exact absurd List.Pairwise.nil hnp
  | cons r rest =>
    rw [← collectGapsAfter_error_iff A B rest r hse hsorted]
    constructor
    · rintro ⟨msg, hmsg⟩
      simp only [collectGaps] at hmsg
      rcases h : collectGapsAfter A B r rest with msg2 | gs <;> rw [h] at hmsg
      · exact ⟨msg2, rfl⟩
      · exfalso
        rcases h2 : CreateIPRange (A : ℤ) ((r.start : ℤ) - 1) with - | g
        · rw [show (do
              let gapsTail ← Except.ok gs
              match CreateIPRange (A : ℤ) ((r.start : ℤ) - 1) with
              | some g => Except.ok (g :: gapsTail)
              | none => Except.ok gapsTail : Except String (List IPRange)) =
              Except.ok gs from by rw [h2]; rfl] at hmsg
          cases hmsg
        · rw [show (do
              let gapsTail ← Except.ok gs
              match CreateIPRange (A : ℤ) ((r.start : ℤ) - 1) with
              | some g => Except.ok (g :: gapsTail)
              | none => Except.ok gapsTail : Except String (List IPRange)) =
              Except.ok (g :: gs) from by rw [h2]; rfl] at hmsg
          cases hmsg
    · rintro ⟨msg, hmsg⟩
      refine ⟨msg, ?_⟩
      simp only [collectGaps]
      rw [hmsg]
      rfl

/-- C3 (amended): `FindSubnetExcludeIPBlocks` returns an error if and only if
some included range extends outside the cidr or two included ranges overlap
(share an address); adjacent ranges with no gap between them do NOT cause an
error.  A complementary exclusion contribution whose start exceeds its end is
silently skipped: `CreateIPRange` yields no object (and no error) exactly when
start > end. -/
theorem FindSubnetExcludeIPBlocks_error_iff (w : ℕ) (cidr : IPNet)
    (includedRanges : List IPRange) (gateway : Option ℕ) (excludeIPs : List ℕ)
    (hse : ∀ r ∈ includedRanges, r.start ≤ r.endIP) :
    ((∃ msg, FindSubnetExcludeIPBlocks w cidr includedRanges gateway excludeIPs =
        .error msg) ↔
      (∃ r ∈ includedRanges, r.start < cidr.base ∨ LastIP w cidr < r.endIP) ∨
      ¬ List.Pairwise (fun a b => Disjoint (rangeSet a) (rangeSet b)) includedRanges) ∧
    (∀ s e : ℤ, CreateIPRange s e = none ↔ e < s) := by
  constructor
  · have hperm : (includedRanges.insertionSort (fun a b => a.start ≤ b.start)).Perm includedRanges :=
      List.perm_insertionSort (fun a b => a.start ≤ b.start) includedRanges
    have hmemiff : ∀ a, (a ∈ includedRanges.insertionSort (fun a b => a.start ≤ b.start)) ↔
        a ∈ includedRanges := fun a => hperm.mem_iff
    have hsorted : List.Pairwise (fun a b : IPRange => a.start ≤ b.start)
        (includedRanges.insertionSort (fun a b => a.start ≤ b.start)) := by
      letI : IsTotal IPRange (fun a b => a.start ≤ b.start) :=
        ⟨fun a b => Nat.le_total _ _⟩
      letI : IsTrans IPRange (fun a b => a.start ≤ b.start) :=
        ⟨fun a b c hab hbc => le_trans hab hbc⟩
      exact List.sorted_insertionSort _ includedRanges
    have hse' : ∀ r ∈ includedRanges.insertionSort (fun a b => a.start ≤ b.start),
        r.start ≤ r.endIP := fun r hr => hse r ((hmemiff r).mp hr)
    have hFiff : (∃ msg, FindSubnetExcludeIPBlocks w cidr includedRanges gateway excludeIPs =
        .error msg) ↔ (∃ msg, collectGaps cidr.base (LastIP w cidr)
          (includedRanges.insertionSort (fun a b => a.start ≤ b.start)) = .error msg) := by
      have h1 : FindSubnetExcludeIPBlocks w cidr includedRanges gateway excludeIPs =
          (do
            let gaps ← collectGaps cidr.base (LastIP w cidr)
              (includedRanges.insertionSort (fun a b => a.start ≤ b.start))
            pure ((foldExcludeIPs gaps (excludeIPs ++ gatewayList gateway)).flatMap
                (splitIPRangeToIPBlocks w))) := rfl
      rw [h1]
      rcases h : collectGaps cidr.base (LastIP w cidr)
          (includedRanges.insertionSort (fun a b => a.start ≤ b.start)) with msg | gaps
      · constructor
        · intro _
          exact ⟨msg, rfl⟩
        · intro _
          exact ⟨msg, rfl⟩
      · constructor
        · rintro ⟨msg2, hmsg⟩
          change Except.ok _ = Except.error msg2 at hmsg
          cases hmsg
        · rintro ⟨msg2, hmsg⟩
          cases hmsg
    rw [hFiff, collectGaps_error_iff cidr.base (LastIP w cidr) _ hse' hsorted]
    have houtiff : (∃ x ∈ includedRanges.insertionSort (fun a b => a.start ≤ b.start),
        rangeOutOfCidr cidr.base (LastIP w cidr) x = true) ↔
        (∃ r ∈ includedRanges, r.start < cidr.base ∨ LastIP w cidr < r.endIP) := by
      constructor
      · rintro ⟨x, hx, hxout⟩
        simp only [rangeOutOfCidr, Bool.or_eq_true, decide_eq_true_eq] at hxout
        exact ⟨x, (hmemiff x).mp hx, hxout⟩
      · rintro ⟨x, hx, hxout⟩
        refine ⟨x, (hmemiff x).mpr hx, ?_⟩
        simp only [rangeOutOfCidr, Bool.or_eq_true, decide_eq_true_eq]
        exact hxout
    have hpairiff : List.Pairwise (fun a b => Disjoint (rangeSet a) (rangeSet b))
        (includedRanges.insertionSort (fun a b => a.start ≤ b.start)) ↔
        List.Pairwise (fun a b => Disjoint (rangeSet a) (rangeSet b)) includedRanges :=
      hperm.pairwise_iff (fun {a b} h => h.symm)
    rw [houtiff, hpairiff]
  · intro s e
    unfold CreateIPRange
    constructor
    · intro h
      by_contra hlt
      rw [if_neg (by omega)] at h
      cases h
    · intro h
      rw [if_pos (by omega)]

theorem FindSubnetExcludeIPBlocks_error_iff_witness :
    CreateIPRange 5 3 = none ↔ (3 : ℤ) < 5 :=
  (FindSubnetExcludeIPBlocks_error_iff 32 ⟨0, 24⟩ [⟨10, 20⟩] none []
    (by decide)).2 5 3

instance {e a : Type} [DecidableEq e] [DecidableEq a] : DecidableEq (Except e a) :=
  fun x y =>
  match x, y with
  | .error v, .error v' =>
    if h : v = v' then isTrue (by rw [h]) else isFalse (fun hc => by cases hc; exact h rfl)
  | .error _, .ok _ => isFalse (fun hc => by cases hc)
  | .ok _, .error _ => isFalse (fun hc => by cases hc)
  | .ok v, .ok v' =>
    if h : v = v' then isTrue (by rw [h]) else isFalse (fun hc => by cases hc; exact h rfl)

/-- Counterexample to C3 as stated: two adjacent included ranges (no gap
between `[10,20]` and `[21,30]`) do not produce an error; the call succeeds. -/
theorem FindSubnetExcludeIPBlocks_adjacent_ok :
    (⟨10, 20⟩ : IPRange).endIP + 1 = (⟨21, 30⟩ : IPRange).start ∧
    FindSubnetExcludeIPBlocks 32 ⟨0, 24⟩ [⟨10, 20⟩, ⟨21, 30⟩] none [] =
      .ok [⟨0, 29⟩, ⟨8, 31⟩, ⟨31, 32⟩, ⟨32, 27⟩, ⟨64, 26⟩, ⟨128, 25⟩] := by
  constructor
  · rfl
  · decide

theorem FindSubnetExcludeIPBlocks_correct_witness :
    ∃ bs, FindSubnetExcludeIPBlocks 32 ⟨0, 24⟩ [⟨10, 20⟩] (some 1) [254] = .ok bs ∧
      List.Pairwise (fun a b => Disjoint (blockSet 32 a) (blockSet 32 b)) bs ∧
      (∀ b ∈ bs, ∀ r ∈ [(⟨10, 20⟩ : IPRange)], Disjoint (blockSet 32 b) (rangeSet r)) ∧
      blocksUnion 32 bs ∪ rangesSet [⟨10, 20⟩] =
        Set.Icc (IPNet.base ⟨0, 24⟩) (LastIP 32 ⟨0, 24⟩) :=
  FindSubnetExcludeIPBlocks_correct 32 ⟨0, 24⟩ [⟨10, 20⟩] (some 1) [254]
    (by decide) (by decide) (by decide) (by simp)
    (by
      intro ip hip
      simp only [gatewayList, List.mem_append, List.mem_singleton] at hip
      rcases hip with rfl | rfl
      · refine ⟨⟨by decide, by decide⟩, ?_⟩
        intro r hr
        rw [List.mem_singleton] at hr
        subst hr
        simp only [rangeSet, Set.mem_Icc, rangeMk_start, rangeMk_endIP]
        decide
      · refine ⟨⟨by decide, by decide⟩, ?_⟩
        intro r hr
        rw [List.mem_singleton] at hr
        subst hr
        simp only [rangeSet, Set.mem_Icc, rangeMk_start, rangeMk_endIP]
        decide)

/-- Counterexample to C1 as stated: for the valid input with cidr `⟨0, 24⟩`
(width 32, addresses 0..255), included range `[10, 20]` inside the cidr, no
gateway, and excluded address `15` inside the cidr, the returned blocks
contain the one-address block `15/32`, which intersects the included range —
so the returned blocks are not disjoint from the included ranges and the
union property with "no overlaps" fails. -/
theorem FindSubnetExcludeIPBlocks_c1_counterexample :
    (∀ r ∈ [(⟨10, 20⟩ : IPRange)],
      r.start ≤ r.endIP ∧ (⟨0, 24⟩ : IPNet).base ≤ r.start ∧ r.endIP ≤ LastIP 32 ⟨0, 24⟩) ∧
    (∀ ip ∈ [(15 : ℕ)], (⟨0, 24⟩ : IPNet).base ≤ ip ∧ ip ≤ LastIP 32 ⟨0, 24⟩) ∧
    FindSubnetExcludeIPBlocks 32 ⟨0, 24⟩ [⟨10, 20⟩] none [15] =
      .ok [⟨0, 29⟩, ⟨8, 31⟩, ⟨21, 32⟩, ⟨22, 31⟩, ⟨24, 29⟩, ⟨32, 27⟩, ⟨64, 26⟩,
        ⟨128, 25⟩, ⟨15, 32⟩] ∧
    (⟨15, 32⟩ : IPNet) ∈ [(⟨0, 29⟩ : IPNet), ⟨8, 31⟩, ⟨21, 32⟩, ⟨22, 31⟩, ⟨24, 29⟩,
      ⟨32, 27⟩, ⟨64, 26⟩, ⟨128, 25⟩, ⟨15, 32⟩] ∧
    ¬ Disjoint (blockSet 32 ⟨15, 32⟩) (rangeSet ⟨10, 20⟩) := by
  refine ⟨by decide, by decide, by decide, by decide, ?_⟩
  rw [Set.not_disjoint_iff]
  exact ⟨15, Set.mem_Icc.mpr (by decide), Set.mem_Icc.mpr (by decide)⟩

/-! ### Policy-route manager: kernel state model

The kernel's routing state for one address family is modelled explicitly:
policy rules, routes, links and interface addresses as lists.  Netlink
mutations are modelled as total state transformers (`RouteReplace` updates the
entry with the same (table, destination) key in place, as the kernel FIB
does; `RouteDel` removes it); netlink reads are list filters. -/

def MinRouteTableNum : ℤ := 10000

def MaxRouteTableNum : ℤ := 40000

def MaxRulePriority : ℤ := 32767

def NodeLocalTableNum : ℤ := 255

/-- Modelled from the spec: the mark/mask constants of the `iptables` package
(`KubeProxyMasqueradeMark + FuleNATedPodTrafficMark`) are not part of the
verified sources; the spec fixes them only as "a fixed combination". -/
def fromRuleMask : ℕ := 0x4000 + 0x40

def fromRuleMark : ℕ := 0x0

/-- Modelled from the spec: the closed set of network modes
{Vxlan, Vlan, BGP, GlobalBGP} (`networkingv1.NetworkMode` is a string type,
so the `default` switch branch is reachable for other strings). -/
def NetworkModeVxlan : String := "Vxlan"

def NetworkModeVlan : String := "Vlan"

def NetworkModeBGP : String := "BGP"

def NetworkModeGlobalBGP : String := "GlobalBGP"

def RT_SCOPE_UNIVERSE : ℕ := 0

def RT_SCOPE_LINK : ℕ := 253

def RTN_THROW : ℕ := 9

def IFA_F_NOPREFIXROUTE : ℕ := 512

/-- Embedding of `netlink.Rule` (one address family).  Netlink reports `-1`
for a rule whose priority attribute is absent (priority 0), hence `ℤ`. -/
structure Rule where
  src : Option IPNet
  table : ℤ
  priority : ℤ
  mark : ℕ
  mask : ℕ
deriving DecidableEq, Repr

/-- Embedding of `netlink.Route` (one address family). -/
structure Route where
  linkIndex : ℕ
  dst : Option IPNet
  table : ℤ
  scope : ℕ
  gw : Option ℕ
  typ : ℕ
  src : Option ℕ
deriving DecidableEq, Repr

structure Link where
  name : String
  index : ℕ
deriving DecidableEq, Repr

/-- Embedding of `netlink.Addr` as listed by `netlink.AddrList`. -/
structure Addr where
  ip : ℕ
  prefixLen : ℕ
  flags : ℕ
  scope : ℕ
deriving DecidableEq, Repr

/-- The kernel network state of one address family. -/
structure NetState where
  rules : List Rule
  routes : List Route
  links : List Link
  addrs : List Addr
deriving DecidableEq, Repr

/-- Embedding of `SubnetInfo` of `pkg/daemon/route/utils.go`. -/
structure SubnetInfo where
  cidr : IPNet
  gateway : Option ℕ
  excludeIPs : List ℕ
  includedIPRanges : List IPRange
  forwardNodeIfName : String
  autoNatOutgoing : Bool
  isUnderlayOnHost : Bool
  mode : String
deriving DecidableEq, Repr

/-- The kernel lists a zero-length destination prefix as a nil `Dst`; a route
written with an explicit `0.0.0.0/0` destination reads back as nil. -/
def normalizeRoute (r : Route) : Route :=
  { r with dst := match r.dst with
    | some b => if b.prefixLen = 0 then none else some b
    | none => none }

/-- The kernel FIB key of a route in this model: table plus (normalized)
destination. -/
def routeKey (r : Route) : ℤ × Option IPNet :=
  ((normalizeRoute r).table, (normalizeRoute r).dst)

/-- Model of `netlink.RouteReplace`: overwrite the entries with the same key
in place, or append the route when its key is new. -/
def RouteReplace (r : Route) (routes : List Route) : List Route :=
  let rn := normalizeRoute r
  if routes.any (fun x => routeKey x = routeKey rn) then
    routes.map (fun x => if routeKey x = routeKey rn then rn else x)
  else routes ++ [rn]

/-- Model of `netlink.RouteDel`: drop the entries with the route's key. -/
def RouteDel (r : Route) (routes : List Route) : List Route :=
  routes.filter (fun x => !(routeKey x = routeKey r : Bool))

/-- `netlink.RouteListFiltered` with `RT_FILTER_TABLE`. -/
def routesByTable (t : ℤ) (routes : List Route) : List Route :=
  routes.filter (fun x => x.table = t)

/-- `checkIfRouteTableEmpty` of the source (the list error branch is a kernel
failure, not modelled). -/
def checkIfRouteTableEmpty (tableNum : ℤ) (routes : List Route) : Bool :=
  (routesByTable tableNum routes).isEmpty

/-- Loop of `findEmptyRouteTable`: `for i := Min; i < Max; i++`. -/
def findEmptyRouteTableAux (routes : List Route) : ℤ → ℕ → Except String ℤ
  | _, 0 => .error "cannot find empty route table"
  | i, fuel + 1 =>
    if checkIfRouteTableEmpty i routes then .ok i
    else findEmptyRouteTableAux routes (i + 1) fuel

/-- `findEmptyRouteTable` of the source: the first table in
`[MinRouteTableNum, MaxRouteTableNum)` holding no routes. -/
def findEmptyRouteTable (routes : List Route) : Except String ℤ :=
  findEmptyRouteTableAux routes MinRouteTableNum 30000

/-- `realRulePriority` of the source. -/
def realRulePriority (priority : ℤ) : ℤ :=
  if priority = -1 then 0 else priority

/-- The node-local rule priority as computed by the scan loop of
`findHighestUnusedRulePriority`: the last listed rule pointing at table 255
wins. -/
def nodeLocalRulePrio (rules : List Rule) : ℤ :=
  rules.foldl (fun acc rule =>
    if rule.table = NodeLocalTableNum then realRulePriority rule.priority else acc) 0

/-- Loop of `findHighestUnusedRulePriority`:
`for priority := 0; priority <= MaxRulePriority; priority++`. -/
def findPrioAux (used : List ℤ) (nodeLocal : ℤ) : ℤ → ℕ → Except String ℤ
  | _, 0 => .error "cannot find unused rule priority"
  | p, fuel + 1 =>
    if !used.contains p && nodeLocal < p then .ok p
    else findPrioAux used nodeLocal (p + 1) fuel

/-- `findHighestUnusedRulePriority` of the source. -/
def findHighestUnusedRulePriority (rules : List Rule) : Except String ℤ :=
  findPrioAux (rules.map (fun r => realRulePriority r.priority))
    (nodeLocalRulePrio rules) 0 32768

/-- `checkIfRuleExist` of the source: the first rule whose source matches
(`nil` matches `nil`; non-nil sources compare by string, i.e. structurally);
a positive `table` must additionally match exactly. -/
def checkIfRuleExist (src : Option IPNet) (table : ℤ) (rules : List Rule) : Option Rule :=
  rules.find? (fun rule =>
    (match src, rule.src with
      | none, none => true
      | some s, some rs => s = rs
      | _, _ => false) &&
    (if table > 0 then rule.table = table else true))

/-- `appendHighestUnusedPriorityRuleIfNotExist` of the source. -/
def appendHighestUnusedPriorityRuleIfNotExist (src : IPNet) (table : ℤ)
    (mark mask : ℕ) (s : NetState) : NetState × Except String Unit :=
  match checkIfRuleExist (some src) table s.rules with
  | some _ => (s, .ok ())
  | none =>
    match findHighestUnusedRulePriority s.rules with
    | .error e => (s, .error e)
    | .ok priority =>
      ({ s with rules := s.rules ++ [⟨some src, table, priority, mark, mask⟩] }, .ok ())

def LinkByName (name : String) (links : List Link) : Except String Link :=
  match links.find? (fun l => l.name = name) with
  | some l => .ok l
  | none => .error "failed to get forward link"

/-- `daemonutils.IsDefaultRoute` (one family). -/
def IsDefaultRoute (r : Route) : Bool :=
  r.dst = none || r.dst = some ⟨0, 0⟩

/-- `daemonutils.GetDefaultRoute`: the first default route in the kernel
route dump (`none` models the tolerated `NotExist` error). -/
def GetDefaultRoute (routes : List Route) : Option Route :=
  routes.find? IsDefaultRoute

/-- `(*net.IPNet).Contains` for a well-formed block, with an optional
(possibly nil) address; nil is contained in nothing. -/
def ipnetContainsOpt (w : ℕ) (b : IPNet) (ip : Option ℕ) : Bool :=
  match ip with
  | some a => b.base ≤ a ∧ a ≤ LastIP w b
  | none => false

/-- `isExcludeRoute` of the source. -/
def isExcludeRoute (r : Route) : Bool :=
  r.typ = RTN_THROW

/-- `ensureRoutesForVxlanSubnet` of the source. -/
def ensureRoutesForVxlanSubnet (forwardLink : Link) (_cidr : IPNet) (table : ℤ)
    (autoNatOutgoing : Bool) (underlaySubnetInfoMap : List SubnetInfo)
    (underlayExcludeIPBlockMap : List IPNet) (s : NetState) : NetState × Except String Unit :=
  let routeList := routesByTable table s.routes
  if !autoNatOutgoing then
    let defaultRoute : Route :=
      ⟨forwardLink.index, some ⟨0, 0⟩, table, RT_SCOPE_UNIVERSE, none, 0, none⟩
    let rs1 := RouteReplace defaultRoute s.routes
    let rs2 := routeList.foldl (fun acc route =>
      if route.dst ≠ none then RouteDel route acc else acc) rs1
    ({ s with routes := rs2 }, .ok ())
  else
    let rs1 := routeList.foldl (fun acc route =>
      if isExcludeRoute route then acc
      else if (match route.dst with
        | some d => underlaySubnetInfoMap.any (fun sub => sub.cidr = d)
        | none => false) then acc
      else RouteDel route acc) s.routes
    let rs2 := underlaySubnetInfoMap.foldl (fun acc sub =>
      RouteReplace ⟨forwardLink.index, some sub.cidr, table, RT_SCOPE_UNIVERSE, none, 0, none⟩
        acc) rs1
    -- `ensureExcludedIPBlockRoutes`
    let excludedRouteList := rs2.filter (fun x => x.table = table && x.typ = RTN_THROW)
    let rs3 := excludedRouteList.foldl (fun acc route =>
      if (match route.dst with
        | some d => underlayExcludeIPBlockMap.any (fun b => b = d)
        | none => false) then acc
      else RouteDel route acc) rs2
    let rs4 := underlayExcludeIPBlockMap.foldl (fun acc b =>
      RouteReplace ⟨0, some b, table, RT_SCOPE_UNIVERSE, none, RTN_THROW, none⟩ acc) rs3
    ({ s with routes := rs4 }, .ok ())

/-- `ensureRoutesForVlanSubnet` of the source. -/
def ensureRoutesForVlanSubnet (w : ℕ) (forwardLink : Link) (cidr : IPNet)
    (gateway : Option ℕ) (table : ℤ) (s : NetState) : NetState × Except String Unit :=
  if !(ipnetContainsOpt w cidr gateway) then
    (s, .error "vlan gateway address is not inside the vlan subnet cidr")
  else
    let isLocalSubnet := s.addrs.any (fun address =>
      (ipnetContainsOpt w cidr (some address.ip)) && address.flags &&& IFA_F_NOPREFIXROUTE == 0)
    let subnetDirectRoute : Route :=
      ⟨forwardLink.index, some cidr, table, RT_SCOPE_LINK, none, 0, none⟩
    let defaultRouteNew : Route :=
      ⟨forwardLink.index, none, table, RT_SCOPE_UNIVERSE, gateway, 0, none⟩
    if isLocalSubnet then
      let conflict : Bool :=
        match GetDefaultRoute s.routes with
        | some dr => dr.linkIndex == forwardLink.index &&
            (match dr.gw with | some g' => some g' != gateway | none => false)
        | none => false
      if conflict then
        (s, .error "exist default route of forward interface has a different gateway")
      else
        let directRouteList := s.routes.filter (fun r =>
          r.linkIndex = forwardLink.index && r.dst = some cidr)
        match directRouteList with
        | [] => (s, .error "forward interface should have direct route for local subnet")
        | d0 :: _ =>
          let subnetDirectRoute' := { subnetDirectRoute with src := d0.src }
          let rs1 := RouteReplace subnetDirectRoute' s.routes
          let rs2 := RouteReplace defaultRouteNew rs1
          ({ s with routes := rs2 }, .ok ())
    else
      let rs1 := RouteReplace subnetDirectRoute s.routes
      let rs2 := RouteReplace defaultRouteNew rs1
      ({ s with routes := rs2 }, .ok ())

/-- `ensureRoutesForBGPSubnet` of the source. -/
def ensureRoutesForBGPSubnet (forwardLink : Link) (_cidr : IPNet) (table : ℤ)
    (gateway : Option ℕ) (s : NetState) : NetState × Except String Unit :=
  let defaultRoute : Route :=
    ⟨forwardLink.index, none, table, RT_SCOPE_UNIVERSE, gateway, 0, none⟩
  ({ s with routes := RouteReplace defaultRoute s.routes }, .ok ())

/-- The `switch mode` statement of `ensureFromPodSubnetRuleAndRoutes`. -/
def modeStep (w : ℕ) (forwardLink : Link) (cidr : IPNet) (gateway : Option ℕ)
    (autoNatOutgoing : Bool) (underlaySubnetInfoMap : List SubnetInfo)
    (underlayExcludeIPBlockMap : List IPNet) (mode : String) (table : ℤ) (s : NetState) :
    NetState × Except String Unit :=
  if mode = NetworkModeVxlan then
    ensureRoutesForVxlanSubnet forwardLink cidr table autoNatOutgoing
      underlaySubnetInfoMap underlayExcludeIPBlockMap s
  else if mode = NetworkModeVlan then
    ensureRoutesForVlanSubnet w forwardLink cidr gateway table s
  else if mode = NetworkModeBGP ∨ mode = NetworkModeGlobalBGP then
    ensureRoutesForBGPSubnet forwardLink cidr table gateway s
  else (s, .error "unsupported network mode")

/-- `ensureFromPodSubnetRuleAndRoutes` of the source. -/
def ensureFromPodSubnetRuleAndRoutes (w : ℕ) (forwardNodeIfName : String) (cidr : IPNet)
    (gateway : Option ℕ) (autoNatOutgoing : Bool) (underlaySubnetInfoMap : List SubnetInfo)
    (underlayExcludeIPBlockMap : List IPNet) (mode : String) (s : NetState) :
    NetState × Except String Unit :=
  let existRule? := checkIfRuleExist (some cidr) (-1) s.rules
  let tableE : Except String ℤ :=
    match existRule? with
    | none => findEmptyRouteTable s.routes
    | some er => .ok er.table
  match tableE with
  | .error e => (s, .error e)
  | .ok table =>
    match LinkByName forwardNodeIfName s.links with
    | .error e => (s, .error e)
    | .ok forwardLink =>
      match modeStep w forwardLink cidr gateway autoNatOutgoing
          underlaySubnetInfoMap underlayExcludeIPBlockMap mode table s with
      | (s', .error e) => (s', .error e)
      | (s', .ok _) =>
        match existRule? with
        | some _ => (s', .ok ())
        | none => appendHighestUnusedPriorityRuleIfNotExist cidr table fromRuleMark fromRuleMask s'

/-! ### C8: empty-route-table allocation -/

lemma findEmptyRouteTableAux_ok (routes : List Route) :
    ∀ (fuel : ℕ) (i t : ℤ), findEmptyRouteTableAux routes i fuel = .ok t →
      i ≤ t ∧ t < i + fuel ∧ checkIfRouteTableEmpty t routes = true := by
  intro fuel
  induction fuel with
  | zero =>
    intro i t h
    exact absurd h (by simp [findEmptyRouteTableAux])
  | succ n ih =>
    intro i t h
    rw [findEmptyRouteTableAux] at h
    by_cases hc : checkIfRouteTableEmpty i routes = true
    · rw [if_pos hc] at h
      injection h with h
      subst h
      exact ⟨le_refl _, by push_cast; omega, hc⟩
    · rw [if_neg hc] at h
      obtain ⟨h1, h2, h3⟩ := ih (i + 1) t h
      push_cast at h2
      exact ⟨by omega, by push_cast; omega, h3⟩

lemma findEmptyRouteTableAux_error (routes : List Route) :
    ∀ (fuel : ℕ) (i : ℤ),
      ((∃ e, findEmptyRouteTableAux routes i fuel = .error e) ↔
        ∀ j : ℤ, i ≤ j → j < i + fuel → checkIfRouteTableEmpty j routes = false) := by
  intro fuel
  induction fuel with
  | zero =>
    intro i
    constructor
    · intro _ j h1 h2
      exact absurd (lt_of_le_of_lt h1 h2) (by push_cast; omega)
    · intro _
      exact ⟨_, rfl⟩
  | succ n ih =>
    intro i
    rw [findEmptyRouteTableAux]
    by_cases hc : checkIfRouteTableEmpty i routes = true
    · rw [if_pos hc]
      constructor
      · rintro ⟨e, he⟩
        exact absurd he (by simp)
      · intro hall
        have := hall i (le_refl _) (by push_cast; omega)
        rw [hc] at this
        exact absurd this (by simp)
    · rw [if_neg hc]
      rw [ih (i + 1)]
      constructor
      · intro hall j h1 h2
        rcases eq_or_lt_of_le h1 with h1 | h1
        · subst h1
          exact Bool.eq_false_iff.mpr hc
        · exact hall j (by omega) (by push_cast at h2 ⊢; omega)
      · intro hall j h1 h2
        exact hall j (by omega) (by push_cast at h2 ⊢; omega)

/-- **C8**: whenever `findEmptyRouteTable` returns a table number without
error, that table lies in the pool `[10000, 40000)` and held zero routes in
the scanned state — allocation never returns a table already holding routes —
and it returns an error exactly when every table of the pool holds at least
one route. -/
theorem findEmptyRouteTable_correct (routes : List Route) :
    (∀ t, findEmptyRouteTable routes = .ok t →
      MinRouteTableNum ≤ t ∧ t < MaxRouteTableNum ∧
      checkIfRouteTableEmpty t routes = true) ∧
    ((∃ e, findEmptyRouteTable routes = .error e) ↔
      ∀ t : ℤ, MinRouteTableNum ≤ t → t < MaxRouteTableNum →
        checkIfRouteTableEmpty t routes = false) := by
  have hkey : (MinRouteTableNum + (30000 : ℕ) : ℤ) = MaxRouteTableNum := by
    simp [MinRouteTableNum, MaxRouteTableNum]
  constructor
  · intro t h
    obtain ⟨h1, h2, h3⟩ := findEmptyRouteTableAux_ok routes 30000 MinRouteTableNum t h
    rw [hkey] at h2
    exact ⟨h1, h2, h3⟩
  · rw [findEmptyRouteTable, findEmptyRouteTableAux_error routes 30000 MinRouteTableNum, hkey]

/-- Witness for C8 at the empty route list: the allocator hands out table
10000 and reports it empty. -/
theorem findEmptyRouteTable_correct_witness :
    MinRouteTableNum ≤ (10000 : ℤ) ∧ (10000 : ℤ) < MaxRouteTableNum ∧
    checkIfRouteTableEmpty 10000 [] = true :=
  (findEmptyRouteTable_correct []).1 10000 (by decide)

/-! ### C7: rule-priority allocation -/

lemma findPrioAux_ok (used : List ℤ) (nodeLocal : ℤ) :
    ∀ (fuel : ℕ) (i p : ℤ), findPrioAux used nodeLocal i fuel = .ok p →
      i ≤ p ∧ p < i + fuel ∧ used.contains p = false ∧ nodeLocal < p := by
  intro fuel
  induction fuel with
  | zero =>
    intro i p h
    exact absurd h (by simp [findPrioAux])
  | succ n ih =>
    intro i p h
    rw [findPrioAux] at h
    by_cases hc : (!used.contains i && decide (nodeLocal < i)) = true
    · rw [if_pos hc] at h
      injection h with h
      subst h
      rw [Bool.and_eq_true, Bool.not_eq_true', decide_eq_true_iff] at hc
      exact ⟨le_refl _, by push_cast; omega, hc.1, hc.2⟩
    · rw [if_neg hc] at h
      obtain ⟨h1, h2, h3, h4⟩ := ih (i + 1) p h
      push_cast at h2
      exact ⟨by omega, by push_cast; omega, h3, h4⟩

/-- **C7** (amended): a priority returned by `findHighestUnusedRulePriority`
without error lies in `[0, 32767]`, differs from the effective
(`realRulePriority`) priority of every listed rule, and strictly exceeds
`nodeLocalRulePrio` — the effective priority of the **last** listed rule
pointing at table 255 (0 when none points there).  The original claim asked
for strictly more than the priority of *the* rule pointing at table 255; when
several rules point at table 255 only the last-listed one bounds the result
(see the counterexample). -/
theorem findHighestUnusedRulePriority_correct (rules : List Rule) (p : ℤ)
    (h : findHighestUnusedRulePriority rules = .ok p) :
    0 ≤ p ∧ p ≤ MaxRulePriority ∧
    (∀ r ∈ rules, realRulePriority r.priority ≠ p) ∧
    nodeLocalRulePrio rules < p := by
  obtain ⟨h1, h2, h3, h4⟩ := findPrioAux_ok _ _ 32768 0 p h
  refine ⟨h1, ?_, ?_, h4⟩
  · have : p < 32768 := by push_cast at h2; omega
    simp only [MaxRulePriority]
    omega
  · intro r hr hEq
    have hmem : p ∈ rules.map (fun r => realRulePriority r.priority) :=
      List.mem_map.mpr ⟨r, hr, hEq⟩
    have hcon : (rules.map (fun r => realRulePriority r.priority)).contains p = true :=
      List.elem_eq_true_of_mem hmem
    rw [h3] at hcon
    exact absurd hcon (by simp)

/-- Witness for C7 at the empty rule list: priority 1 is returned, is in
range, unused, and above the (absent) node-local rule priority 0. -/
theorem findHighestUnusedRulePriority_correct_witness :
    0 ≤ (1 : ℤ) ∧ (1 : ℤ) ≤ MaxRulePriority ∧
    (∀ r ∈ ([] : List Rule), realRulePriority r.priority ≠ 1) ∧
    nodeLocalRulePrio [] < 1 :=
  findHighestUnusedRulePriority_correct [] 1 (by decide)

def c7rules : List Rule := [⟨none, 255, 5, 0, 0⟩, ⟨none, 255, 0, 0, 0⟩]

/-- **C7** counterexample to the frozen claim: two rules point at table 255
(priorities 5, then 0); the scan keeps the last one, so the allocator returns
priority 1, which is *not* strictly greater than the priority 5 of the first
rule pointing at the node-local table 255. -/
theorem findHighestUnusedRulePriority_c7_counterexample :
    findHighestUnusedRulePriority c7rules = .ok 1 ∧
    (⟨none, 255, 5, 0, 0⟩ : Rule) ∈ c7rules ∧
    (⟨none, 255, 5, 0, 0⟩ : Rule).table = NodeLocalTableNum ∧
    ¬ ((1 : ℤ) > realRulePriority (⟨none, 255, 5, 0, 0⟩ : Rule).priority) := by
  refine ⟨by decide, by decide, by decide, by decide⟩

/-! ### C6: routes before rules -/

lemma ensureRoutesForVxlanSubnet_shape (fl : Link) (c : IPNet) (t : ℤ) (nat : Bool)
    (usm : List SubnetInfo) (uebm : List IPNet) (s : NetState) :
    ∃ R, ensureRoutesForVxlanSubnet fl c t nat usm uebm s = ({ s with routes := R }, .ok ()) := by
  simp only [ensureRoutesForVxlanSubnet]
  split
  · exact ⟨_, rfl⟩
  · exact ⟨_, rfl⟩

lemma ensureRoutesForVlanSubnet_shape (w : ℕ) (fl : Link) (c : IPNet) (gw : Option ℕ)
    (t : ℤ) (s : NetState) :
    (∃ R, ensureRoutesForVlanSubnet w fl c gw t s = ({ s with routes := R }, .ok ())) ∨
    (∃ e, ensureRoutesForVlanSubnet w fl c gw t s = (s, .error e)) := by
  simp only [ensureRoutesForVlanSubnet]
  split
  · exact .inr ⟨_, rfl⟩
  · split
    · split
      · exact .inr ⟨_, rfl⟩
      · split
        · exact .inr ⟨_, rfl⟩
        · exact .inl ⟨_, rfl⟩
    · exact .inl ⟨_, rfl⟩

lemma ensureRoutesForBGPSubnet_shape (fl : Link) (c : IPNet) (t : ℤ) (gw : Option ℕ)
    (s : NetState) :
    ∃ R, ensureRoutesForBGPSubnet fl c t gw s = ({ s with routes := R }, .ok ()) :=
  ⟨_, rfl⟩

lemma modeStep_shape (w : ℕ) (fl : Link) (c : IPNet) (gw : Option ℕ) (nat : Bool)
    (usm : List SubnetInfo) (uebm : List IPNet) (mode : String) (t : ℤ) (s : NetState) :
    (∃ R, modeStep w fl c gw nat usm uebm mode t s = ({ s with routes := R }, .ok ())) ∨
    (∃ e, modeStep w fl c gw nat usm uebm mode t s = (s, .error e)) := by
  rw [modeStep]
  split
  · exact .inl (ensureRoutesForVxlanSubnet_shape fl c t nat usm uebm s)
  · split
    · rcases ensureRoutesForVlanSubnet_shape w fl c gw t s with h | h
      · exact .inl h
      · exact .inr h
    · split
      · exact .inl (ensureRoutesForBGPSubnet_shape fl c t gw s)
      · exact .inr ⟨_, rfl⟩

/-- **C6**: in every execution of `ensureFromPodSubnetRuleAndRoutes`, the rule
list is untouched on every error path and whenever a rule for the cidr already
existed at the start; whenever the rule list did change, the whole call
returned success, no rule for the cidr existed at the start, and exactly one
rule — source = cidr, the freshly allocated priority, the fixed mark/mask —
was appended after the per-mode route population succeeded. -/
theorem ensureFromPodSubnetRuleAndRoutes_rule_after_routes
    (w : ℕ) (ifn : String) (cidr : IPNet) (gw : Option ℕ) (nat : Bool)
    (usm : List SubnetInfo) (uebm : List IPNet) (mode : String) (s s' : NetState)
    (res : Except String Unit)
    (h : ensureFromPodSubnetRuleAndRoutes w ifn cidr gw nat usm uebm mode s = (s', res)) :
    ((∃ e, res = .error e) → s'.rules = s.rules) ∧
    (∀ ru, checkIfRuleExist (some cidr) (-1) s.rules = some ru → s'.rules = s.rules) ∧
    (s'.rules ≠ s.rules →
      res = .ok () ∧ checkIfRuleExist (some cidr) (-1) s.rules = none ∧
      ∃ p t, findHighestUnusedRulePriority s.rules = .ok p ∧
        s'.rules = s.rules ++ [⟨some cidr, t, p, fromRuleMark, fromRuleMask⟩]) := by
  rw [ensureFromPodSubnetRuleAndRoutes] at h
  cases hex : checkIfRuleExist (some cidr) (-1) s.rules with
  | some er =>
    rw [hex] at h
    dsimp only at h
    cases hlink : LinkByName ifn s.links with
    | error e =>
      rw [hlink] at h
      dsimp only at h
      rw [Prod.mk.injEq] at h
      obtain ⟨rfl, rfl⟩ := h
      exact ⟨fun _ => rfl, fun _ _ => rfl, fun hne => absurd rfl hne⟩
    | ok fl =>
      rw [hlink] at h
      dsimp only at h
      rcases modeStep_shape w fl cidr gw nat usm uebm mode er.table s with ⟨R, hst⟩ | ⟨e, hst⟩
      · rw [hst] at h
        dsimp only at h
        rw [Prod.mk.injEq] at h
        obtain ⟨rfl, rfl⟩ := h
        exact ⟨fun hok => absurd hok.choose_spec (by simp), fun _ _ => rfl,
          fun hne => absurd rfl hne⟩
      · rw [hst] at h
        dsimp only at h
        rw [Prod.mk.injEq] at h
        obtain ⟨rfl, rfl⟩ := h
        exact ⟨fun _ => rfl, fun _ _ => rfl, fun hne => absurd rfl hne⟩
  | none =>
    rw [hex] at h
    dsimp only at h
    cases htab : findEmptyRouteTable s.routes with
    | error e =>
      rw [htab] at h
      dsimp only at h
      rw [Prod.mk.injEq] at h
      obtain ⟨rfl, rfl⟩ := h
      exact ⟨fun _ => rfl, fun _ _ => rfl, fun hne => absurd rfl hne⟩
    | ok t =>
      rw [htab] at h
      dsimp only at h
      cases hlink : LinkByName ifn s.links with
      | error e =>
        rw [hlink] at h
        dsimp only at h
        rw [Prod.mk.injEq] at h
        obtain ⟨rfl, rfl⟩ := h
        exact ⟨fun _ => rfl, fun _ _ => rfl, fun hne => absurd rfl hne⟩
      | ok fl =>
        rw [hlink] at h
        dsimp only at h
        rcases modeStep_shape w fl cidr gw nat usm uebm mode t s with ⟨R, hst⟩ | ⟨e, hst⟩
        · rw [hst] at h
          dsimp only at h
          rw [appendHighestUnusedPriorityRuleIfNotExist] at h
          dsimp only at h
          cases hex2 : checkIfRuleExist (some cidr) t s.rules with
          | some ru2 =>
            rw [hex2] at h
            dsimp only at h
            rw [Prod.mk.injEq] at h
            obtain ⟨rfl, rfl⟩ := h
            exact ⟨fun hok => absurd hok.choose_spec (by simp), fun _ _ => rfl,
              fun hne => absurd rfl hne⟩
          | none =>
            rw [hex2] at h
            dsimp only at h
            cases hprio : findHighestUnusedRulePriority s.rules with
            | error e =>
              rw [hprio] at h
              dsimp only at h
              rw [Prod.mk.injEq] at h
              obtain ⟨rfl, rfl⟩ := h
              exact ⟨fun _ => rfl, fun _ _ => rfl, fun hne => absurd rfl hne⟩
            | ok p =>
              rw [hprio] at h
              dsimp only at h
              rw [Prod.mk.injEq] at h
              obtain ⟨rfl, rfl⟩ := h
              refine ⟨fun hok => absurd hok.choose_spec (by simp), ?_, ?_⟩
              · intro ru hru
                exact absurd hru (by simp)
              · intro _
                exact ⟨rfl, rfl, p, t, rfl, rfl⟩
        · rw [hst] at h
          dsimp only at h
          rw [Prod.mk.injEq] at h
          obtain ⟨rfl, rfl⟩ := h
          exact ⟨fun _ => rfl, fun _ _ => rfl, fun hne => absurd rfl hne⟩

def c6s0 : NetState := ⟨[], [], [⟨"eth0", 3⟩], []⟩

def c6sFin : NetState :=
  ⟨[⟨some ⟨0, 24⟩, 10000, 1, fromRuleMark, fromRuleMask⟩],
   [⟨3, none, 10000, RT_SCOPE_UNIVERSE, none, 0, none⟩], [⟨"eth0", 3⟩], []⟩

/-- Witness for C6: a concrete successful BGP reconciliation on an empty
state appends exactly the one freshly allocated rule, after the route write. -/
theorem ensureFromPodSubnetRuleAndRoutes_rule_after_routes_witness :
    ((∃ e, (Except.ok () : Except String Unit) = .error e) → c6sFin.rules = c6s0.rules) ∧
    (∀ ru, checkIfRuleExist (some ⟨0, 24⟩) (-1) c6s0.rules = some ru →
      c6sFin.rules = c6s0.rules) ∧
    (c6sFin.rules ≠ c6s0.rules →
      (Except.ok () : Except String Unit) = .ok () ∧
      checkIfRuleExist (some ⟨0, 24⟩) (-1) c6s0.rules = none ∧
      ∃ p t, findHighestUnusedRulePriority c6s0.rules = .ok p ∧
        c6sFin.rules = c6s0.rules ++ [⟨some ⟨0, 24⟩, t, p, fromRuleMark, fromRuleMask⟩]) :=
  ensureFromPodSubnetRuleAndRoutes_rule_after_routes 32 "eth0" ⟨0, 24⟩ none false [] [] "BGP"
    c6s0 c6sFin (.ok ()) (by decide)

/-! ### C9: address manager

The kernel address table of one family is a list of (link name, address)
pairs; `netlink.AddrAdd` appends, `netlink.AddrDel` removes.  The manager's
`interfaceToSubnetMap` is an association list interface name ↦ list of
(subnet cidr, representative pod address); the `resolveOwner` callback is a
total map address ↦ owning node (none = no IPInstance found).  Container
network links are taken as already filtered out of the state. -/

structure LinkAddr where
  link : String
  addr : Addr
deriving DecidableEq, Repr

/-- The network (`ip.Network`) an address belongs to: the address's prefix
aligned down to its mask. -/
def addrNetwork (w : ℕ) (a : Addr) : IPNet :=
  ⟨a.ip - a.ip % 2 ^ (w - a.prefixLen), a.prefixLen⟩

/-- Modelled from the spec: an address is *enhanced* when it carries the
link-scope, no-prefix-route marking (§4.3 step 1; `checkIfEnhancedAddr` is
not part of the verified sources). -/
def checkIfEnhancedAddr (a : Addr) : Bool :=
  a.flags &&& IFA_F_NOPREFIXROUTE != 0 && a.scope == RT_SCOPE_LINK

/-- Modelled from the spec: install the new enhanced address, and remove the
superseded one only after the new one is installed (§4.3 step 3;
`ensureSubnetEnhancedAddr` is not part of the verified sources). -/
def ensureSubnetEnhancedAddr (link : String) (newAddr : Addr)
    (outOfDate : Option Addr) (st : List LinkAddr) : List LinkAddr :=
  let st1 := st ++ [⟨link, newAddr⟩]
  match outOfDate with
  | some old => st1.filter (fun la => !(la.link == link && la.addr == old))
  | none => st1

/-- The clearing phase of `SyncAddresses` (steps 1–2): delete every enhanced
address whose interface is untracked or whose subnet left the interface's
target set. -/
def clearStaleEnhanced (w : ℕ) (m : List (String × List (IPNet × ℕ)))
    (st : List LinkAddr) : List LinkAddr :=
  st.filter (fun la =>
    !(checkIfEnhancedAddr la.addr &&
      (match m.find? (fun e => e.1 = la.link) with
       | none => true
       | some e => !(e.2.any (fun p => p.1 = addrNetwork w la.addr)))))

/-- The per-(interface, subnet, pod address) body of `SyncAddresses` step 3.
`base` is the state the enhanced/manual classification maps were built from
(the state at the start of the pass). -/
def syncOne (w : ℕ) (localNodeName : String) (resolveOwner : ℕ → Option String)
    (base : List LinkAddr) (ifName : String) (subnet : IPNet) (podIP : ℕ)
    (st : List LinkAddr) : List LinkAddr :=
  let manualExists := base.any (fun la =>
    la.link == ifName && !(checkIfEnhancedAddr la.addr) &&
      addrNetwork w la.addr == subnet)
  if manualExists then st
  else
    let existEnh : Option Addr := base.foldl (fun acc la =>
      if la.link == ifName && checkIfEnhancedAddr la.addr &&
          addrNetwork w la.addr == subnet
      then some la.addr else acc) none
    let newAddr : Addr := ⟨podIP, subnet.prefixLen, IFA_F_NOPREFIXROUTE, RT_SCOPE_LINK⟩
    match existEnh with
    | some ea =>
      if ea.ip = podIP then st
      else if resolveOwner ea.ip = some localNodeName then st
      else ensureSubnetEnhancedAddr ifName newAddr (some ea) st
    | none => ensureSubnetEnhancedAddr ifName newAddr none st

/-- `SyncAddresses` of the source: clear stale enhanced addresses, then
ensure an enhanced address for every tracked (interface, subnet, pod address)
triple. -/
def SyncAddresses (w : ℕ) (localNodeName : String) (resolveOwner : ℕ → Option String)
    (m : List (String × List (IPNet × ℕ))) (st0 : List LinkAddr) : List LinkAddr :=
  let stC := clearStaleEnhanced w m st0
  m.foldl (fun st e =>
    e.2.foldl (fun st' p => syncOne w localNodeName resolveOwner st0 e.1 p.1 p.2 st') st) stC

lemma mem_ensureSubnetEnhancedAddr (link : String) (newAddr : Addr)
    (outOfDate : Option Addr) (st : List LinkAddr) (la : LinkAddr)
    (h : la ∈ ensureSubnetEnhancedAddr link newAddr outOfDate st) :
    la ∈ st ∨ la = ⟨link, newAddr⟩ := by
  cases outOfDate with
  | none =>
    simp only [ensureSubnetEnhancedAddr] at h
    rcases List.mem_append.mp h with h' | h'
    · exact .inl h'
    · exact .inr (List.mem_singleton.mp h')
  | some old =>
    simp only [ensureSubnetEnhancedAddr] at h
    rcases List.mem_append.mp (List.mem_of_mem_filter h) with h' | h'
    · exact .inl h'
    · exact .inr (List.mem_singleton.mp h')

lemma mem_syncOne (w : ℕ) (node : String) (ro : ℕ → Option String)
    (base : List LinkAddr) (ifName : String) (subnet : IPNet) (podIP : ℕ)
    (st : List LinkAddr) (la : LinkAddr)
    (h : la ∈ syncOne w node ro base ifName subnet podIP st) :
    la ∈ st ∨ (la.addr.scope = RT_SCOPE_LINK ∧ la.addr.flags &&& IFA_F_NOPREFIXROUTE ≠ 0) := by
  have hnew : ∀ h' : la = (⟨ifName, ⟨podIP, subnet.prefixLen, IFA_F_NOPREFIXROUTE, RT_SCOPE_LINK⟩⟩ : LinkAddr),
      la.addr.scope = RT_SCOPE_LINK ∧ la.addr.flags &&& IFA_F_NOPREFIXROUTE ≠ 0 := by
    intro h'
    subst h'
    refine ⟨rfl, ?_⟩
    show IFA_F_NOPREFIXROUTE &&& IFA_F_NOPREFIXROUTE ≠ 0
    decide
  rw [syncOne] at h
  dsimp only at h
  split at h
  · exact .inl h
  · split at h
    · split at h
      · exact .inl h
      · split at h
        · exact .inl h
        · rcases mem_ensureSubnetEnhancedAddr _ _ _ _ _ h with h' | h'
          · exact .inl h'
          · exact .inr (hnew h')
    · rcases mem_ensureSubnetEnhancedAddr _ _ _ _ _ h with h' | h'
      · exact .inl h'
      · exact .inr (hnew h')

lemma foldl_mem_invariant {α : Type} (f : List LinkAddr → α → List LinkAddr)
    (P : LinkAddr → Prop)
    (hf : ∀ st a la, la ∈ f st a → la ∈ st ∨ P la) :
    ∀ (l : List α) (st : List LinkAddr) (la : LinkAddr),
      la ∈ l.foldl f st → la ∈ st ∨ P la := by
  intro l
  induction l with
  | nil =>
    intro st la h
    exact .inl h
  | cons a l ih =>
    intro st la h
    rcases ih (f st a) la h with h' | h'
    · exact hf st a la h'
    · exact .inr h'

/-- **C9**: every address that `SyncAddresses` installs — everything in the
final state that was not in the starting state — carries link scope
(`RT_SCOPE_LINK`) and the no-prefix-route flag (`IFA_F_NOPREFIXROUTE`); no
enhanced address is ever created with another scope or without the flag. -/
theorem SyncAddresses_enhanced_invariant
    (w : ℕ) (node : String) (ro : ℕ → Option String)
    (m : List (String × List (IPNet × ℕ))) (st0 : List LinkAddr) :
    ∀ la ∈ SyncAddresses w node ro m st0,
      la ∈ st0 ∨
      (la.addr.scope = RT_SCOPE_LINK ∧ la.addr.flags &&& IFA_F_NOPREFIXROUTE ≠ 0) := by
  intro la h
  simp only [SyncAddresses] at h
  rcases foldl_mem_invariant _
      (fun la' => la'.addr.scope = RT_SCOPE_LINK ∧ la'.addr.flags &&& IFA_F_NOPREFIXROUTE ≠ 0)
      (fun st e la' h' =>
        foldl_mem_invariant _ _
          (fun st' p la'' h'' => mem_syncOne w node ro st0 e.1 p.1 p.2 st' la'' h'')
          e.2 st la' h')
      m _ la h with h1 | h1
  · exact .inl (List.mem_of_mem_filter h1)
  · exact .inr h1

/-- Witness for C9: syncing one tracked (interface, subnet, pod address)
triple over an empty address table installs exactly one address, and it is
link-scoped with the no-prefix-route flag. -/
theorem SyncAddresses_enhanced_invariant_witness :
    (⟨"eth0", ⟨5, 24, IFA_F_NOPREFIXROUTE, RT_SCOPE_LINK⟩⟩ : LinkAddr) ∈ ([] : List LinkAddr) ∨
    ((⟨"eth0", ⟨5, 24, IFA_F_NOPREFIXROUTE, RT_SCOPE_LINK⟩⟩ : LinkAddr).addr.scope = RT_SCOPE_LINK ∧
     (⟨"eth0", ⟨5, 24, IFA_F_NOPREFIXROUTE, RT_SCOPE_LINK⟩⟩ : LinkAddr).addr.flags &&& IFA_F_NOPREFIXROUTE ≠ 0) :=
  SyncAddresses_enhanced_invariant 32 "node1" (fun _ => none)
    [("eth0", [(⟨0, 24⟩, 5)])] []
    ⟨"eth0", ⟨5, 24, IFA_F_NOPREFIXROUTE, RT_SCOPE_LINK⟩⟩ (by decide)

/-! ### C5: idempotence of the subnet reconciliation

Infrastructure: how `RouteReplace`/`RouteDel` and their folds act on the
kernel FIB keys. -/

lemma normalizeRoute_idem (r : Route) : normalizeRoute (normalizeRoute r) = normalizeRoute r := by
  cases r with
  | mk li dst t sc gw ty src =>
    cases dst with
    | none => rfl
    | some b =>
      by_cases h : b.prefixLen = 0
      · simp [normalizeRoute, h]
      · simp [normalizeRoute, h]

lemma routeKey_normalizeRoute (r : Route) :
    routeKey (normalizeRoute r) = routeKey r := by
  unfold routeKey
  rw [normalizeRoute_idem]

lemma normalizeRoute_dst (r : Route) :
    (normalizeRoute r).dst = match r.dst with
      | some b => if b.prefixLen = 0 then none else some b
      | none => none := rfl

lemma normalized_dst {r : Route} (h : normalizeRoute r = r) :
    ∀ b, r.dst = some b → b.prefixLen ≠ 0 := by
  intro b hb hp
  have hd := congrArg Route.dst h
  rw [normalizeRoute_dst, hb] at hd
  simp [hp] at hd

lemma routeKey_of_normalized {r : Route} (h : normalizeRoute r = r) :
    routeKey r = (r.table, r.dst) := by
  unfold routeKey
  rw [h]

lemma map_eq_self_of {α : Type} {l : List α} {f : α → α} (h : ∀ x ∈ l, f x = x) :
    l.map f = l := by
  induction l with
  | nil => rfl
  | cons a l ih =>
    simp only [List.map_cons]
    rw [h a (by simp), ih (fun x hx => h x (by simp [hx]))]

lemma RouteReplace_holds (r : Route) (rs : List Route) :
    (∃ x ∈ RouteReplace r rs, routeKey x = routeKey r) ∧
    (∀ x ∈ RouteReplace r rs, routeKey x = routeKey r → x = normalizeRoute r) := by
  unfold RouteReplace
  dsimp only
  by_cases hany : rs.any (fun x => decide (routeKey x = routeKey (normalizeRoute r))) = true
  · rw [if_pos hany]
    obtain ⟨x0, hx0, hkx0⟩ := List.any_eq_true.mp hany
    rw [decide_eq_true_iff] at hkx0
    constructor
    · refine ⟨normalizeRoute r, List.mem_map.mpr ⟨x0, hx0, ?_⟩, routeKey_normalizeRoute r⟩
      exact if_pos hkx0
    · intro y hy hky
      obtain ⟨x, hx, hfx⟩ := List.mem_map.mp hy
      by_cases hk : routeKey x = routeKey (normalizeRoute r)
      · rw [if_pos hk] at hfx
        exact hfx.symm
      · rw [if_neg hk] at hfx
        rw [← hfx] at hky
        rw [routeKey_normalizeRoute] at hk
        exact absurd hky hk
  · rw [if_neg hany]
    constructor
    · exact ⟨normalizeRoute r, by simp, routeKey_normalizeRoute r⟩
    · intro y hy hky
      rcases List.mem_append.mp hy with hy' | hy'
      · exfalso
        have := List.any_eq_false.mp (Bool.eq_false_iff.mpr hany) y hy'
        rw [decide_eq_true_iff, routeKey_normalizeRoute] at this
        exact this hky
      · exact List.mem_singleton.mp hy'

lemma RouteReplace_eq_self (r : Route) (rs : List Route)
    (hex : ∃ x ∈ rs, routeKey x = routeKey r)
    (hall : ∀ x ∈ rs, routeKey x = routeKey r → x = normalizeRoute r) :
    RouteReplace r rs = rs := by
  unfold RouteReplace
  dsimp only
  obtain ⟨x0, hx0, hkx0⟩ := hex
  have hany : rs.any (fun x => decide (routeKey x = routeKey (normalizeRoute r))) = true := by
    refine List.any_eq_true.mpr ⟨x0, hx0, ?_⟩
    rw [decide_eq_true_iff, routeKey_normalizeRoute]
    exact hkx0
  rw [if_pos hany]
  apply map_eq_self_of
  intro x hx
  show (if routeKey x = routeKey (normalizeRoute r) then normalizeRoute r else x) = x
  by_cases hk : routeKey x = routeKey (normalizeRoute r)
  · rw [if_pos hk]
    rw [routeKey_normalizeRoute] at hk
    exact (hall x hx hk).symm
  · rw [if_neg hk]

lemma RouteReplace_idem (r : Route) (rs : List Route) :
    RouteReplace r (RouteReplace r rs) = RouteReplace r rs :=
  RouteReplace_eq_self r _ (RouteReplace_holds r rs).1 (RouteReplace_holds r rs).2

lemma mem_RouteReplace (r : Route) (rs : List Route) (x : Route)
    (hx : x ∈ RouteReplace r rs) :
    x = normalizeRoute r ∨ (x ∈ rs ∧ routeKey x ≠ routeKey r) := by
  unfold RouteReplace at hx
  dsimp only at hx
  by_cases hany : rs.any (fun y => decide (routeKey y = routeKey (normalizeRoute r))) = true
  · rw [if_pos hany] at hx
    obtain ⟨y, hy, hfy⟩ := List.mem_map.mp hx
    by_cases hk : routeKey y = routeKey (normalizeRoute r)
    · rw [if_pos hk] at hfy
      exact .inl hfy.symm
    · rw [if_neg hk] at hfy
      rw [routeKey_normalizeRoute] at hk
      exact .inr ⟨hfy ▸ hy, hfy ▸ hk⟩
  · rw [if_neg hany] at hx
    rcases List.mem_append.mp hx with hx' | hx'
    · have := List.any_eq_false.mp (Bool.eq_false_iff.mpr hany) x hx'
      rw [decide_eq_true_iff, routeKey_normalizeRoute] at this
      exact .inr ⟨hx', this⟩
    · exact .inl (List.mem_singleton.mp hx')

lemma mem_RouteReplace_of_other (r : Route) (rs : List Route) (x : Route)
    (hx : x ∈ rs) (hk : routeKey x ≠ routeKey r) : x ∈ RouteReplace r rs := by
  unfold RouteReplace
  dsimp only
  by_cases hany : rs.any (fun y => decide (routeKey y = routeKey (normalizeRoute r))) = true
  · rw [if_pos hany]
    refine List.mem_map.mpr ⟨x, hx, ?_⟩
    exact if_neg (by rw [routeKey_normalizeRoute]; exact hk)
  · rw [if_neg hany]
    exact List.mem_append_left _ hx

lemma invariant_RouteReplace_other (r : Route) (rs : List Route)
    (k : ℤ × Option IPNet) (v : Route) (hk : k ≠ routeKey r)
    (hinv : (∃ x ∈ rs, routeKey x = k) ∧ (∀ x ∈ rs, routeKey x = k → x = v)) :
    (∃ x ∈ RouteReplace r rs, routeKey x = k) ∧
    (∀ x ∈ RouteReplace r rs, routeKey x = k → x = v) := by
  obtain ⟨⟨x0, hx0, hkx0⟩, hall⟩ := hinv
  constructor
  · exact ⟨x0, mem_RouteReplace_of_other r rs x0 hx0 (by rw [hkx0]; exact hk), hkx0⟩
  · intro y hy hky
    rcases mem_RouteReplace r rs y hy with h' | h'
    · exfalso
      rw [h', routeKey_normalizeRoute] at hky
      exact hk hky.symm
    · exact hall y h'.1 hky

lemma mem_RouteDel (r : Route) (rs : List Route) (x : Route) :
    x ∈ RouteDel r rs ↔ x ∈ rs ∧ routeKey x ≠ routeKey r := by
  unfold RouteDel
  simp [List.mem_filter]

lemma mem_routesByTable (t : ℤ) (rs : List Route) (x : Route) :
    x ∈ routesByTable t rs ↔ x ∈ rs ∧ x.table = t := by
  unfold routesByTable
  simp [List.mem_filter]

lemma RouteDel_eq_filter (r : Route) (rs : List Route) :
    RouteDel r rs = rs.filter (fun x => !(decide (routeKey x = routeKey r))) := rfl

lemma foldl_del_eq_filter (step : List Route → Route → List Route) (cond : Route → Bool)
    (hstep : ∀ acc route, step acc route = if cond route then RouteDel route acc else acc) :
    ∀ (lst rs : List Route), lst.foldl step rs =
      rs.filter (fun y => !lst.any (fun route => cond route && decide (routeKey y = routeKey route))) := by
  intro lst
  induction lst with
  | nil =>
    intro rs
    simp
  | cons a lst ih =>
    intro rs
    rw [List.foldl_cons, hstep, ih]
    by_cases hc : cond a = true
    · rw [if_pos hc, RouteDel_eq_filter, List.filter_filter]
      apply List.filter_congr
      intro y _
      simp [List.any_cons, hc, Bool.not_or, Bool.and_comm]
    · rw [if_neg hc]
      apply List.filter_congr
      intro y _
      have : cond a = false := Bool.eq_false_iff.mpr hc
      simp [List.any_cons, this]

lemma mem_foldl_replace {α : Type} (mk : α → Route) :
    ∀ (l : List α) (rs : List Route) (x : Route),
      x ∈ l.foldl (fun acc a => RouteReplace (mk a) acc) rs →
      (∃ a ∈ l, x = normalizeRoute (mk a)) ∨ x ∈ rs := by
  intro l
  induction l with
  | nil =>
    intro rs x h
    exact .inr h
  | cons a l ih =>
    intro rs x h
    rcases ih (RouteReplace (mk a) rs) x h with h' | h'
    · obtain ⟨a', ha', hx⟩ := h'
      exact .inl ⟨a', by simp [ha'], hx⟩
    · rcases mem_RouteReplace (mk a) rs x h' with h'' | h''
      · exact .inl ⟨a, by simp, h''⟩
      · exact .inr h''.1

lemma foldl_replace_pres {α : Type} (mk : α → Route) (k : ℤ × Option IPNet) (v : Route) :
    ∀ (l : List α) (rs : List Route),
      (∀ a ∈ l, routeKey (mk a) = k → normalizeRoute (mk a) = v) →
      ((∃ x ∈ rs, routeKey x = k) ∧ (∀ x ∈ rs, routeKey x = k → x = v)) →
      ((∃ x ∈ l.foldl (fun acc a => RouteReplace (mk a) acc) rs, routeKey x = k) ∧
       (∀ x ∈ l.foldl (fun acc a => RouteReplace (mk a) acc) rs, routeKey x = k → x = v)) := by
  intro l
  induction l with
  | nil =>
    intro rs _ h
    exact h
  | cons a l ih =>
    intro rs hdet h
    rw [List.foldl_cons]
    apply ih _ (fun a' ha' => hdet a' (by simp [ha']))
    by_cases hk : routeKey (mk a) = k
    · have h1 := (RouteReplace_holds (mk a) rs).1
      have h2 := (RouteReplace_holds (mk a) rs).2
      rw [hk] at h1 h2
      constructor
      · exact h1
      · intro x hx hkx
        rw [h2 x hx hkx]
        exact hdet a (by simp) hk
    · exact invariant_RouteReplace_other (mk a) rs k v (fun he => hk he.symm) h

lemma foldl_replace_inv {α : Type} (mk : α → Route) (a₀ : α) :
    ∀ (l : List α), a₀ ∈ l →
      (∀ a ∈ l, routeKey (mk a) = routeKey (mk a₀) →
        normalizeRoute (mk a) = normalizeRoute (mk a₀)) →
      ∀ rs : List Route,
      (∃ x ∈ l.foldl (fun acc a => RouteReplace (mk a) acc) rs,
        routeKey x = routeKey (mk a₀)) ∧
      (∀ x ∈ l.foldl (fun acc a => RouteReplace (mk a) acc) rs,
        routeKey x = routeKey (mk a₀) → x = normalizeRoute (mk a₀)) := by
  intro l
  induction l with
  | nil =>
    intro h
    exact absurd h (by simp)
  | cons a l ih =>
    intro ha hdet rs
    rw [List.foldl_cons]
    rcases List.mem_cons.mp ha with ha' | ha'
    · subst ha'
      exact foldl_replace_pres mk (routeKey (mk a₀)) (normalizeRoute (mk a₀)) l
        (RouteReplace (mk a₀) rs) (fun a' ha' => hdet a' (by simp [ha']))
        (RouteReplace_holds (mk a₀) rs)
    · exact ih ha' (fun a' ha'' => hdet a' (by simp [ha''])) (RouteReplace (mk a) rs)

lemma foldl_replace_eq_self {α : Type} (mk : α → Route) :
    ∀ (l : List α) (S : List Route), (∀ a ∈ l, RouteReplace (mk a) S = S) →
      l.foldl (fun acc a => RouteReplace (mk a) acc) S = S := by
  intro l
  induction l with
  | nil =>
    intro S _
    rfl
  | cons a l ih =>
    intro S h
    rw [List.foldl_cons, h a (by simp)]
    exact ih S (fun a' ha' => h a' (by simp [ha']))

lemma normalizeRoute_eq_self_of (r : Route) (h : ∀ b, r.dst = some b → b.prefixLen ≠ 0) :
    normalizeRoute r = r := by
  cases r with
  | mk li dst tb sc gw ty src =>
    cases dst with
    | none => rfl
    | some b => simp [normalizeRoute, h b rfl]

lemma vxlan_delfold (lst rs : List Route) :
    lst.foldl (fun acc route => if route.dst ≠ none then RouteDel route acc else acc) rs =
      rs.filter (fun y =>
        !lst.any (fun route => decide (route.dst ≠ none) &&
          decide (routeKey y = routeKey route))) := by
  refine foldl_del_eq_filter _ (fun route => decide (route.dst ≠ none)) ?_ lst rs
  intro acc route
  dsimp only
  by_cases h : route.dst ≠ none
  · rw [if_pos h, if_pos (by simpa using h)]
  · rw [if_neg h, if_neg (by simpa using h)]

lemma vxlanNoNat_routes_idem (idx : ℕ) (t : ℤ) (L : List Route)
    (hnorm : ∀ r ∈ L, normalizeRoute r = r) :
    ∀ R1 : List Route, R1 = (routesByTable t L).foldl
        (fun acc route => if route.dst ≠ none then RouteDel route acc else acc)
        (RouteReplace ⟨idx, some ⟨0, 0⟩, t, RT_SCOPE_UNIVERSE, none, 0, none⟩ L) →
      (routesByTable t R1).foldl
        (fun acc route => if route.dst ≠ none then RouteDel route acc else acc)
        (RouteReplace ⟨idx, some ⟨0, 0⟩, t, RT_SCOPE_UNIVERSE, none, 0, none⟩ R1) = R1 := by
  intro R1 hR1
  have hkD : routeKey (⟨idx, some ⟨0, 0⟩, t, RT_SCOPE_UNIVERSE, none, 0, none⟩ : Route) =
      (t, none) := rfl
  have hDn : normalizeRoute (⟨idx, some ⟨0, 0⟩, t, RT_SCOPE_UNIVERSE, none, 0, none⟩ : Route) =
      ⟨idx, none, t, RT_SCOPE_UNIVERSE, none, 0, none⟩ := rfl
  rw [vxlan_delfold] at hR1
  have hmemR1 : ∀ x ∈ R1, x = (⟨idx, none, t, RT_SCOPE_UNIVERSE, none, 0, none⟩ : Route) ∨
      (x ∈ L ∧ routeKey x ≠ (t, none) ∧
        ∀ route ∈ routesByTable t L, route.dst ≠ none → routeKey x ≠ routeKey route) := by
    intro x hx
    rw [hR1] at hx
    obtain ⟨hx', hQ⟩ := List.mem_filter.mp hx
    rcases mem_RouteReplace _ _ _ hx' with h | h
    · exact .inl (by rw [h, hDn])
    · rw [hkD] at h
      refine .inr ⟨h.1, h.2, ?_⟩
      intro route hroute hrd
      have hfalse : ∀ r ∈ routesByTable t L, ¬r.dst = none → ¬routeKey x = routeKey r := by
        simpa using hQ
      exact hfalse route hroute hrd
  have htbl : ∀ x ∈ R1, x.table = t → x.dst = none := by
    intro x hx hxt
    rcases hmemR1 x hx with h | ⟨hxL, hk, hQ⟩
    · rw [h]
    · cases hxd : x.dst with
      | none => rfl
      | some b =>
        exact absurd rfl (hQ x ((mem_routesByTable t L x).mpr ⟨hxL, hxt⟩) (by simp [hxd]))
  have hinv : (∃ x ∈ R1, routeKey x = (t, none)) ∧
      (∀ x ∈ R1, routeKey x = (t, none) →
        x = (⟨idx, none, t, RT_SCOPE_UNIVERSE, none, 0, none⟩ : Route)) := by
    constructor
    · obtain ⟨x0, hx0, hkx0⟩ := (RouteReplace_holds
        (⟨idx, some ⟨0, 0⟩, t, RT_SCOPE_UNIVERSE, none, 0, none⟩ : Route) L).1
      rw [hkD] at hkx0
      refine ⟨x0, ?_, hkx0⟩
      rw [hR1]
      refine List.mem_filter.mpr ⟨hx0, ?_⟩
      simp only [Bool.not_eq_true', List.any_eq_false]
      intro route hroute
      obtain ⟨hrL, hrt⟩ := (mem_routesByTable t L route).mp hroute
      cases hrd : route.dst with
      | none => simp [hrd]
      | some b =>
        have : routeKey x0 ≠ routeKey route := by
          rw [hkx0, routeKey_of_normalized (hnorm route hrL), hrd, hrt]
          simp
        simp [this]
    · intro x hx hkx
      rcases hmemR1 x hx with h | ⟨_, hk, _⟩
      · exact h
      · exact absurd hkx hk
  have hrep : RouteReplace (⟨idx, some ⟨0, 0⟩, t, RT_SCOPE_UNIVERSE, none, 0, none⟩ : Route) R1
      = R1 := by
    refine RouteReplace_eq_self _ _ ?_ ?_
    · rw [hkD]
      exact hinv.1
    · rw [hkD, hDn]
      exact hinv.2
  rw [hrep, vxlan_delfold]
  apply List.filter_eq_self.mpr
  intro y hy
  simp only [Bool.not_eq_true', List.any_eq_false]
  intro route hroute
  obtain ⟨hrR1, hrt⟩ := (mem_routesByTable t R1 route).mp hroute
  simp [htbl route hrR1 hrt]

lemma vxlanNat_delfold1 (usm : List SubnetInfo) (lst rs : List Route) :
    lst.foldl (fun acc route =>
      if isExcludeRoute route then acc
      else if (match route.dst with
        | some d => usm.any (fun sub => sub.cidr = d)
        | none => false) then acc
      else RouteDel route acc) rs =
    rs.filter (fun y => !lst.any (fun route =>
      (!isExcludeRoute route && !(match route.dst with
        | some d => usm.any (fun sub => sub.cidr = d)
        | none => false)) && decide (routeKey y = routeKey route))) := by
  refine foldl_del_eq_filter _ _ ?_ lst rs
  intro acc route
  dsimp only
  cases hex : isExcludeRoute route with
  | true => simp
  | false =>
    cases hm : (match route.dst with
      | some d => usm.any (fun sub => sub.cidr = d)
      | none => false) with
    | true => simp
    | false => simp

lemma vxlanNat_delfold2 (uebm : List IPNet) (lst rs : List Route) :
    lst.foldl (fun acc route =>
      if (match route.dst with
        | some d => uebm.any (fun b => b = d)
        | none => false) then acc
      else RouteDel route acc) rs =
    rs.filter (fun y => !lst.any (fun route =>
      (!(match route.dst with
        | some d => uebm.any (fun b => b = d)
        | none => false)) && decide (routeKey y = routeKey route))) := by
  refine foldl_del_eq_filter _ _ ?_ lst rs
  intro acc route
  dsimp only
  cases hm : (match route.dst with
    | some d => uebm.any (fun b => b = d)
    | none => false) with
  | true => simp
  | false => simp

lemma bnot_eq_true {b : Bool} (h : (!b) = true) : b = false := by
  cases b
  · rfl
  · exact absurd h (by simp)

lemma vxlanNat_routes_idem (idx : ℕ) (t : ℤ) (usm : List SubnetInfo) (uebm : List IPNet)
    (L : List Route)
    (husm : ∀ sub ∈ usm, 0 < sub.cidr.prefixLen)
    (hueb : ∀ b ∈ uebm, 0 < b.prefixLen)
    (hdisj : ∀ b ∈ uebm, ∀ sub ∈ usm, b ≠ sub.cidr) :
    ∀ A1 A2 A3 R1 B1 B2 B3 : List Route,
      A1 = (routesByTable t L).foldl (fun acc route =>
        if isExcludeRoute route then acc
        else if (match route.dst with
          | some d => usm.any (fun sub => sub.cidr = d)
          | none => false) then acc
        else RouteDel route acc) L →
      A2 = usm.foldl (fun acc sub =>
        RouteReplace ⟨idx, some sub.cidr, t, RT_SCOPE_UNIVERSE, none, 0, none⟩ acc) A1 →
      A3 = (A2.filter (fun x => x.table = t && x.typ = RTN_THROW)).foldl (fun acc route =>
        if (match route.dst with
          | some d => uebm.any (fun b => b = d)
          | none => false) then acc
        else RouteDel route acc) A2 →
      R1 = uebm.foldl (fun acc b =>
        RouteReplace ⟨0, some b, t, RT_SCOPE_UNIVERSE, none, RTN_THROW, none⟩ acc) A3 →
      B1 = (routesByTable t R1).foldl (fun acc route =>
        if isExcludeRoute route then acc
        else if (match route.dst with
          | some d => usm.any (fun sub => sub.cidr = d)
          | none => false) then acc
        else RouteDel route acc) R1 →
      B2 = usm.foldl (fun acc sub =>
        RouteReplace ⟨idx, some sub.cidr, t, RT_SCOPE_UNIVERSE, none, 0, none⟩ acc) B1 →
      B3 = (B2.filter (fun x => x.table = t && x.typ = RTN_THROW)).foldl (fun acc route =>
        if (match route.dst with
          | some d => uebm.any (fun b => b = d)
          | none => false) then acc
        else RouteDel route acc) B2 →
      uebm.foldl (fun acc b =>
        RouteReplace ⟨0, some b, t, RT_SCOPE_UNIVERSE, none, RTN_THROW, none⟩ acc) B3 = R1 := by
  intro A1 A2 A3 R1 B1 B2 B3 hA1 hA2 hA3 hR1 hB1 hB2 hB3
  rw [vxlanNat_delfold1] at hA1 hB1
  rw [vxlanNat_delfold2] at hA3 hB3
  -- normalization facts for the replacement routes
  have hUnorm : ∀ sub ∈ usm,
      normalizeRoute (⟨idx, some sub.cidr, t, RT_SCOPE_UNIVERSE, none, 0, none⟩ : Route) =
        ⟨idx, some sub.cidr, t, RT_SCOPE_UNIVERSE, none, 0, none⟩ := by
    intro sub hsub
    refine normalizeRoute_eq_self_of _ ?_
    intro b hb
    dsimp only at hb
    injection hb with hb
    rw [← hb]
    exact (husm sub hsub).ne'
  have hUkey : ∀ sub ∈ usm,
      routeKey (⟨idx, some sub.cidr, t, RT_SCOPE_UNIVERSE, none, 0, none⟩ : Route) =
        (t, some sub.cidr) := by
    intro sub hsub
    rw [routeKey_of_normalized (hUnorm sub hsub)]
  have hTnorm : ∀ b ∈ uebm,
      normalizeRoute (⟨0, some b, t, RT_SCOPE_UNIVERSE, none, RTN_THROW, none⟩ : Route) =
        ⟨0, some b, t, RT_SCOPE_UNIVERSE, none, RTN_THROW, none⟩ := by
    intro b hb
    refine normalizeRoute_eq_self_of _ ?_
    intro b' hb'
    dsimp only at hb'
    injection hb' with hb'
    rw [← hb']
    exact (hueb b hb).ne'
  have hTkey : ∀ b ∈ uebm,
      routeKey (⟨0, some b, t, RT_SCOPE_UNIVERSE, none, RTN_THROW, none⟩ : Route) =
        (t, some b) := by
    intro b hb
    rw [routeKey_of_normalized (hTnorm b hb)]
  -- elements of A1 come from L, and their stage-1 filter fact
  have hmemA1 : ∀ x ∈ A1, x ∈ L ∧
      ((routesByTable t L).any (fun route =>
        (!isExcludeRoute route && !(match route.dst with
          | some d => usm.any (fun sub => sub.cidr = d)
          | none => false)) && decide (routeKey x = routeKey route))) = false := by
    intro x hx
    rw [hA1] at hx
    obtain ⟨hxL, hQ⟩ := List.mem_filter.mp hx
    exact ⟨hxL, bnot_eq_true hQ⟩
  -- every table-t entry of R1 is a throw route or a tracked underlay subnet route
  have hGoodT : ∀ x ∈ R1, x.table = t →
      (isExcludeRoute x = true ∨ (match x.dst with
        | some d => usm.any (fun sub => sub.cidr = d)
        | none => false) = true) := by
    intro x hx hxt
    rw [hR1] at hx
    rcases mem_foldl_replace _ uebm A3 x hx with ⟨b, hb, hxT⟩ | hx3
    · rw [hxT, hTnorm b hb]
      exact .inl (by simp [isExcludeRoute, RTN_THROW])
    · rw [hA3] at hx3
      obtain ⟨hx2, _⟩ := List.mem_filter.mp hx3
      rw [hA2] at hx2
      rcases mem_foldl_replace _ usm A1 x hx2 with ⟨sub, hsub, hxU⟩ | hx1
      · rw [hxU, hUnorm sub hsub]
        refine .inr ?_
        dsimp only
        exact List.any_eq_true.mpr ⟨sub, hsub, by simp⟩
      · obtain ⟨hxL, hQ⟩ := hmemA1 x hx1
        have hself := List.any_eq_false.mp hQ x ((mem_routesByTable t L x).mpr ⟨hxL, hxt⟩)
        by_contra hcon
        push_neg at hcon
        apply hself
        have h1 : isExcludeRoute x = false := Bool.eq_false_iff.mpr hcon.1
        have h2 : (match x.dst with
          | some d => usm.any (fun sub => sub.cidr = d)
          | none => false) = false := Bool.eq_false_iff.mpr hcon.2
        simp [h1, h2]
  -- second stage-1 pass deletes nothing
  have hB1R1 : B1 = R1 := by
    rw [hB1]
    apply List.filter_eq_self.mpr
    intro y _
    simp only [Bool.not_eq_true', List.any_eq_false]
    intro route hroute
    obtain ⟨hrR1, hrt⟩ := (mem_routesByTable t R1 route).mp hroute
    rcases hGoodT route hrR1 hrt with h | h
    · simp [h]
    · simp [h]
  -- the tracked-subnet invariant in R1
  have hinvU : ∀ sub ∈ usm, (∃ x ∈ R1, routeKey x = (t, some sub.cidr)) ∧
      (∀ x ∈ R1, routeKey x = (t, some sub.cidr) →
        x = ⟨idx, some sub.cidr, t, RT_SCOPE_UNIVERSE, none, 0, none⟩) := by
    intro sub hsub
    have hdet : ∀ sub' ∈ usm,
        routeKey (⟨idx, some sub'.cidr, t, RT_SCOPE_UNIVERSE, none, 0, none⟩ : Route) =
          routeKey (⟨idx, some sub.cidr, t, RT_SCOPE_UNIVERSE, none, 0, none⟩ : Route) →
        normalizeRoute (⟨idx, some sub'.cidr, t, RT_SCOPE_UNIVERSE, none, 0, none⟩ : Route) =
          normalizeRoute (⟨idx, some sub.cidr, t, RT_SCOPE_UNIVERSE, none, 0, none⟩ : Route) := by
      intro sub' hsub' hk
      rw [hUkey sub' hsub', hUkey sub hsub] at hk
      rw [Prod.mk.injEq] at hk
      have : sub'.cidr = sub.cidr := by
        have := hk.2
        injection this
      rw [hUnorm sub' hsub', hUnorm sub hsub, this]
    have hA2inv := foldl_replace_inv
      (fun sub => (⟨idx, some sub.cidr, t, RT_SCOPE_UNIVERSE, none, 0, none⟩ : Route))
      sub usm hsub hdet A1
    rw [hUkey sub hsub, hUnorm sub hsub, ← hA2] at hA2inv
    -- carry the invariant through the stage-3 filter
    have hA3inv : (∃ x ∈ A3, routeKey x = (t, some sub.cidr)) ∧
        (∀ x ∈ A3, routeKey x = (t, some sub.cidr) →
          x = ⟨idx, some sub.cidr, t, RT_SCOPE_UNIVERSE, none, 0, none⟩) := by
      constructor
      · obtain ⟨x0, hx0, hkx0⟩ := hA2inv.1
        have hx0U := hA2inv.2 x0 hx0 hkx0
        refine ⟨x0, ?_, hkx0⟩
        rw [hA3]
        refine List.mem_filter.mpr ⟨hx0, ?_⟩
        simp only [Bool.not_eq_true', List.any_eq_false]
        intro route hroute
        obtain ⟨hr2, hrflag⟩ := List.mem_filter.mp hroute
        by_cases hk : routeKey x0 = routeKey route
        · exfalso
          have hkr : routeKey route = (t, some sub.cidr) := by rw [← hk, hkx0]
          have := hA2inv.2 route hr2 hkr
          rw [this] at hrflag
          simp [RTN_THROW] at hrflag
        · simp [hk]
      · intro x hx hkx
        rw [hA3] at hx
        exact hA2inv.2 x (List.mem_of_mem_filter hx) hkx
    -- carry it through the stage-4 replacements
    have hdetT : ∀ b ∈ uebm,
        routeKey (⟨0, some b, t, RT_SCOPE_UNIVERSE, none, RTN_THROW, none⟩ : Route) =
          (t, some sub.cidr) →
        normalizeRoute (⟨0, some b, t, RT_SCOPE_UNIVERSE, none, RTN_THROW, none⟩ : Route) =
          ⟨idx, some sub.cidr, t, RT_SCOPE_UNIVERSE, none, 0, none⟩ := by
      intro b hb hk
      exfalso
      rw [hTkey b hb, Prod.mk.injEq] at hk
      have : b = sub.cidr := by
        have := hk.2
        injection this
      exact hdisj b hb sub hsub this
    have := foldl_replace_pres
      (fun b => (⟨0, some b, t, RT_SCOPE_UNIVERSE, none, RTN_THROW, none⟩ : Route))
      (t, some sub.cidr) (⟨idx, some sub.cidr, t, RT_SCOPE_UNIVERSE, none, 0, none⟩ : Route)
      uebm A3 hdetT hA3inv
    rw [← hR1] at this
    exact this
  -- second stage-2 pass replaces in place with identical routes
  have hB2R1 : B2 = R1 := by
    rw [hB2, hB1R1]
    apply foldl_replace_eq_self
    intro sub hsub
    refine RouteReplace_eq_self _ _ ?_ ?_
    · rw [hUkey sub hsub]
      exact (hinvU sub hsub).1
    · rw [hUkey sub hsub, hUnorm sub hsub]
      exact (hinvU sub hsub).2
  -- every table-t throw route of R1 carries a tracked excluded block
  have hGoodX : ∀ x ∈ R1, x.table = t → x.typ = RTN_THROW →
      (match x.dst with
        | some d => uebm.any (fun b => b = d)
        | none => false) = true := by
    intro x hx hxt hxthrow
    rw [hR1] at hx
    rcases mem_foldl_replace _ uebm A3 x hx with ⟨b, hb, hxT⟩ | hx3
    · rw [hxT, hTnorm b hb]
      dsimp only
      exact List.any_eq_true.mpr ⟨b, hb, by simp⟩
    · rw [hA3] at hx3
      obtain ⟨hx2, hQ3⟩ := List.mem_filter.mp hx3
      have hxexcl : x ∈ A2.filter (fun x => x.table = t && x.typ = RTN_THROW) :=
        List.mem_filter.mpr ⟨hx2, by simp [hxt, hxthrow]⟩
      have hself := List.any_eq_false.mp (bnot_eq_true hQ3) x hxexcl
      by_contra hcon
      apply hself
      have h2 : (match x.dst with
        | some d => uebm.any (fun b => b = d)
        | none => false) = false := Bool.eq_false_iff.mpr hcon
      simp [h2]
  -- second stage-3 pass deletes nothing
  have hB3R1 : B3 = R1 := by
    rw [hB3, hB2R1]
    apply List.filter_eq_self.mpr
    intro y _
    simp only [Bool.not_eq_true', List.any_eq_false]
    intro route hroute
    obtain ⟨hrR1, hrflag⟩ := List.mem_filter.mp hroute
    rw [Bool.and_eq_true, decide_eq_true_iff, decide_eq_true_iff] at hrflag
    simp [hGoodX route hrR1 hrflag.1 hrflag.2]
  -- the excluded-block invariant in R1
  have hinvT : ∀ b ∈ uebm, (∃ x ∈ R1, routeKey x = (t, some b)) ∧
      (∀ x ∈ R1, routeKey x = (t, some b) →
        x = ⟨0, some b, t, RT_SCOPE_UNIVERSE, none, RTN_THROW, none⟩) := by
    intro b hb
    have hdet : ∀ b' ∈ uebm,
        routeKey (⟨0, some b', t, RT_SCOPE_UNIVERSE, none, RTN_THROW, none⟩ : Route) =
          routeKey (⟨0, some b, t, RT_SCOPE_UNIVERSE, none, RTN_THROW, none⟩ : Route) →
        normalizeRoute (⟨0, some b', t, RT_SCOPE_UNIVERSE, none, RTN_THROW, none⟩ : Route) =
          normalizeRoute (⟨0, some b, t, RT_SCOPE_UNIVERSE, none, RTN_THROW, none⟩ : Route) := by
      intro b' hb' hk
      rw [hTkey b' hb', hTkey b hb, Prod.mk.injEq] at hk
      have : b' = b := by
        have := hk.2
        injection this
      rw [this]
    have := foldl_replace_inv
      (fun b => (⟨0, some b, t, RT_SCOPE_UNIVERSE, none, RTN_THROW, none⟩ : Route))
      b uebm hb hdet A3
    rw [hTkey b hb, hTnorm b hb, ← hR1] at this
    exact this
  -- second stage-4 pass replaces in place with identical routes
  rw [hB3R1]
  apply foldl_replace_eq_self
  intro b hb
  refine RouteReplace_eq_self _ _ ?_ ?_
  · rw [hTkey b hb]
    exact (hinvT b hb).1
  · rw [hTkey b hb, hTnorm b hb]
    exact (hinvT b hb).2

lemma ensureRoutesForVxlanSubnet_false_eq (fl : Link) (c : IPNet) (t : ℤ)
    (usm : List SubnetInfo) (uebm : List IPNet) (s : NetState) :
    ∀ X : List Route,
      X = (routesByTable t s.routes).foldl
          (fun acc route => if route.dst ≠ none then RouteDel route acc else acc)
          (RouteReplace ⟨fl.index, some ⟨0, 0⟩, t, RT_SCOPE_UNIVERSE, none, 0, none⟩
            s.routes) →
      ensureRoutesForVxlanSubnet fl c t false usm uebm s = ({ s with routes := X }, .ok ()) := by
  intro X hX
  subst hX
  rfl

lemma ensureRoutesForVxlanSubnet_true_eq (fl : Link) (c : IPNet) (t : ℤ)
    (usm : List SubnetInfo) (uebm : List IPNet) (s : NetState) :
    ∀ X : List Route,
      X = uebm.foldl (fun acc b =>
          RouteReplace ⟨0, some b, t, RT_SCOPE_UNIVERSE, none, RTN_THROW, none⟩ acc)
          (((usm.foldl (fun acc sub =>
              RouteReplace ⟨fl.index, some sub.cidr, t, RT_SCOPE_UNIVERSE, none, 0, none⟩ acc)
              ((routesByTable t s.routes).foldl (fun acc route =>
                if isExcludeRoute route then acc
                else if (match route.dst with
                  | some d => usm.any (fun sub => sub.cidr = d)
                  | none => false) then acc
                else RouteDel route acc) s.routes)).filter
            (fun x => x.table = t && x.typ = RTN_THROW)).foldl (fun acc route =>
              if (match route.dst with
                | some d => uebm.any (fun b => b = d)
                | none => false) then acc
              else RouteDel route acc)
            (usm.foldl (fun acc sub =>
              RouteReplace ⟨fl.index, some sub.cidr, t, RT_SCOPE_UNIVERSE, none, 0, none⟩ acc)
              ((routesByTable t s.routes).foldl (fun acc route =>
                if isExcludeRoute route then acc
                else if (match route.dst with
                  | some d => usm.any (fun sub => sub.cidr = d)
                  | none => false) then acc
                else RouteDel route acc) s.routes))) →
      ensureRoutesForVxlanSubnet fl c t true usm uebm s = ({ s with routes := X }, .ok ()) := by
  intro X hX
  subst hX
  rfl

lemma find?_map_pointwise (p : Route → Bool) (g : Route → Route) :
    ∀ l : List Route, (∀ x ∈ l, p (g x) = p x) →
      (l.map g).find? p = (l.find? p).map g := by
  intro l
  induction l with
  | nil => intro _; rfl
  | cons a l ih =>
    intro hg
    simp only [List.map_cons]
    cases hpa : p a with
    | true =>
      rw [List.find?_cons_of_pos _ (by rw [hg a (by simp)]; exact hpa),
        List.find?_cons_of_pos _ hpa]
      rfl
    | false =>
      rw [List.find?_cons_of_neg _ (by rw [hg a (by simp)]; simp [hpa]),
        List.find?_cons_of_neg _ (by simp [hpa])]
      exact ih (fun x hx => hg x (by simp [hx]))

lemma head_filter_through_map (g : Route → Route) (φ : Route → Bool) (snew : Route) :
    ∀ l : List Route,
      (∀ x ∈ l, φ (g x) = true → (g x = snew ∨ (g x = x ∧ φ x = true))) →
      (∀ x ∈ l, φ x = true → φ (g x) = true) →
      ∀ d0, (l.filter φ).head? = some d0 →
        ∃ h, ((l.map g).filter φ).head? = some h ∧ (h = snew ∨ h = d0) := by
  intro l
  induction l with
  | nil =>
    intro _ _ d0 h
    simp at h
  | cons a l ih =>
    intro hg hmono d0 hfil
    simp only [List.map_cons]
    cases hga : φ (g a) with
    | true =>
      refine ⟨g a, ?_, ?_⟩
      · rw [List.filter_cons, if_pos hga]
        rfl
      · rcases hg a (by simp) hga with h | ⟨hgaeq, hφa⟩
        · exact .inl h
        · rw [List.filter_cons, if_pos hφa] at hfil
          simp only [List.head?_cons, Option.some.injEq] at hfil
          exact .inr (by rw [hgaeq, hfil])
    | false =>
      have hφa : φ a = false := by
        cases hpa : φ a
        · rfl
        · exact absurd (hmono a (by simp) hpa) (by simp [hga])
      rw [List.filter_cons, if_neg (by simp [hga])]
      rw [List.filter_cons, if_neg (by simp [hφa])] at hfil
      exact ih (fun x hx => hg x (by simp [hx])) (fun x hx => hmono x (by simp [hx])) d0 hfil

lemma filter_map_invariant (g : Route → Route) (φ : Route → Bool) :
    ∀ l : List Route,
      (∀ y ∈ l, φ (g y) = φ y ∧ (φ y = true → g y = y)) →
      (l.map g).filter φ = l.filter φ := by
  intro l
  induction l with
  | nil => intro _; rfl
  | cons a l ih =>
    intro h
    simp only [List.map_cons, List.filter_cons]
    rw [(h a (by simp)).1]
    cases hφa : φ a with
    | true =>
      rw [if_pos rfl, if_pos rfl, (h a (by simp)).2 hφa,
        ih (fun y hy => h y (by simp [hy]))]
    | false =>
      rw [if_neg (by simp), if_neg (by simp)]
      exact ih (fun y hy => h y (by simp [hy]))

lemma vlan_S_norm (idx : ℕ) (cidr : IPNet) (t : ℤ) (o : Option ℕ) (hc : cidr.prefixLen ≠ 0) :
    normalizeRoute (⟨idx, some cidr, t, RT_SCOPE_LINK, none, 0, o⟩ : Route) =
      ⟨idx, some cidr, t, RT_SCOPE_LINK, none, 0, o⟩ := by
  refine normalizeRoute_eq_self_of _ ?_
  intro b hb
  dsimp only at hb
  injection hb with hb
  rw [← hb]
  exact hc

lemma vlan_S_key (idx : ℕ) (cidr : IPNet) (t : ℤ) (o : Option ℕ) (hc : cidr.prefixLen ≠ 0) :
    routeKey (⟨idx, some cidr, t, RT_SCOPE_LINK, none, 0, o⟩ : Route) = (t, some cidr) := by
  rw [routeKey_of_normalized (vlan_S_norm idx cidr t o hc)]

lemma vlan_D_key (idx : ℕ) (t : ℤ) (gw : Option ℕ) :
    routeKey (⟨idx, none, t, RT_SCOPE_UNIVERSE, gw, 0, none⟩ : Route) = (t, none) := rfl

lemma vlan_replace_idem (idx : ℕ) (cidr : IPNet) (t : ℤ) (gw : Option ℕ) (o : Option ℕ)
    (hc : cidr.prefixLen ≠ 0) (L : List Route) :
    RouteReplace ⟨idx, none, t, RT_SCOPE_UNIVERSE, gw, 0, none⟩
      (RouteReplace ⟨idx, some cidr, t, RT_SCOPE_LINK, none, 0, o⟩
        (RouteReplace ⟨idx, none, t, RT_SCOPE_UNIVERSE, gw, 0, none⟩
          (RouteReplace ⟨idx, some cidr, t, RT_SCOPE_LINK, none, 0, o⟩ L))) =
    RouteReplace ⟨idx, none, t, RT_SCOPE_UNIVERSE, gw, 0, none⟩
      (RouteReplace ⟨idx, some cidr, t, RT_SCOPE_LINK, none, 0, o⟩ L) := by
  have hkS := vlan_S_key idx cidr t o hc
  have hnS := vlan_S_norm idx cidr t o hc
  have hkD := vlan_D_key idx t gw
  have hne : ((t, some cidr) : ℤ × Option IPNet) ≠ (t, none) := by simp
  have hinvS : (∃ x ∈ RouteReplace ⟨idx, none, t, RT_SCOPE_UNIVERSE, gw, 0, none⟩
        (RouteReplace ⟨idx, some cidr, t, RT_SCOPE_LINK, none, 0, o⟩ L),
        routeKey x = (t, some cidr)) ∧
      (∀ x ∈ RouteReplace ⟨idx, none, t, RT_SCOPE_UNIVERSE, gw, 0, none⟩
        (RouteReplace ⟨idx, some cidr, t, RT_SCOPE_LINK, none, 0, o⟩ L),
        routeKey x = (t, some cidr) → x = ⟨idx, some cidr, t, RT_SCOPE_LINK, none, 0, o⟩) := by
    refine invariant_RouteReplace_other _ _ _ _ (by rw [hkD]; exact hne) ?_
    have h := RouteReplace_holds (⟨idx, some cidr, t, RT_SCOPE_LINK, none, 0, o⟩ : Route) L
    rw [hkS, hnS] at h
    exact h
  have hrepS : RouteReplace (⟨idx, some cidr, t, RT_SCOPE_LINK, none, 0, o⟩ : Route)
      (RouteReplace ⟨idx, none, t, RT_SCOPE_UNIVERSE, gw, 0, none⟩
        (RouteReplace ⟨idx, some cidr, t, RT_SCOPE_LINK, none, 0, o⟩ L)) =
      RouteReplace ⟨idx, none, t, RT_SCOPE_UNIVERSE, gw, 0, none⟩
        (RouteReplace ⟨idx, some cidr, t, RT_SCOPE_LINK, none, 0, o⟩ L) := by
    refine RouteReplace_eq_self _ _ ?_ ?_
    · rw [hkS]
      exact hinvS.1
    · rw [hkS, hnS]
      exact hinvS.2
  rw [hrepS]
  have h := RouteReplace_holds (⟨idx, none, t, RT_SCOPE_UNIVERSE, gw, 0, none⟩ : Route)
    (RouteReplace ⟨idx, some cidr, t, RT_SCOPE_LINK, none, 0, o⟩ L)
  exact RouteReplace_eq_self _ _ h.1 h.2

lemma vlan_dst_some_not_default (cidr : IPNet) (hc : cidr.prefixLen ≠ 0) :
    ∀ r : Route, r.dst = some cidr → IsDefaultRoute r = false := by
  intro r hr
  unfold IsDefaultRoute
  rw [hr]
  simp only [Bool.or_eq_false_iff, decide_eq_false_iff_not]
  refine ⟨by simp, ?_⟩
  intro h
  injection h with h
  exact hc (by rw [h])

lemma vlan_GA (idx : ℕ) (cidr : IPNet) (t : ℤ) (o : Option ℕ)
    (hc : cidr.prefixLen ≠ 0) (L : List Route)
    (hnorm : ∀ r ∈ L, normalizeRoute r = r) :
    GetDefaultRoute (RouteReplace ⟨idx, some cidr, t, RT_SCOPE_LINK, none, 0, o⟩ L) =
      GetDefaultRoute L := by
  have hnS := vlan_S_norm idx cidr t o hc
  have hkS := vlan_S_key idx cidr t o hc
  have hSdef : IsDefaultRoute (⟨idx, some cidr, t, RT_SCOPE_LINK, none, 0, o⟩ : Route) = false :=
    vlan_dst_some_not_default cidr hc _ rfl
  unfold GetDefaultRoute RouteReplace
  dsimp only
  rw [hnS, hkS]
  by_cases hany : (L.any fun x => decide (routeKey x = (t, some cidr))) = true
  · rw [if_pos hany]
    rw [find?_map_pointwise]
    · cases hfind : L.find? IsDefaultRoute with
      | none => rfl
      | some dr₁ =>
        have hdrmem := List.mem_of_find?_eq_some hfind
        have hdrp := List.find?_some hfind
        have hne : ¬(routeKey dr₁ = (t, some cidr)) := by
          rw [routeKey_of_normalized (hnorm dr₁ hdrmem)]
          intro h
          rw [Prod.mk.injEq] at h
          rw [vlan_dst_some_not_default cidr hc dr₁ h.2] at hdrp
          exact absurd hdrp (by simp)
        simp only [Option.map_some']
        rw [if_neg hne]
    · intro x hx
      by_cases hk : routeKey x = (t, some cidr)
      · rw [if_pos hk, hSdef]
        have hxd : x.dst = some cidr := by
          have := routeKey_of_normalized (hnorm x hx)
          rw [hk] at this
          have := congrArg Prod.snd this
          exact this.symm
        rw [vlan_dst_some_not_default cidr hc x hxd]
      · rw [if_neg hk]
  · rw [if_neg hany, List.find?_append]
    rw [List.find?_cons_of_neg _ (by simp [hSdef])]
    rw [List.find?_nil, Option.or_none]

lemma vlan_conflict2 (idx : ℕ) (cidr : IPNet) (t : ℤ) (gw : Option ℕ) (o : Option ℕ)
    (hc : cidr.prefixLen ≠ 0) (L : List Route)
    (hnorm : ∀ r ∈ L, normalizeRoute r = r)
    (hconf1 : (match GetDefaultRoute L with
      | some dr => dr.linkIndex == idx &&
          (match dr.gw with | some g' => some g' != gw | none => false)
      | none => false) = false) :
    (match GetDefaultRoute (RouteReplace ⟨idx, none, t, RT_SCOPE_UNIVERSE, gw, 0, none⟩
        (RouteReplace ⟨idx, some cidr, t, RT_SCOPE_LINK, none, 0, o⟩ L)) with
      | some dr => dr.linkIndex == idx &&
          (match dr.gw with | some g' => some g' != gw | none => false)
      | none => false) = false := by
  have hkS := vlan_S_key idx cidr t o hc
  have hnS := vlan_S_norm idx cidr t o hc
  have hpD : IsDefaultRoute (⟨idx, none, t, RT_SCOPE_UNIVERSE, gw, 0, none⟩ : Route) = true := by
    simp [IsDefaultRoute]
  have hcondD : ((⟨idx, none, t, RT_SCOPE_UNIVERSE, gw, 0, none⟩ : Route).linkIndex == idx &&
      (match (⟨idx, none, t, RT_SCOPE_UNIVERSE, gw, 0, none⟩ : Route).gw with
        | some g' => some g' != gw | none => false)) = false := by
    cases gw with
    | none => simp
    | some g => simp
  have hAelem : ∀ y ∈ RouteReplace ⟨idx, some cidr, t, RT_SCOPE_LINK, none, 0, o⟩ L,
      y = (⟨idx, some cidr, t, RT_SCOPE_LINK, none, 0, o⟩ : Route) ∨
        (y ∈ L ∧ routeKey y ≠ (t, some cidr)) := by
    intro y hy
    rcases mem_RouteReplace _ _ _ hy with h | h
    · exact .inl (by rw [h, hnS])
    · refine .inr ⟨h.1, ?_⟩
      rw [← hkS]
      exact h.2
  have hdr : ∀ dr, GetDefaultRoute (RouteReplace ⟨idx, none, t, RT_SCOPE_UNIVERSE, gw, 0, none⟩
      (RouteReplace ⟨idx, some cidr, t, RT_SCOPE_LINK, none, 0, o⟩ L)) = some dr →
      (dr.linkIndex == idx &&
        (match dr.gw with | some g' => some g' != gw | none => false)) = false := by
    intro dr hdrr
    rw [GetDefaultRoute, RouteReplace] at hdrr
    have hpw : ∀ y ∈ RouteReplace ⟨idx, some cidr, t, RT_SCOPE_LINK, none, 0, o⟩ L,
        IsDefaultRoute (if routeKey y = routeKey (normalizeRoute
            (⟨idx, none, t, RT_SCOPE_UNIVERSE, gw, 0, none⟩ : Route))
          then normalizeRoute (⟨idx, none, t, RT_SCOPE_UNIVERSE, gw, 0, none⟩ : Route)
          else y) = IsDefaultRoute y := by
      intro y hy
      by_cases hk : routeKey y =
          routeKey (normalizeRoute (⟨idx, none, t, RT_SCOPE_UNIVERSE, gw, 0, none⟩ : Route))
      · rw [if_pos hk]
        rw [show IsDefaultRoute (normalizeRoute
            (⟨idx, none, t, RT_SCOPE_UNIVERSE, gw, 0, none⟩ : Route)) = true from rfl]
        rcases hAelem y hy with h | ⟨hyL, hyk⟩
        · exfalso
          rw [h, hkS] at hk
          exact absurd hk (by simp [routeKey, normalizeRoute])
        · have hyd : y.dst = none := by
            have hkey := routeKey_of_normalized (hnorm y hyL)
            rw [hkey] at hk
            have := congrArg Prod.snd hk
            simpa using this
          simp [IsDefaultRoute, hyd]
      · rw [if_neg hk]
    by_cases hanyD : ((RouteReplace ⟨idx, some cidr, t, RT_SCOPE_LINK, none, 0, o⟩ L).any
        fun x => decide (routeKey x = routeKey (normalizeRoute
          ⟨idx, none, t, RT_SCOPE_UNIVERSE, gw, 0, none⟩))) = true
    · rw [if_pos hanyD] at hdrr
      rw [find?_map_pointwise _ _ _ hpw] at hdrr
      cases hfA : (RouteReplace ⟨idx, some cidr, t, RT_SCOPE_LINK, none, 0, o⟩ L).find?
          IsDefaultRoute with
      | none =>
        rw [hfA] at hdrr
        exact absurd hdrr (by simp)
      | some dr₁ =>
        rw [hfA] at hdrr
        simp only [Option.map_some', Option.some.injEq] at hdrr
        have hGL : GetDefaultRoute L = some dr₁ := by
          rw [← vlan_GA idx cidr t o hc L hnorm]
          exact hfA
        rw [hGL] at hconf1
        dsimp only at hconf1
        by_cases hk : routeKey dr₁ =
            routeKey (normalizeRoute (⟨idx, none, t, RT_SCOPE_UNIVERSE, gw, 0, none⟩ : Route))
        · rw [if_pos hk] at hdrr
          rw [← hdrr]
          exact hcondD
        · rw [if_neg hk] at hdrr
          rw [← hdrr]
          exact hconf1
    · rw [if_neg hanyD, List.find?_append] at hdrr
      rw [List.find?_cons_of_pos _ (by exact hpD)] at hdrr
      cases hfA : (RouteReplace ⟨idx, some cidr, t, RT_SCOPE_LINK, none, 0, o⟩ L).find?
          IsDefaultRoute with
      | none =>
        rw [hfA] at hdrr
        simp only [Option.or, Option.some.injEq] at hdrr
        rw [← hdrr]
        exact hcondD
      | some dr₁ =>
        rw [hfA] at hdrr
        simp only [Option.or, Option.some.injEq] at hdrr
        have hGL : GetDefaultRoute L = some dr₁ := by
          rw [← vlan_GA idx cidr t o hc L hnorm]
          exact hfA
        rw [hGL] at hconf1
        dsimp only at hconf1
        rw [← hdrr]
        exact hconf1
  cases hgr : GetDefaultRoute (RouteReplace ⟨idx, none, t, RT_SCOPE_UNIVERSE, gw, 0, none⟩
      (RouteReplace ⟨idx, some cidr, t, RT_SCOPE_LINK, none, 0, o⟩ L)) with
  | none => rfl
  | some dr =>
    dsimp only
    exact hdr dr hgr

lemma vlan_head2 (idx : ℕ) (cidr : IPNet) (t : ℤ) (gw : Option ℕ) (o : Option ℕ)
    (hc : cidr.prefixLen ≠ 0) (L : List Route)
    (hnorm : ∀ r ∈ L, normalizeRoute r = r) (d0 : Route)
    (hfil : (L.filter (fun r => r.linkIndex = idx && r.dst = some cidr)).head? = some d0) :
    ∃ h, ((RouteReplace ⟨idx, none, t, RT_SCOPE_UNIVERSE, gw, 0, none⟩
        (RouteReplace ⟨idx, some cidr, t, RT_SCOPE_LINK, none, 0, o⟩ L)).filter
          (fun r => r.linkIndex = idx && r.dst = some cidr)).head? = some h ∧
      (h = (⟨idx, some cidr, t, RT_SCOPE_LINK, none, 0, o⟩ : Route) ∨ h = d0) := by
  have hkS := vlan_S_key idx cidr t o hc
  have hnS := vlan_S_norm idx cidr t o hc
  have hnD : normalizeRoute (⟨idx, none, t, RT_SCOPE_UNIVERSE, gw, 0, none⟩ : Route) =
      ⟨idx, none, t, RT_SCOPE_UNIVERSE, gw, 0, none⟩ := rfl
  have hAelem : ∀ y ∈ RouteReplace ⟨idx, some cidr, t, RT_SCOPE_LINK, none, 0, o⟩ L,
      y = (⟨idx, some cidr, t, RT_SCOPE_LINK, none, 0, o⟩ : Route) ∨
        (y ∈ L ∧ routeKey y ≠ (t, some cidr)) := by
    intro y hy
    rcases mem_RouteReplace _ _ _ hy with h | h
    · exact .inl (by rw [h, hnS])
    · refine .inr ⟨h.1, ?_⟩
      rw [← hkS]
      exact h.2
  -- step 1: the direct-route list of the S-replaced state keeps a head with the right source
  have hstep1 : ∃ h, ((RouteReplace ⟨idx, some cidr, t, RT_SCOPE_LINK, none, 0, o⟩ L).filter
        (fun r => r.linkIndex = idx && r.dst = some cidr)).head? = some h ∧
      (h = (⟨idx, some cidr, t, RT_SCOPE_LINK, none, 0, o⟩ : Route) ∨ h = d0) := by
    rw [RouteReplace]
    rw [hnS, hkS]
    by_cases hany : (L.any fun x => decide (routeKey x = (t, some cidr))) = true
    · rw [if_pos hany]
      refine head_filter_through_map _ _ _ L ?_ ?_ d0 hfil
      · intro x hx hφ
        by_cases hk : routeKey x = (t, some cidr)
        · rw [if_pos hk]
          exact .inl rfl
        · rw [if_neg hk]
          rw [if_neg hk] at hφ
          exact .inr ⟨rfl, hφ⟩
      · intro x hx hφ
        by_cases hk : routeKey x = (t, some cidr)
        · rw [if_pos hk]
          simp
        · rw [if_neg hk]
          exact hφ
    · rw [if_neg hany]
      rw [List.filter_append, List.head?_append, hfil]
      exact ⟨d0, rfl, .inr rfl⟩
  -- step 2: the default-route replacement leaves the direct-route list unchanged
  obtain ⟨h, hh, hcase⟩ := hstep1
  refine ⟨h, ?_, hcase⟩
  rw [RouteReplace]
  rw [hnD]
  have hφD : (fun r => decide (r.linkIndex = idx) && decide (r.dst = some cidr))
      (⟨idx, none, t, RT_SCOPE_UNIVERSE, gw, 0, none⟩ : Route) = false := by
    simp
  by_cases hanyD : ((RouteReplace ⟨idx, some cidr, t, RT_SCOPE_LINK, none, 0, o⟩ L).any
      fun x => decide (routeKey x =
        routeKey (⟨idx, none, t, RT_SCOPE_UNIVERSE, gw, 0, none⟩ : Route))) = true
  · rw [if_pos hanyD]
    rw [filter_map_invariant]
    · exact hh
    · intro y hy
      by_cases hk : routeKey y =
          routeKey (⟨idx, none, t, RT_SCOPE_UNIVERSE, gw, 0, none⟩ : Route)
      · rw [if_pos hk]
        constructor
        · rcases hAelem y hy with hS | ⟨hyL, hyk⟩
          · exfalso
            rw [hS, hkS, vlan_D_key] at hk
            exact absurd hk (by simp)
          · have hyd : y.dst = none := by
              have hkey := routeKey_of_normalized (hnorm y hyL)
              rw [vlan_D_key] at hk
              rw [hkey] at hk
              have := congrArg Prod.snd hk
              simpa using this
            simp [hyd]
        · intro hφy
          exfalso
          rcases hAelem y hy with hS | ⟨hyL, hyk⟩
          · rw [hS, hkS, vlan_D_key] at hk
            exact absurd hk (by simp)
          · have hyd : y.dst = none := by
              have hkey := routeKey_of_normalized (hnorm y hyL)
              rw [vlan_D_key] at hk
              rw [hkey] at hk
              have := congrArg Prod.snd hk
              simpa using this
            rw [Bool.and_eq_true] at hφy
            rw [hyd] at hφy
            exact absurd hφy.2 (by simp)
      · rw [if_neg hk]
        exact ⟨rfl, fun _ => rfl⟩
  · rw [if_neg hanyD]
    rw [List.filter_append]
    rw [show ([(⟨idx, none, t, RT_SCOPE_UNIVERSE, gw, 0, none⟩ : Route)].filter
        (fun r => r.linkIndex = idx && r.dst = some cidr)) = [] from by
      rw [List.filter_cons, if_neg (by simp [hφD])]
      rfl]
    rw [List.append_nil]
    exact hh


lemma ensureRoutesForBGPSubnet_idem2 (fl : Link) (c : IPNet) (t : ℤ) (gw : Option ℕ)
    (s s' s2 : NetState)
    (h1 : ensureRoutesForBGPSubnet fl c t gw s = (s', .ok ()))
    (hr : s2.routes = s'.routes) :
    ensureRoutesForBGPSubnet fl c t gw s2 = (s2, .ok ()) := by
  simp only [ensureRoutesForBGPSubnet] at h1
  rw [Prod.mk.injEq] at h1
  obtain ⟨hs', -⟩ := h1
  cases s2 with
  | mk ru2 ro2 li2 ad2 =>
    dsimp only at hr
    simp only [ensureRoutesForBGPSubnet]
    have hro : RouteReplace ⟨fl.index, none, t, RT_SCOPE_UNIVERSE, gw, 0, none⟩ ro2 = ro2 := by
      rw [hr, ← hs']
      exact RouteReplace_idem _ _
    rw [hro]

lemma ensureRoutesForVxlanSubnet_idem2 (fl : Link) (c : IPNet) (t : ℤ) (nat : Bool)
    (usm : List SubnetInfo) (uebm : List IPNet) (s s' s2 : NetState)
    (hnorm : ∀ r ∈ s.routes, normalizeRoute r = r)
    (husm : ∀ sub ∈ usm, 0 < sub.cidr.prefixLen)
    (hueb : ∀ b ∈ uebm, 0 < b.prefixLen)
    (hdisj : ∀ b ∈ uebm, ∀ sub ∈ usm, b ≠ sub.cidr)
    (h1 : ensureRoutesForVxlanSubnet fl c t nat usm uebm s = (s', .ok ()))
    (hr : s2.routes = s'.routes) :
    ensureRoutesForVxlanSubnet fl c t nat usm uebm s2 = (s2, .ok ()) := by
  cases nat with
  | false =>
    rw [ensureRoutesForVxlanSubnet_false_eq fl c t usm uebm s _ rfl, Prod.mk.injEq] at h1
    obtain ⟨hs', -⟩ := h1
    cases s2 with
    | mk ru2 ro2 li2 ad2 =>
      dsimp only at hr
      rw [ensureRoutesForVxlanSubnet_false_eq fl c t usm uebm ⟨ru2, ro2, li2, ad2⟩ _ rfl]
      dsimp only
      rw [hr, ← hs']
      dsimp only
      rw [vxlanNoNat_routes_idem fl.index t s.routes hnorm _ rfl]
  | true =>
    rw [ensureRoutesForVxlanSubnet_true_eq fl c t usm uebm s _ rfl, Prod.mk.injEq] at h1
    obtain ⟨hs', -⟩ := h1
    cases s2 with
    | mk ru2 ro2 li2 ad2 =>
      dsimp only at hr
      rw [ensureRoutesForVxlanSubnet_true_eq fl c t usm uebm ⟨ru2, ro2, li2, ad2⟩ _ rfl]
      dsimp only
      rw [hr, ← hs']
      dsimp only
      rw [vxlanNat_routes_idem fl.index t usm uebm s.routes husm hueb hdisj
        _ _ _ _ _ _ _ rfl rfl rfl rfl rfl rfl rfl]

lemma ensureRoutesForVlanSubnet_idem2 (w : ℕ) (fl : Link) (cidr : IPNet) (gw : Option ℕ)
    (t : ℤ) (s s' s2 : NetState)
    (hnorm : ∀ r ∈ s.routes, normalizeRoute r = r)
    (hcidr : 0 < cidr.prefixLen)
    (h1 : ensureRoutesForVlanSubnet w fl cidr gw t s = (s', .ok ()))
    (hr : s2.routes = s'.routes) (ha : s2.addrs = s.addrs) :
    ensureRoutesForVlanSubnet w fl cidr gw t s2 = (s2, .ok ()) := by
  have hc : cidr.prefixLen ≠ 0 := hcidr.ne'
  rw [ensureRoutesForVlanSubnet] at h1
  cases hcont : ipnetContainsOpt w cidr gw with
  | false =>
    rw [hcont] at h1
    exact absurd h1 (by simp)
  | true =>
    rw [hcont] at h1
    simp only [Bool.not_true, Bool.false_eq_true, if_false] at h1
    cases hlocal : s.addrs.any (fun address =>
        (ipnetContainsOpt w cidr (some address.ip)) &&
          address.flags &&& IFA_F_NOPREFIXROUTE == 0) with
    | false =>
      rw [hlocal] at h1
      simp only [Bool.false_eq_true, if_false] at h1
      rw [Prod.mk.injEq] at h1
      obtain ⟨hs', -⟩ := h1
      cases s2 with
      | mk ru2 ro2 li2 ad2 =>
        dsimp only at hr ha
        rw [ensureRoutesForVlanSubnet, hcont]
        simp only [Bool.not_true, Bool.false_eq_true, if_false]
        rw [ha, hr, ← hs']
        dsimp only
        rw [hlocal]
        simp only [Bool.false_eq_true, if_false]
        rw [vlan_replace_idem fl.index cidr t gw none hc s.routes]
    | true =>
      rw [hlocal] at h1
      simp only [eq_self_iff_true, if_true] at h1
      cases hconf : (match GetDefaultRoute s.routes with
        | some dr => dr.linkIndex == fl.index &&
            (match dr.gw with | some g' => some g' != gw | none => false)
        | none => false) with
      | true =>
        rw [hconf] at h1
        simp only [eq_self_iff_true, if_true] at h1
        exact absurd h1 (by simp)
      | false =>
        rw [hconf] at h1
        simp only [Bool.false_eq_true, if_false] at h1
        cases hfil : s.routes.filter (fun r => r.linkIndex = fl.index && r.dst = some cidr) with
        | nil =>
          rw [hfil] at h1
          exact absurd h1 (by simp)
        | cons d0 rest =>
          rw [hfil] at h1
          rw [Prod.mk.injEq] at h1
          obtain ⟨hs', -⟩ := h1
          cases s2 with
          | mk ru2 ro2 li2 ad2 =>
            dsimp only at hr ha
            rw [ensureRoutesForVlanSubnet, hcont]
            simp only [Bool.not_true, Bool.false_eq_true, if_false]
            rw [ha, hr, ← hs']
            dsimp only
            rw [hlocal]
            simp only [eq_self_iff_true, if_true]
            rw [vlan_conflict2 fl.index cidr t gw d0.src hc s.routes hnorm hconf]
            simp only [Bool.false_eq_true, if_false]
            obtain ⟨h0, hh0, hcase0⟩ := vlan_head2 fl.index cidr t gw d0.src hc s.routes
              hnorm d0 (by rw [hfil]; rfl)
            cases hfil2 : (RouteReplace ⟨fl.index, none, t, RT_SCOPE_UNIVERSE, gw, 0, none⟩
                (RouteReplace ⟨fl.index, some cidr, t, RT_SCOPE_LINK, none, 0, d0.src⟩
                  s.routes)).filter
                (fun r => r.linkIndex = fl.index && r.dst = some cidr) with
            | nil =>
              rw [hfil2] at hh0
              exact absurd hh0 (by simp)
            | cons d0' rest' =>
              rw [hfil2] at hh0
              simp only [List.head?_cons, Option.some.injEq] at hh0
              have hsrc : d0'.src = d0.src := by
                rw [hh0]
                rcases hcase0 with h | h
                · rw [h]
                · rw [h]
              dsimp only
              rw [hsrc]
              rw [vlan_replace_idem fl.index cidr t gw d0.src hc s.routes]

lemma checkIfRuleExist_none_any_table (cidr : IPNet) (rules : List Rule) (t : ℤ)
    (h : checkIfRuleExist (some cidr) (-1) rules = none) :
    checkIfRuleExist (some cidr) t rules = none := by
  unfold checkIfRuleExist at h ⊢
  rw [List.find?_eq_none] at h ⊢
  intro x hx hx2
  apply h x hx
  rw [Bool.and_eq_true] at hx2 ⊢
  refine ⟨hx2.1, ?_⟩
  rw [if_neg (by norm_num)]

lemma checkIfRuleExist_append_self (cidr : IPNet) (rules : List Rule) (ru : Rule)
    (h : checkIfRuleExist (some cidr) (-1) rules = none) (hsrc : ru.src = some cidr) :
    checkIfRuleExist (some cidr) (-1) (rules ++ [ru]) = some ru := by
  unfold checkIfRuleExist at h ⊢
  rw [List.find?_append, h]
  rw [show (Option.none.or ([ru].find? (fun rule =>
      (match some cidr, rule.src with
        | none, none => true
        | some s, some rs => decide (s = rs)
        | _, _ => false) &&
      (if (-1 : ℤ) > 0 then decide (rule.table = -1) else true)))) =
    [ru].find? (fun rule =>
      (match some cidr, rule.src with
        | none, none => true
        | some s, some rs => decide (s = rs)
        | _, _ => false) &&
      (if (-1 : ℤ) > 0 then decide (rule.table = -1) else true)) from rfl]
  rw [List.find?_cons_of_pos]
  rw [hsrc]
  simp

/-- **C5** (amended): whenever one reconciliation pass succeeds, a second pass
with identical input is a no-op: it returns success and leaves the kernel
state exactly as the first pass left it — the installed rule is found again,
the same route table is reused, and every per-mode route write replaces an
entry in place.  Hypotheses: the starting kernel route dump is normalized (as
the kernel reports routes), and the subnet/underlay/excluded-block prefixes
are non-degenerate, with no excluded block coinciding with a whole underlay
subnet cidr.  The unconditional claim is false: if the first pass fails while
allocating a rule priority *after* populating a fresh table, no rule records
the table, and the next pass allocates a different table (see the
counterexample). -/
theorem ensureFromPodSubnetRuleAndRoutes_idem
    (w : ℕ) (ifn : String) (cidr : IPNet) (gw : Option ℕ) (nat : Bool)
    (usm : List SubnetInfo) (uebm : List IPNet) (mode : String) (s s1 : NetState)
    (hnorm : ∀ r ∈ s.routes, normalizeRoute r = r)
    (hcidr : 0 < cidr.prefixLen)
    (husm : ∀ sub ∈ usm, 0 < sub.cidr.prefixLen)
    (hueb : ∀ b ∈ uebm, 0 < b.prefixLen)
    (hdisj : ∀ b ∈ uebm, ∀ sub ∈ usm, b ≠ sub.cidr)
    (h1 : ensureFromPodSubnetRuleAndRoutes w ifn cidr gw nat usm uebm mode s = (s1, .ok ())) :
    ensureFromPodSubnetRuleAndRoutes w ifn cidr gw nat usm uebm mode s1 = (s1, .ok ()) := by
  rw [ensureFromPodSubnetRuleAndRoutes] at h1
  rw [ensureFromPodSubnetRuleAndRoutes]
  cases hex : checkIfRuleExist (some cidr) (-1) s.rules with
  | some er =>
    rw [hex] at h1
    dsimp only at h1
    cases hlink : LinkByName ifn s.links with
    | error e =>
      rw [hlink] at h1
      dsimp only at h1
      exact absurd h1 (by simp)
    | ok fl =>
      rw [hlink] at h1
      dsimp only at h1
      cases hstep : modeStep w fl cidr gw nat usm uebm mode er.table s with
      | mk s' r =>
        rw [hstep] at h1
        cases r with
        | error e =>
          dsimp only at h1
          exact absurd h1 (by simp)
        | ok u =>
          cases u
          dsimp only at h1
          rw [Prod.mk.injEq] at h1
          obtain ⟨hs1, -⟩ := h1
          subst hs1
          rcases modeStep_shape w fl cidr gw nat usm uebm mode er.table s with ⟨R, hsh⟩ | ⟨e, hsh⟩
          swap
          · rw [hstep] at hsh
            exact absurd hsh (by simp)
          rw [hstep] at hsh
          rw [Prod.mk.injEq] at hsh
          obtain ⟨hs'eq, -⟩ := hsh
          subst hs'eq
          dsimp only
          rw [hex]
          dsimp only
          rw [hlink]
          dsimp only
          by_cases hm1 : mode = NetworkModeVxlan
          · rw [modeStep, if_pos hm1] at hstep ⊢
            rw [ensureRoutesForVxlanSubnet_idem2 fl cidr er.table nat usm uebm s _ _
              hnorm husm hueb hdisj hstep rfl]
          · by_cases hm2 : mode = NetworkModeVlan
            · rw [modeStep, if_neg hm1, if_pos hm2] at hstep ⊢
              rw [ensureRoutesForVlanSubnet_idem2 w fl cidr gw er.table s _ _
                hnorm hcidr hstep rfl rfl]
            · by_cases hm3 : mode = NetworkModeBGP ∨ mode = NetworkModeGlobalBGP
              · rw [modeStep, if_neg hm1, if_neg hm2, if_pos hm3] at hstep ⊢
                rw [ensureRoutesForBGPSubnet_idem2 fl cidr er.table gw s _ _ hstep rfl]
              · rw [modeStep, if_neg hm1, if_neg hm2, if_neg hm3] at hstep
                exact absurd hstep (by simp)
  | none =>
    rw [hex] at h1
    dsimp only at h1
    cases htab : findEmptyRouteTable s.routes with
    | error e =>
      rw [htab] at h1
      dsimp only at h1
      exact absurd h1 (by simp)
    | ok tt =>
      rw [htab] at h1
      dsimp only at h1
      cases hlink : LinkByName ifn s.links with
      | error e =>
        rw [hlink] at h1
        dsimp only at h1
        exact absurd h1 (by simp)
      | ok fl =>
        rw [hlink] at h1
        dsimp only at h1
        cases hstep : modeStep w fl cidr gw nat usm uebm mode tt s with
        | mk s' r =>
          rw [hstep] at h1
          cases r with
          | error e =>
            dsimp only at h1
            exact absurd h1 (by simp)
          | ok u =>
            cases u
            dsimp only at h1
            rcases modeStep_shape w fl cidr gw nat usm uebm mode tt s with ⟨R, hsh⟩ | ⟨e, hsh⟩
            swap
            · rw [hstep] at hsh
              exact absurd hsh (by simp)
            rw [hstep] at hsh
            rw [Prod.mk.injEq] at hsh
            obtain ⟨hs'eq, -⟩ := hsh
            subst hs'eq
            rw [appendHighestUnusedPriorityRuleIfNotExist] at h1
            dsimp only at h1
            rw [checkIfRuleExist_none_any_table cidr s.rules tt hex] at h1
            dsimp only at h1
            cases hprio : findHighestUnusedRulePriority s.rules with
            | error e =>
              rw [hprio] at h1
              dsimp only at h1
              exact absurd h1 (by simp)
            | ok p =>
              rw [hprio] at h1
              dsimp only at h1
              rw [Prod.mk.injEq] at h1
              obtain ⟨hs1, -⟩ := h1
              subst hs1
              dsimp only
              rw [checkIfRuleExist_append_self cidr s.rules
                ⟨some cidr, tt, p, fromRuleMark, fromRuleMask⟩ hex rfl]
              dsimp only
              rw [hlink]
              dsimp only
              by_cases hm1 : mode = NetworkModeVxlan
              · rw [modeStep, if_pos hm1] at hstep ⊢
                rw [ensureRoutesForVxlanSubnet_idem2 fl cidr tt nat usm uebm s _
                  ⟨s.rules ++ [(⟨some cidr, tt, p, fromRuleMark, fromRuleMask⟩ : Rule)],
                    R, s.links, s.addrs⟩ hnorm husm hueb hdisj hstep rfl]
              · by_cases hm2 : mode = NetworkModeVlan
                · rw [modeStep, if_neg hm1, if_pos hm2] at hstep ⊢
                  rw [ensureRoutesForVlanSubnet_idem2 w fl cidr gw tt s _
                    ⟨s.rules ++ [(⟨some cidr, tt, p, fromRuleMark, fromRuleMask⟩ : Rule)],
                      R, s.links, s.addrs⟩ hnorm hcidr hstep rfl rfl]
                · by_cases hm3 : mode = NetworkModeBGP ∨ mode = NetworkModeGlobalBGP
                  · rw [modeStep, if_neg hm1, if_neg hm2, if_pos hm3] at hstep ⊢
                    rw [ensureRoutesForBGPSubnet_idem2 fl cidr tt gw s _
                      ⟨s.rules ++ [(⟨some cidr, tt, p, fromRuleMark, fromRuleMask⟩ : Rule)],
                        R, s.links, s.addrs⟩ hstep rfl]
                  · rw [modeStep, if_neg hm1, if_neg hm2, if_neg hm3] at hstep
                    exact absurd hstep (by simp)

lemma findPrioAux_error (used : List ℤ) (nodeLocal : ℤ) :
    ∀ (fuel : ℕ) (i : ℤ), (∀ p : ℤ, i ≤ p → p < i + fuel → ¬(nodeLocal < p)) →
      ∃ e, findPrioAux used nodeLocal i fuel = .error e := by
  intro fuel
  induction fuel with
  | zero =>
    intro i _
    exact ⟨_, rfl⟩
  | succ n ih =>
    intro i h
    rw [findPrioAux]
    rw [if_neg (by
      simp only [Bool.and_eq_true, Bool.not_eq_true', decide_eq_true_iff, not_and]
      intro _
      have := h i (le_refl _) (by push_cast; omega)
      omega)]
    exact ih (i + 1) (fun p h1 h2 => h p (by omega) (by push_cast at h2 ⊢; omega))

def cx5rules : List Rule := [⟨none, 255, 32767, 0, 0⟩]

lemma c5prio_error : ∃ e, findHighestUnusedRulePriority cx5rules = .error e := by
  unfold findHighestUnusedRulePriority
  apply findPrioAux_error
  intro p h1 h2
  have hn : nodeLocalRulePrio cx5rules = 32767 := by decide
  rw [hn]
  push_cast at h2
  omega

def cx5s0 : NetState := ⟨cx5rules, [], [⟨"eth0", 3⟩], []⟩

def cx5s1 : NetState :=
  ⟨cx5rules, [⟨3, none, 10000, RT_SCOPE_UNIVERSE, none, 0, none⟩], [⟨"eth0", 3⟩], []⟩

def cx5s2 : NetState :=
  ⟨cx5rules, [⟨3, none, 10000, RT_SCOPE_UNIVERSE, none, 0, none⟩,
    ⟨3, none, 10001, RT_SCOPE_UNIVERSE, none, 0, none⟩], [⟨"eth0", 3⟩], []⟩

lemma cx5_call1 :
    ∃ e, ensureFromPodSubnetRuleAndRoutes 32 "eth0" ⟨0, 24⟩ none false [] [] "BGP" cx5s0 =
      (cx5s1, .error e) := by
  obtain ⟨e, he⟩ := c5prio_error
  refine ⟨e, ?_⟩
  rw [ensureFromPodSubnetRuleAndRoutes]
  rw [show checkIfRuleExist (some ⟨0, 24⟩) (-1) cx5s0.rules = none from by decide]
  dsimp only
  rw [show findEmptyRouteTable cx5s0.routes = .ok 10000 from by decide]
  dsimp only
  rw [show LinkByName "eth0" cx5s0.links = .ok ⟨"eth0", 3⟩ from by decide]
  dsimp only
  rw [show modeStep 32 ⟨"eth0", 3⟩ ⟨0, 24⟩ none false [] [] "BGP" 10000 cx5s0 =
    (cx5s1, .ok ()) from by decide]
  dsimp only
  rw [appendHighestUnusedPriorityRuleIfNotExist]
  rw [show checkIfRuleExist (some ⟨0, 24⟩) 10000 cx5s1.rules = none from by decide]
  dsimp only
  rw [show cx5s1.rules = cx5rules from rfl, he]

lemma cx5_call2 :
    ∃ e, ensureFromPodSubnetRuleAndRoutes 32 "eth0" ⟨0, 24⟩ none false [] [] "BGP" cx5s1 =
      (cx5s2, .error e) := by
  obtain ⟨e, he⟩ := c5prio_error
  refine ⟨e, ?_⟩
  rw [ensureFromPodSubnetRuleAndRoutes]
  rw [show checkIfRuleExist (some ⟨0, 24⟩) (-1) cx5s1.rules = none from by decide]
  dsimp only
  rw [show findEmptyRouteTable cx5s1.routes = .ok 10001 from by decide]
  dsimp only
  rw [show LinkByName "eth0" cx5s1.links = .ok ⟨"eth0", 3⟩ from by decide]
  dsimp only
  rw [show modeStep 32 ⟨"eth0", 3⟩ ⟨0, 24⟩ none false [] [] "BGP" 10001 cx5s1 =
    (cx5s2, .ok ()) from by decide]
  dsimp only
  rw [appendHighestUnusedPriorityRuleIfNotExist]
  rw [show checkIfRuleExist (some ⟨0, 24⟩) 10001 cx5s2.rules = none from by decide]
  dsimp only
  rw [show cx5s2.rules = cx5rules from rfl, he]

/-- **C5** counterexample to the frozen claim: with every rule priority above
the node-local rule's priority exhausted (a single table-255 rule at priority
32767), the first reconciliation pass allocates table 10000, writes its
default route, then fails to install the policy rule; the second pass with
identical input cannot find the table (no rule records it), allocates table
10001 and writes a second route — the state after the second call differs
from the state after the first. -/
theorem ensureFromPodSubnetRuleAndRoutes_c5_counterexample :
    (∃ e, ensureFromPodSubnetRuleAndRoutes 32 "eth0" ⟨0, 24⟩ none false [] [] "BGP" cx5s0 =
      (cx5s1, .error e)) ∧
    (∃ e, ensureFromPodSubnetRuleAndRoutes 32 "eth0" ⟨0, 24⟩ none false [] [] "BGP" cx5s1 =
      (cx5s2, .error e)) ∧
    cx5s2 ≠ cx5s1 :=
  ⟨cx5_call1, cx5_call2, by decide⟩

def c5s0 : NetState := ⟨[], [], [⟨"eth1", 7⟩], []⟩

def c5s1 : NetState :=
  ⟨[⟨some ⟨0, 24⟩, 10000, 1, fromRuleMark, fromRuleMask⟩],
   [⟨7, none, 10000, RT_SCOPE_UNIVERSE, some 1, 0, none⟩], [⟨"eth1", 7⟩], []⟩

/-- Witness for C5: after a successful BGP reconciliation of an empty kernel
state, repeating the call leaves the state untouched and succeeds. -/
theorem ensureFromPodSubnetRuleAndRoutes_idem_witness :
    ensureFromPodSubnetRuleAndRoutes 32 "eth1" ⟨0, 24⟩ (some 1) false [] [] "BGP" c5s1 =
      (c5s1, .ok ()) :=
  ensureFromPodSubnetRuleAndRoutes_idem 32 "eth1" ⟨0, 24⟩ (some 1) false [] [] "BGP"
    c5s0 c5s1 (by decide) (by decide) (by decide) (by decide) (by decide) (by decide)
